import Mathlib

/-!
Verification development for the healthcare-data-harmonization-lineage graph
builder (package `graph`: generate.go, graph.go, test_helper.go).

The Go code is shallowly embedded:
* protobuf IR messages (`mbp.MappingConfig`, `mbp.FieldMapping`,
  `mbp.ValueSource`, `mbp.ProjectorDefinition`) become inductive types;
* Go maps become association lists with deterministic iteration order
  (Go map iteration order is unspecified, so any fixed order is a valid
  refinement of the code for the properties studied here);
* the package-global ID counter `autoIncID` becomes an explicitly threaded
  integer state;
* Go recursion that is not structurally terminating receives an explicit
  `fuel : Nat` argument; every recursive call inside such a function uses
  `fuel - 1`, and exhaustion yields the distinguished error
  `Err.fuelExhausted` (the Go counterpart of such a run is divergence);
* `fmt.Errorf` error wrapping that merely adds context is modelled as
  propagating the underlying error value; each distinct error *creation*
  site gets its own `Err` constructor.
-/

namespace Lineage

/-! ## Association-list helpers (the embedding of Go maps) -/

/-- Lookup of a key in an association list (Go `m[k]`): first matching entry. -/
def alookup {κ α : Type} [DecidableEq κ] : List (κ × α) → κ → Option α
  | [], _ => none
  | (k', v) :: rest, k => if k' = k then some v else alookup rest k

/-- Go map assignment `m[k] = v`: replace the first entry with key `k`,
or append a new entry. -/
def aset {κ α : Type} [DecidableEq κ] : List (κ × α) → κ → α → List (κ × α)
  | [], k, v => [(k, v)]
  | (k', v') :: rest, k, v =>
    if k' = k then (k, v) :: rest else (k', v') :: aset rest k v

theorem alookup_aset_self {κ α : Type} [DecidableEq κ] (l : List (κ × α)) (k : κ) (v : α) :
    alookup (aset l k v) k = some v := by
  induction l with
  | nil => simp [aset, alookup]
  | cons hd tl ih =>
    obtain ⟨k', v'⟩ := hd
    by_cases h : k' = k
    · simp [aset, h, alookup]
    · simp [aset, h, alookup, ih]

theorem alookup_aset_ne {κ α : Type} [DecidableEq κ] (l : List (κ × α)) (k k' : κ) (v : α)
    (h : k ≠ k') : alookup (aset l k v) k' = alookup l k' := by
  induction l with
  | nil => simp [aset, alookup, h]
  | cons hd tl ih =>
    obtain ⟨k0, v0⟩ := hd
    by_cases h0 : k0 = k
    · subst h0
      simp [aset, alookup, h]
    · simp only [aset, if_neg h0]
      by_cases h1 : k0 = k'
      · simp [alookup, h1]
      · simp [alookup, h1, ih]

theorem alookup_mem {κ α : Type} [DecidableEq κ] {l : List (κ × α)} {k : κ} {v : α}
    (h : alookup l k = some v) : (k, v) ∈ l := by
  induction l with
  | nil => simp [alookup] at h
  | cons hd tl ih =>
    obtain ⟨k', v'⟩ := hd
    by_cases h0 : k' = k
    · subst h0
      simp [alookup] at h
      subst h
      exact List.mem_cons_self _ _
    · simp [alookup, h0] at h
      exact List.mem_cons_of_mem _ (ih h)

/-- Go `appendOrAddID` (generate.go): append an id to the list at a key,
creating the list if absent. -/
def appendOrAddID (idLists : List (String × List Int)) (id : Int) (name : String) :
    List (String × List Int) :=
  match alookup idLists name with
  | some idList => aset idLists name (idList ++ [id])
  | none => aset idLists name [id]

/-! ## The whistler IR (mbp protobuf messages)

`ValueSource` is recursive through its `projected_value` arm and its
`additional_arg` list, so it is defined in a mutual block with a bespoke
list type (Lean cannot derive decidable equality through nested `List`). -/

mutual

/-- `mbp.ValueSource`: a oneof `source`, an optional outer `projector`
name (empty string when absent, as in proto3), and `additional_arg`. -/
inductive ValueSource : Type where
  | mk (source : SourceOneof) (projector : String) (additionalArg : VSList)
deriving DecidableEq

/-- The `source` oneof of `mbp.ValueSource`; `unset` is the nil oneof. -/
inductive SourceOneof : Type where
  | unset
  | constBool (b : Bool)
  | constInt (i : Int)
  | constFloat (f : Int)
  | constString (s : String)
  | fromInput (arg : Int) (field : String)
  | fromDestination (dest : String)
  | fromLocalVar (v : String)
  | projectedValue (inner : OptVS)
deriving DecidableEq

/-- An optional `ValueSource` (the nilable `ProjectedValue` pointer). -/
inductive OptVS : Type where
  | none
  | some (v : ValueSource)
deriving DecidableEq

/-- A list of `ValueSource` (the `additional_arg` repeated field). -/
inductive VSList : Type where
  | nil
  | cons (hd : ValueSource) (tl : VSList)
deriving DecidableEq

end

/-- `GetSource()` of a `ValueSource`. -/
def ValueSource.source : ValueSource → SourceOneof
  | .mk s _ _ => s

/-- `GetProjector()` of a `ValueSource`. -/
def ValueSource.projector : ValueSource → String
  | .mk _ p _ => p

/-- `GetAdditionalArg()` of a `ValueSource`. -/
def ValueSource.additionalArg : ValueSource → VSList
  | .mk _ _ a => a

/-- Convert the bespoke argument list to an ordinary list for iteration. -/
def VSList.toList : VSList → List ValueSource
  | .nil => []
  | .cons hd tl => hd :: tl.toList

/-- The `target` oneof of `mbp.FieldMapping`. -/
inductive MTarget : Type where
  | targetField (name : String)
  | targetLocalVar (name : String)
  | targetRootField (name : String)
  | targetObject (name : String)
deriving DecidableEq

/-- `mbp.FieldMapping`. All three fields are nilable in Go. -/
structure FieldMapping : Type where
  target : Option MTarget
  valueSource : Option ValueSource
  condition : Option ValueSource
deriving DecidableEq

/-- `mbp.ProjectorDefinition`. -/
structure ProjectorDefinition : Type where
  name : String
  mapping : List FieldMapping
deriving DecidableEq

/-- `mbp.MappingConfig`. -/
structure MappingConfig : Type where
  projector : List ProjectorDefinition
  rootMapping : List FieldMapping
deriving DecidableEq

/-- A `proto.Message` as stored in nodes: one of the three message kinds the
builder ever attaches (`FieldMapping`, `ValueSource`, `ProjectorDefinition`).
Equality of `Msg` is the embedding of `cmp.Equal(..., protocmp.Transform())`. -/
inductive Msg : Type where
  | fieldMapping (m : FieldMapping)
  | valueSource (v : ValueSource)
  | projectorDef (p : ProjectorDefinition)
deriving DecidableEq

/-! ## Nodes (graph.go) -/

/-- `graph.FileMetaData`. Opaque to the builder; carried for the serializer. -/
structure FileMetaData : Type where
  fileName : String
  lineStart : Int
  lineEnd : Int
  charStart : Int
  charEnd : Int
deriving DecidableEq

/-- The zero value of `FileMetaData`. -/
def FileMetaData.zero : FileMetaData := ⟨"", 0, 0, 0, 0⟩

/-- `graph.TargetNode`. -/
structure TargetND : Type where
  id : Int
  name : String
  context : String
  isVariable : Bool
  isOverwrite : Bool
  isRoot : Bool
  isOut : Bool
  fileData : FileMetaData
  msg : Msg
deriving DecidableEq

/-- `graph.ConstBoolNode`. -/
structure ConstBoolND : Type where
  id : Int
  value : Bool
  context : String
  fileData : FileMetaData
  msg : Msg
deriving DecidableEq

/-- `graph.ConstIntNode`. -/
structure ConstIntND : Type where
  id : Int
  value : Int
  context : String
  fileData : FileMetaData
  msg : Msg
deriving DecidableEq

/-- `graph.ConstFloatNode`. The float32 payload is opaque to the builder
(it is only stored and compared), so it is modelled by its bit value. -/
structure ConstFloatND : Type where
  id : Int
  value : Int
  context : String
  fileData : FileMetaData
  msg : Msg
deriving DecidableEq

/-- `graph.ConstStringNode`. -/
structure ConstStringND : Type where
  id : Int
  value : String
  context : String
  fileData : FileMetaData
  msg : Msg
deriving DecidableEq

/-- `graph.ProjectorNode`. -/
structure ProjectorND : Type where
  id : Int
  name : String
  context : String
  isBuiltin : Bool
  fileData : FileMetaData
  msg : Msg
deriving DecidableEq

/-- `graph.ArgumentNode`. -/
structure ArgumentND : Type where
  id : Int
  index : Int
  field : String
  context : String
  fileData : FileMetaData
  msg : Msg
deriving DecidableEq

/-- `graph.RootNode`. -/
structure RootND : Type where
  id : Int
  field : String
  context : String
  fileData : FileMetaData
  msg : Msg
deriving DecidableEq

/-- The `graph.Node` interface: a tagged sum of the implementations. -/
inductive Node : Type where
  | target (n : TargetND)
  | constBool (n : ConstBoolND)
  | constInt (n : ConstIntND)
  | constFloat (n : ConstFloatND)
  | constString (n : ConstStringND)
  | projector (n : ProjectorND)
  | argument (n : ArgumentND)
  | root (n : RootND)
deriving DecidableEq

/-- `Node.ID()`. -/
def Node.id : Node → Int
  | .target n => n.id
  | .constBool n => n.id
  | .constInt n => n.id
  | .constFloat n => n.id
  | .constString n => n.id
  | .projector n => n.id
  | .argument n => n.id
  | .root n => n.id

/-- `Node.protoMsg()`. -/
def Node.protoMsg : Node → Msg
  | .target n => n.msg
  | .constBool n => n.msg
  | .constInt n => n.msg
  | .constFloat n => n.msg
  | .constString n => n.msg
  | .projector n => n.msg
  | .argument n => n.msg
  | .root n => n.msg

/-- The Go type test `node.(*ProjectorNode)`. -/
def Node.isProjector : Node → Bool
  | .projector _ => true
  | _ => false

/-- The Go type test `node.(*TargetNode)`. -/
def Node.isTarget : Node → Bool
  | .target _ => true
  | _ => false

/-- The Go type test `node.(*ArgumentNode)`. -/
def Node.isArgument : Node → Bool
  | .argument _ => true
  | _ => false

/-! ## Lineage records and environments (generate.go) -/

/-- `graph.targetLineage`: a target node together with the targets below it,
keyed by name. The Go struct holds a `*TargetNode`, hence `TargetND` here. -/
inductive TargetLineage : Type where
  | mk (node : TargetND) (childTargets : List (String × List TargetLineage))

/-- The target node of a lineage. -/
def TargetLineage.node : TargetLineage → TargetND
  | .mk n _ => n

/-- The child-target map of a lineage. -/
def TargetLineage.childTargets : TargetLineage → List (String × List TargetLineage)
  | .mk _ ct => ct

/-- `graph.argLineage`: like `targetLineage` but with an arbitrary entry node
and a nilable child map (`nil` unless the argument is a target or projector). -/
structure ArgLineage : Type where
  node : Node
  childTargets : Option (List (String × List TargetLineage))

/-- `graph.appendOrAddTargetLineage`. -/
def appendOrAddTargetLineage (childTargets : List (String × List TargetLineage))
    (lineage : TargetLineage) (name : String) : List (String × List TargetLineage) :=
  match alookup childTargets name with
  | some childLineage => aset childTargets name (childLineage ++ [lineage])
  | none => aset childTargets name [lineage]

/-- `graph.env`: the lexical scope. `parent` is a snapshot of the enclosing
environment (in Go it is a pointer; the snapshot is observationally equivalent
because the only reader of `parent` is `readVarFromEnv`). -/
inductive Env : Type where
  | mk (name : String) (parent : Option Env) (args : List (List ArgLineage))
       (targets : List (String × List TargetLineage))
       (vars : List (String × List TargetLineage))

/-- The projector name of the scope. -/
def Env.name : Env → String
  | .mk n _ _ _ _ => n

/-- The parent scope (populated only for anonymous-block closures). -/
def Env.parent : Env → Option Env
  | .mk _ p _ _ _ => p

/-- The positional argument bindings. -/
def Env.args : Env → List (List ArgLineage)
  | .mk _ _ a _ _ => a

/-- The targets written so far in this scope. -/
def Env.targets : Env → List (String × List TargetLineage)
  | .mk _ _ _ t _ => t

/-- The local variables written so far in this scope. -/
def Env.vars : Env → List (String × List TargetLineage)
  | .mk _ _ _ _ v => v

/-- Replace the `targets` table of a scope. -/
def Env.withTargets : Env → List (String × List TargetLineage) → Env
  | .mk n p a _ v, t => .mk n p a t v

/-- Replace the `vars` table of a scope. -/
def Env.withVars : Env → List (String × List TargetLineage) → Env
  | .mk n p a t _, v => .mk n p a t v

/-- `graph.whistlerNode`: a message plus the context needed to interpret it. -/
structure WhistlerNode : Type where
  msg : Option Msg
  projSource : Option ValueSource
  nodeInGraph : Option Node

/-- `graph.ancestorCollection`. -/
structure AncestorCollection : Type where
  mainAncestors : List WhistlerNode
  projectorArgs : List (List WhistlerNode)
  conditions : List WhistlerNode

/-- Error kinds, one per distinct `fmt.Errorf` creation site that the claims
can observe.  Wrapping that merely adds context is modelled as propagation. -/
inductive Err : Type where
  /-- A fuel-exhausted run; the Go counterpart is divergence. -/
  | fuelExhausted
  /-- newNode, valueSourceNode, targetNode, valueSourceAncestors,
  getAllAncestors: unsupported message variant. -/
  | unsupportedMessage
  /-- fieldMappingAncestors: a FieldMapping without a value source. -/
  | missingSource
  /-- whistlerNodesFromValueSource: a projector name not in the table. -/
  | unknownProjector (name : String)
  /-- whistlerNodesFromValueSource: a ProjectedValue source with nil inner. -/
  | noProjectedValue
  /-- findNodesInGraph: a dotted path with no matching target. -/
  | pathNotFound (path : List String)
  /-- readVarFromEnv: variable not found in the scope chain. -/
  | unknownLocalVar (name : String)
  /-- argumentAncestor: out-of-bounds 0-based argument index. -/
  | argIndexOutOfRange (index : Int)
  /-- argumentAncestor: an argLineage with nil cached childTargets. -/
  | lineageNotCached
  /-- addNode: a fresh node whose id is already in `Nodes`. -/
  | nodeAlreadyInGraph (id : Int)
  /-- addNode: the descendant has no entry in the adjacency map. -/
  | danglingEdge (id : Int)
  /-- addNode: the attachment would make the mapping recursive. -/
  | recursiveMapping (id : Int)
  /-- isRecursive / isRecursiveHelper / writeTargetLineage /
  addArgLineages: an id without a `Nodes`, `Edges` or `targetLineages`
  entry. -/
  | missingGraphEntry (id : Int)
deriving DecidableEq

/-- `graph.Graph`: the four adjacency maps, the node table, and the internal
`targetLineages` cache. -/
structure GraphState : Type where
  edges : List (Int × List Int)
  argumentEdges : List (Int × List Int)
  conditionEdges : List (Int × List Int)
  rootAndOutTargets : List (String × List Int)
  nodes : List (Int × Node)
  targetLineages : List (Int × TargetLineage)

/-- The empty graph built at the start of `New`. -/
def GraphState.empty : GraphState := ⟨[], [], [], [], [], []⟩

/-- Builder state: the graph plus the ID counter.  In Go the counter is the
package-global `autoIncID` (graph.go); it is threaded explicitly here, which
makes its persistence across builds visible. -/
structure BState : Type where
  g : GraphState
  ctr : Int

/-- The projector table built by `New`. -/
def ProjTable : Type := List (String × ProjectorDefinition)

/-! ## Pure helpers -/

/-- The comparison loop of `matchUpToDiff`: do the two lists agree on their
first `min`-length prefix? -/
def matchLoop : List String → List String → Bool
  | p :: ps, t :: ts => p = t && matchLoop ps ts
  | _, _ => true

/-- `graph.matchUpToDiff` (generate.go): the length of the shorter path if
the shorter is a prefix of the longer, else 0. -/
def matchUpToDiff (path targetPath : List String) : Nat :=
  if matchLoop path targetPath then min path.length targetPath.length else 0

/-- `strings.TrimLeft(s, ".")`. -/
def trimLeftDots (s : String) : String := ⟨s.data.dropWhile (· = '.')⟩

/-- `strings.HasPrefix(s, pre)`, over the character lists. -/
def strHasPre (pre s : String) : Bool := List.isPrefixOf pre.data s.data

/-- The character loop of `strings.Split(s, ".")`. -/
def splitDotsAux : List Char → List Char → List String
  | [], acc => [⟨acc.reverse⟩]
  | c :: rest, acc =>
    if c = '.' then (⟨acc.reverse⟩ : String) :: splitDotsAux rest []
    else splitDotsAux rest (c :: acc)

/-- `strings.Split(s, ".")`: split on every dot; the empty string yields
`[""]`, as in Go. -/
def splitDots (s : String) : List String := splitDotsAux s.data []

/-- `graph.flatten` (generate.go). -/
def flatten (wstlrNodeLists : List (List WhistlerNode)) : List WhistlerNode :=
  wstlrNodeLists.foldl (fun acc l => acc ++ l) []

/-! ## findNodesInGraph (generate.go)

The Go function recurses with a strictly shorter path, through two nested
loops.  Mutual recursion is modelled by open recursion: each function body
takes the previous fuel level's pack of functions, and a single structural
recursion on fuel ties the knot (this keeps kernel reduction linear).
Errors of the inner recursive call are discarded (`nodes, _ := ...`),
exactly as in the source. -/

/-- The three mutually recursive functions around `findNodesInGraph`. -/
structure FindPack : Type where
  fng : List String → Option Node → List (String × List TargetLineage) →
    Except Err (List Node)
  fngEntries : List String → List (String × List TargetLineage) → List Node
  fngList : List String → List TargetLineage → List Node

/-- Body of `graph.findNodesInGraph`: resolve a path of target names
against a lineage map, returning all matching previously generated nodes. -/
def fngF (p : FindPack) (path : List String) (currNode : Option Node)
    (lineages : List (String × List TargetLineage)) : Except Err (List Node) :=
  match path with
  | [] =>
    match currNode with
    | none => .error (.pathNotFound path)
    | some n => .ok [n]
  | _ :: _ =>
    match p.fngEntries path lineages with
    | [] => .error (.pathNotFound path)
    | matchingNodes => .ok matchingNodes

/-- Body of the loop over the lineage-map entries inside
`findNodesInGraph`. -/
def fngEntriesF (p : FindPack) (path : List String)
    (entries : List (String × List TargetLineage)) : List Node :=
  match entries with
  | [] => []
  | (targetName, ls) :: rest =>
    let numMatchingNodes := matchUpToDiff (splitDots targetName) path
    (if numMatchingNodes > 0 then p.fngList (path.drop numMatchingNodes) ls else [])
      ++ p.fngEntries path rest

/-- Body of the loop over one entry's lineages inside `findNodesInGraph`. -/
def fngListF (p : FindPack) (rest : List String) (ls : List TargetLineage) : List Node :=
  match ls with
  | [] => []
  | childLineage :: more =>
    ((p.fng rest (some (.target childLineage.node))
        childLineage.childTargets).toOption.getD [])
      ++ p.fngList rest more

/-- The fuel-indexed tower of the `findNodesInGraph` recursion. -/
def findPacks : Nat → FindPack
  | 0 => ⟨fun _ _ _ => .error .fuelExhausted, fun _ _ => [], fun _ _ => []⟩
  | fuel + 1 => ⟨fngF (findPacks fuel), fngEntriesF (findPacks fuel), fngListF (findPacks fuel)⟩

/-- `graph.findNodesInGraph` (generate.go). -/
def findNodesInGraph (fuel : Nat) (path : List String) (currNode : Option Node)
    (lineages : List (String × List TargetLineage)) : Except Err (List Node) :=
  (findPacks fuel).fng path currNode lineages

/-- `graph.readVarFromEnv` (generate.go): look a variable up in the scope
chain, falling back to the parent transitively. -/
def readVarFromEnv (varName : String) : Env → Except Err (List TargetLineage)
  | .mk _ parent _ _ vars =>
    match alookup vars varName with
    | some targetLineages => .ok targetLineages
    | none =>
      match parent with
      | some p => readVarFromEnv varName p
      | none => .error (.unknownLocalVar varName)

/-- `graph.whistlerNodesFromValueSource` (generate.go). -/
def whistlerNodesFromValueSource (fuel : Nat) :
    ValueSource → Env → Bool → ProjTable → Except Err (List WhistlerNode)
  | source@(.mk src proj _), wstlrEnv, fromMapping, projectors =>
    if fromMapping = true ∧ proj ≠ "" then
      match alookup projectors proj with
      | none => .error (.unknownProjector proj)
      | some projDef => .ok [⟨some (.projectorDef projDef), some source, none⟩]
    else
      match src with
      | .fromDestination dest => do
        let nodesInGraph ← findNodesInGraph fuel (splitDots dest) none wstlrEnv.targets
        .ok (nodesInGraph.map fun n => ⟨some (.valueSource source), none, some n⟩)
      | .fromLocalVar v => do
        let nodesInGraph ← findNodesInGraph fuel (splitDots v) none wstlrEnv.vars
        .ok (nodesInGraph.map fun n => ⟨some (.valueSource source), none, some n⟩)
      | .projectedValue inner? =>
        match inner? with
        | .none => .error .noProjectedValue
        | .some inner =>
          if proj = "$Not" ∧ inner.projector = "" then
            whistlerNodesFromValueSource fuel inner wstlrEnv fromMapping projectors
          else
            match alookup projectors inner.projector with
            | none => .error (.unknownProjector inner.projector)
            | some projDef => .ok [⟨some (.projectorDef projDef), some inner, none⟩]
      | _ => .ok [⟨some (.valueSource source), none, none⟩]

/-- The per-binding loop of `graph.argumentAncestor`. -/
def processArgEntries (fuel : Nat) (field : String) :
    List ArgLineage → Except Err (List WhistlerNode)
  | [] => .ok []
  | argNode :: rest =>
    if field = "" then do
      let more ← processArgEntries fuel field rest
      .ok (⟨none, none, some argNode.node⟩ :: more)
    else
      match argNode.childTargets with
      | none => .error .lineageNotCached
      | some ct => do
        let path := splitDots (trimLeftDots field)
        let nodesInGraph ← findNodesInGraph fuel path (some argNode.node) ct
        let more ← processArgEntries fuel field rest
        .ok (nodesInGraph.map (fun n => ⟨none, none, some n⟩) ++ more)

/-- `graph.argumentAncestor` (generate.go): whistler arguments are 1-based. -/
def argumentAncestor (fuel : Nat) (arg : Int) (field : String) (e : Env) :
    Except Err (List WhistlerNode) :=
  let index := arg - 1
  if index < 0 ∨ (e.args.length : Int) ≤ index then .error (.argIndexOutOfRange index)
  else
    match e.args.get? index.toNat with
    | none => .error (.argIndexOutOfRange index)
    | some argNodes => processArgEntries fuel field argNodes

/-- `graph.fromInputAncestor` (generate.go): an index one past the bindings
is the synthetic `$root` and has no ancestors. -/
def fromInputAncestor (fuel : Nat) (arg : Int) (field : String) (e : Env) :
    Except Err (List WhistlerNode) :=
  let index := arg - 1
  if index = (e.args.length : Int) then .ok []
  else argumentAncestor fuel arg field e

/-- `graph.valueSourceAncestors` (generate.go). -/
def valueSourceAncestors (fuel : Nat) (msg : ValueSource) (e : Env) :
    Except Err (List WhistlerNode) :=
  match msg.source with
  | .constBool _ => .ok []
  | .constInt _ => .ok []
  | .constFloat _ => .ok []
  | .constString _ => .ok []
  | .fromInput arg field => fromInputAncestor fuel arg field e
  | _ => .error .unsupportedMessage

/-- The loop over `additional_arg` inside `graph.projectorArgs`. -/
def projectorArgsLoop (fuel : Nat) (args : List ValueSource) (wstlrEnv : Env)
    (projectors : ProjTable) : Except Err (List (List WhistlerNode)) :=
  match args with
  | [] => .ok []
  | a :: rest => do
    let w ← whistlerNodesFromValueSource fuel a wstlrEnv false projectors
    let more ← projectorArgsLoop fuel rest wstlrEnv projectors
    .ok (w :: more)

/-- `graph.projectorArgs` (generate.go): slot 0 is the call's primary source,
slot i+1 its i-th additional argument; nothing when the source is unset
(which also covers a nil call-site, as `GetSource()` of nil is nil). -/
def projectorArgs (fuel : Nat) (projValueSource : Option ValueSource) (wstlrEnv : Env)
    (projectors : ProjTable) : Except Err (List (List WhistlerNode)) :=
  match projValueSource with
  | none => .ok []
  | some pvs =>
    match pvs.source with
    | .unset => .ok []
    | _ => do
      let args0 ← whistlerNodesFromValueSource fuel pvs wstlrEnv false projectors
      let restArgs ← projectorArgsLoop fuel pvs.additionalArg.toList wstlrEnv projectors
      .ok (args0 :: restArgs)

/-- `graph.fieldMappingConditions` (generate.go): a `$And` condition is
elided, its positional arguments become the conditions. -/
def fieldMappingConditions (fuel : Nat) (msg : FieldMapping) (wstlrEnv : Env)
    (projectors : ProjTable) : Except Err (List WhistlerNode) :=
  match msg.condition with
  | none => .ok []
  | some rootCondition =>
    if rootCondition.projector = "$And" then do
      let conditions ← projectorArgs fuel (some rootCondition) wstlrEnv projectors
      .ok (flatten conditions)
    else
      whistlerNodesFromValueSource fuel rootCondition wstlrEnv true projectors

/-- `graph.fieldMappingAncestors` (generate.go). -/
def fieldMappingAncestors (fuel : Nat) (msg : FieldMapping) (wstlrEnv : Env)
    (projectors : ProjTable) : Except Err AncestorCollection :=
  match msg.valueSource with
  | none => .error .missingSource
  | some source => do
    let mainAncestors ← whistlerNodesFromValueSource fuel source wstlrEnv true projectors
    let conditions ← fieldMappingConditions fuel msg wstlrEnv projectors
    .ok ⟨mainAncestors, [], conditions⟩

/-- `graph.projectorMappings` (generate.go). -/
def projectorMappings (msg : ProjectorDefinition) : List WhistlerNode :=
  msg.mapping.map fun mapping => ⟨some (.fieldMapping mapping), none, none⟩

/-- `graph.projectorAncestors` (generate.go). -/
def projectorAncestors (fuel : Nat) (msg : ProjectorDefinition)
    (projValueSource : Option ValueSource) (wstlrEnv : Env) (projectors : ProjTable) :
    Except Err AncestorCollection := do
  let mappings := projectorMappings msg
  let args ← projectorArgs fuel projValueSource wstlrEnv projectors
  .ok ⟨mappings, args, []⟩

/-- `graph.getAllAncestors` (generate.go). -/
def getAllAncestors (fuel : Nat) (wstlrNode : WhistlerNode) (wstlrEnv : Env)
    (projectors : ProjTable) : Except Err AncestorCollection :=
  match wstlrNode.msg with
  | some (.fieldMapping m) => fieldMappingAncestors fuel m wstlrEnv projectors
  | some (.valueSource v) => do
    let ancestors ← valueSourceAncestors fuel v wstlrEnv
    .ok ⟨ancestors, [], []⟩
  | some (.projectorDef p) =>
    projectorAncestors fuel p wstlrNode.projSource wstlrEnv projectors
  | none => .error .unsupportedMessage

/-! ## Node constructors (generate.go)

Each constructor calls `newIncID()` exactly once per successful branch;
the counter is the explicit `ctr` state. -/

/-- `graph.targetNode`. -/
def targetNode (msg : FieldMapping) (wstlrEnv : Env) (ctr : Int) :
    Except Err (TargetND × Int) :=
  match msg.target with
  | some (.targetField name) =>
    .ok (⟨ctr, name, wstlrEnv.name, false, false, false, false, .zero, .fieldMapping msg⟩, ctr + 1)
  | some (.targetLocalVar name) =>
    .ok (⟨ctr, name, wstlrEnv.name, true, false, false, false, .zero, .fieldMapping msg⟩, ctr + 1)
  | some (.targetRootField name) =>
    .ok (⟨ctr, name, wstlrEnv.name, false, false, true, false, .zero, .fieldMapping msg⟩, ctr + 1)
  | some (.targetObject name) =>
    .ok (⟨ctr, name, wstlrEnv.name, false, false, false, true, .zero, .fieldMapping msg⟩, ctr + 1)
  | none => .error .unsupportedMessage

/-- `graph.fromInputNode`: one past the bindings denotes `$root`. -/
def fromInputNode (arg : Int) (field : String) (source : ValueSource) (wstlrEnv : Env)
    (ctr : Int) : Node × Int :=
  if arg - 1 = (wstlrEnv.args.length : Int) then
    (.root ⟨ctr, field, wstlrEnv.name, .zero, .valueSource source⟩, ctr + 1)
  else
    (.argument ⟨ctr, arg, field, wstlrEnv.name, .zero, .valueSource source⟩, ctr + 1)

/-- `graph.valueSourceNode`. -/
def valueSourceNode (msg : ValueSource) (wstlrEnv : Env) (ctr : Int) :
    Except Err (Node × Int) :=
  match msg.source with
  | .constBool b => .ok (.constBool ⟨ctr, b, wstlrEnv.name, .zero, .valueSource msg⟩, ctr + 1)
  | .constInt i => .ok (.constInt ⟨ctr, i, wstlrEnv.name, .zero, .valueSource msg⟩, ctr + 1)
  | .constFloat f => .ok (.constFloat ⟨ctr, f, wstlrEnv.name, .zero, .valueSource msg⟩, ctr + 1)
  | .constString s => .ok (.constString ⟨ctr, s, wstlrEnv.name, .zero, .valueSource msg⟩, ctr + 1)
  | .fromInput arg field => .ok (fromInputNode arg field msg wstlrEnv ctr)
  | _ => .error .unsupportedMessage

/-- `graph.projectorNode`: `IsBuiltin` is membership in the externally
supplied builtin set `builtins.BuiltinFunctions`, modelled as `bi`. -/
def projectorNode (msg : ProjectorDefinition) (wstlrEnv : Env) (bi : List String)
    (ctr : Int) : ProjectorND × Int :=
  (⟨ctr, msg.name, wstlrEnv.name, bi.contains msg.name, .zero, .projectorDef msg⟩, ctr + 1)

/-- `graph.newNode`. -/
def newNode (msg : Option Msg) (wstlrEnv : Env) (bi : List String) (ctr : Int) :
    Except Err (Node × Int) :=
  match msg with
  | some (.fieldMapping m) => do
    let (t, ctr') ← targetNode m wstlrEnv ctr
    .ok (.target t, ctr')
  | some (.valueSource v) => valueSourceNode v wstlrEnv ctr
  | some (.projectorDef p) =>
    let (pn, ctr') := projectorNode p wstlrEnv bi ctr
    .ok (.projector pn, ctr')
  | none => .error .unsupportedMessage

/-- `graph.getNode`: reuse `nodeInGraph` when present, else build a fresh
node; the Bool is `nodeIsNew`. -/
def getNode (wstlrNode : WhistlerNode) (wstlrEnv : Env) (bi : List String) (ctr : Int) :
    Except Err (Node × Bool × Int) :=
  match wstlrNode.nodeInGraph with
  | none => do
    let (node, ctr') ← newNode wstlrNode.msg wstlrEnv bi ctr
    .ok (node, true, ctr')
  | some node => .ok (node, false, ctr)

/-- The projector-table construction in `graph.New` (generate.go lines
59-68): user-defined projectors first, then every externally supplied
built-in name bound to an empty-body definition (overwriting on collision,
as the Go map writes do). -/
def newProjectorTable (userProjs : List ProjectorDefinition) (bi : List String) :
    ProjTable :=
  let t := userProjs.foldl (fun t p => aset t p.name p) []
  bi.foldl (fun t name => aset t name ⟨name, []⟩) t

/-! ## Recursion detection (generate.go: isRecursive, isRecursiveHelper)

The Go DFS has no visited set and can diverge on a cyclic graph; it is
modelled with fuel, exhaustion being the image of divergence. -/

/-- The previous-appearance scan of `isRecursive`: ids of all nodes whose
payload equals the given one. -/
def appearancesOf (nodes : List (Int × Node)) (msg : Msg) : List Int :=
  (nodes.filter fun p => p.2.protoMsg = msg).map Prod.fst

/-- The ancestor-collection loop of `isRecursive`. -/
def collectAncestors (g : GraphState) : List Int → Except Err (List Int)
  | [] => .ok []
  | id :: rest =>
    match alookup g.edges id with
    | none => .error (.missingGraphEntry id)
    | some ancestorsToAppend => do
      let more ← collectAncestors g rest
      .ok (ancestorsToAppend ++ more)

/-- The two mutually recursive functions of the recursion-check DFS. -/
structure RecPack : Type where
  helper : GraphState → Int → Int → Except Err Bool
  anyRec : GraphState → Int → List Int → Except Err Bool

/-- Body of `graph.isRecursiveHelper`: DFS through `Edges` that stops at
`Argument` nodes, looking for a node payload-equal to the new node. -/
def isRecursiveHelperF (p : RecPack) (g : GraphState) (newNodeID currNodeID : Int) :
    Except Err Bool :=
  match alookup g.nodes currNodeID with
  | none => .error (.missingGraphEntry currNodeID)
  | some currNode =>
    match alookup g.nodes newNodeID with
    | none => .error (.missingGraphEntry newNodeID)
    | some newNode =>
      if currNode.isArgument then .ok false
      else if newNode.protoMsg = currNode.protoMsg then .ok true
      else
        match alookup g.edges currNodeID with
        | none => .error (.missingGraphEntry currNodeID)
        | some ancestors => p.anyRec g newNodeID ancestors

/-- Body of the loop over DFS start points / ancestors, short-circuiting
on true. -/
def anyRecursiveF (p : RecPack) (g : GraphState) (newNodeID : Int)
    (ancestors : List Int) : Except Err Bool :=
  match ancestors with
  | [] => .ok false
  | startNode :: rest =>
    match p.helper g newNodeID startNode with
    | .error e => .error e
    | .ok true => .ok true
    | .ok false => p.anyRec g newNodeID rest

/-- The fuel-indexed tower of the recursion-check DFS. -/
def recPacks : Nat → RecPack
  | 0 => ⟨fun _ _ _ => .error .fuelExhausted, fun _ _ _ => .error .fuelExhausted⟩
  | fuel + 1 => ⟨isRecursiveHelperF (recPacks fuel), anyRecursiveF (recPacks fuel)⟩

/-- `graph.isRecursiveHelper` (generate.go). -/
def isRecursiveHelper (fuel : Nat) (g : GraphState) (newNodeID currNodeID : Int) :
    Except Err Bool :=
  (recPacks fuel).helper g newNodeID currNodeID

/-- The DFS loop of `graph.isRecursive` (generate.go). -/
def anyRecursive (fuel : Nat) (g : GraphState) (newNodeID : Int)
    (ancestors : List Int) : Except Err Bool :=
  (recPacks fuel).anyRec g newNodeID ancestors

/-- `graph.isRecursive`: from every payload-equal previous appearance,
DFS through its `Edges` ancestors. -/
def isRecursive (fuel : Nat) (g : GraphState) (newNode : Node) : Except Err Bool :=
  match collectAncestors g (appearancesOf g.nodes newNode.protoMsg) with
  | .error e => .error e
  | .ok ancestors => anyRecursive fuel g newNode.id ancestors

/-- The tail of `addNode` after a non-argument append: run `isRecursive`
and fail with the recursive-mapping error on a positive answer. -/
def checkRecursion (fuel : Nat) (g2 : GraphState) (node : Node) : Except Err GraphState :=
  match isRecursive fuel g2 node with
  | .error e => .error e
  | .ok true => .error (.recursiveMapping node.id)
  | .ok false => .ok g2

/-- The insertion phase of `graph.addNode`: a fresh node is installed in
`Nodes` with an empty `Edges` list, plus an empty `ArgumentEdges` list for
projectors and an empty `ConditionEdges` list for targets. -/
def insertNewNode (g : GraphState) (node : Node) (nodeIsNew : Bool) :
    Except Err GraphState :=
  if nodeIsNew then
    match alookup g.nodes node.id with
    | some _ => .error (.nodeAlreadyInGraph node.id)
    | none =>
      let g1 := { g with nodes := aset g.nodes node.id node,
                         edges := aset g.edges node.id [] }
      let g2 := if node.isProjector
                then { g1 with argumentEdges := aset g1.argumentEdges node.id [] }
                else g1
      let g3 := if node.isTarget
                then { g2 with conditionEdges := aset g2.conditionEdges node.id [] }
                else g2
      .ok g3
  else .ok g

/-- `graph.addNode` (generate.go): install a fresh node with its empty
adjacency lists, append it to the appropriate list of the descendant, and
(for non-argument attachments only) run the recursion check. -/
def addNode (fuel : Nat) (g : GraphState) (node : Node) (descendant : Option Node)
    (isArg isCondition nodeIsNew : Bool) : Except Err GraphState :=
  match insertNewNode g node nodeIsNew with
  | .error e => .error e
  | .ok g1 =>
    match descendant with
    | none => .ok g1
    | some descendant =>
      if isArg then
        match alookup g1.argumentEdges descendant.id with
        | none => .error (.danglingEdge descendant.id)
        | some ancestorList =>
          let l2 := aset g1.argumentEdges descendant.id (ancestorList ++ [node.id])
          .ok { g1 with argumentEdges := l2 }
      else if isCondition then
        match alookup g1.conditionEdges descendant.id with
        | none => .error (.danglingEdge descendant.id)
        | some ancestorList =>
          let l2 := aset g1.conditionEdges descendant.id (ancestorList ++ [node.id])
          checkRecursion fuel { g1 with conditionEdges := l2 } node
      else
        match alookup g1.edges descendant.id with
        | none => .error (.danglingEdge descendant.id)
        | some ancestorList =>
          let l2 := aset g1.edges descendant.id (ancestorList ++ [node.id])
          checkRecursion fuel { g1 with edges := l2 } node

/-! ## Target lineage construction (generate.go) -/

/-- The two mutually recursive functions around `writeTargetLineage`. -/
structure WtlPack : Type where
  wtl : Node → List (String × List TargetLineage) → GraphState →
    Except Err (List (String × List TargetLineage))
  wtlIds : List Int → List (String × List TargetLineage) → GraphState →
    Except Err (List (String × List TargetLineage))

/-- Body of `graph.writeTargetLineage`: collect the target children (and
their cached lineages) reachable from a node through non-target
intermediates. -/
def writeTargetLineageF (p : WtlPack) (node : Node)
    (acc : List (String × List TargetLineage)) (g : GraphState) :
    Except Err (List (String × List TargetLineage)) :=
  match alookup g.edges node.id with
  | none => .error (.missingGraphEntry node.id)
  | some idList => p.wtlIds idList acc g

/-- Body of the ancestor loop inside `writeTargetLineage`. -/
def wtlLoopF (p : WtlPack) (ids : List Int) (acc : List (String × List TargetLineage))
    (g : GraphState) : Except Err (List (String × List TargetLineage)) :=
  match ids with
  | [] => .ok acc
  | ancestorID :: rest =>
    match alookup g.nodes ancestorID with
    | none => .error (.missingGraphEntry ancestorID)
    | some ancestor =>
      match ancestor with
      | .target tnd =>
        match alookup g.targetLineages tnd.id with
        | none => .error (.missingGraphEntry tnd.id)
        | some childLineage =>
          p.wtlIds rest (appendOrAddTargetLineage acc childLineage tnd.name) g
      | _ =>
        match p.wtl ancestor acc g with
        | .error e => .error e
        | .ok acc1 => p.wtlIds rest acc1 g

/-- The fuel-indexed tower of the `writeTargetLineage` recursion. -/
def wtlPacks : Nat → WtlPack
  | 0 => ⟨fun _ _ _ => .error .fuelExhausted, fun _ _ _ => .error .fuelExhausted⟩
  | fuel + 1 => ⟨writeTargetLineageF (wtlPacks fuel), wtlLoopF (wtlPacks fuel)⟩

/-- `graph.writeTargetLineage` (generate.go). -/
def writeTargetLineage (fuel : Nat) (node : Node)
    (acc : List (String × List TargetLineage)) (g : GraphState) :
    Except Err (List (String × List TargetLineage)) :=
  (wtlPacks fuel).wtl node acc g

/-- `graph.targetLineageFromGraph`. -/
def targetLineageFromGraph (fuel : Nat) (node : TargetND) (g : GraphState) :
    Except Err TargetLineage :=
  match writeTargetLineage fuel (.target node) [] g with
  | .error e => .error e
  | .ok ct => .ok (.mk node ct)

/-- The childTargets loop for a projector-valued argument in
`graph.addArgLineages`. -/
def projArgCTLoop (g : GraphState) (targetIDs : List Int)
    (acc : List (String × List TargetLineage)) :
    Except Err (List (String × List TargetLineage)) :=
  match targetIDs with
  | [] => .ok acc
  | targetID :: rest =>
    match alookup g.targetLineages targetID with
    | none => .error (.missingGraphEntry targetID)
    | some lineage => projArgCTLoop g rest (appendOrAddTargetLineage acc lineage lineage.node.name)

/-- The childTargets computation for one argument node in
`graph.addArgLineages`: a target's cached child map, a projector's
immediate `Edges` targets, `nil` otherwise. -/
def argChildTargets (node : Node) (g : GraphState) :
    Except Err (Option (List (String × List TargetLineage))) :=
  match node with
  | .target tnd =>
    match alookup g.targetLineages tnd.id with
    | none => .error (.missingGraphEntry tnd.id)
    | some l => .ok (some l.childTargets)
  | .projector pnd =>
    match alookup g.edges pnd.id with
    | none => .error (.missingGraphEntry pnd.id)
    | some targetIDs =>
      match projArgCTLoop g targetIDs [] with
      | .error e => .error e
      | .ok ct => .ok (some ct)
  | _ => .ok none

/-! ## The recursive graph builder (generate.go)

The seven mutually recursive builder functions are modelled by open
recursion: each body takes the previous fuel level's pack, and a single
structural recursion on fuel (`buildPacks`) ties the knot.  Every
recursive call thus consumes one unit of fuel; a successful Go run
corresponds to any sufficiently large fuel.

In Go the environment is a `*env` whose `targets`/`vars` maps are mutated
in place (`appendOrAddTargetLineage` in `addMainAncestorLineages`), and the
mutations persist in the enclosing scope through the shared pointer.  Each
execution context holds exactly one live alias of the environment it may
mutate: the same pointer is passed down every recursive call, a projector
descendant switches to a freshly allocated environment whose later
mutations are reachable from the caller only through the never-read
`parent` back-link, and all other cross-links (`parent` snapshots, the
immutable `targetLineage` records inside `args`) are never mutated after
creation.  In-place mutation of a uniquely-aliased object is exactly
state threading, so every builder function here additionally *returns*
the updated environment, and each caller continues with the returned
value — `addConditionLineages`' recordings are seen by
`addMainAncestorLineages`, and a nested `addWhistlerLineage`'s recordings
are seen by the remainder of the enclosing loop and by the caller's
caller, as with the Go pointer. -/

/-- The seven mutually recursive functions of the graph builder.  Each
returns the updated environment of its `*env` parameter (Go mutates it in
place); `aargs` returns the updated descendant environment *and* the new
projector environment it allocates. -/
structure BuildPack : Type where
  awl : WhistlerNode → Env → Option Node → Bool → Bool → ProjTable →
    List String → BState → Except Err (Node × Env × BState)
  aal : AncestorCollection → Env → Option Node → ProjTable →
    List String → BState → Except Err (Env × BState)
  aargs : List (List WhistlerNode) → Env → ProjectorND → ProjTable →
    List String → BState → Except Err (Env × Env × BState)
  aargsLists : List (List WhistlerNode) → Env → ProjectorND → ProjTable →
    List String → BState → Except Err (List (List ArgLineage) × Env × BState)
  aargsInner : List WhistlerNode → Env → ProjectorND → ProjTable →
    List String → BState → Except Err (List ArgLineage × Env × BState)
  acond : List WhistlerNode → Env → Option Node → ProjTable →
    List String → BState → Except Err (Env × BState)
  amain : List WhistlerNode → Env → Option Node → ProjTable →
    List String → BState → Except Err (Env × BState)

/-- Body of `graph.addWhistlerLineage`: materialize or reuse a node,
attach it, and (for fresh nodes) recursively add its full lineage.  The
fuel parameter feeds `addNode`'s recursion check and the ancestor
extraction.  The recursive `addAncestorLineages` mutates `wstlrEnv`
through the shared pointer, so its updated environment is returned. -/
def addWhistlerLineageF (fuel : Nat) (p : BuildPack) (wstlrNode : WhistlerNode)
    (wstlrEnv : Env) (descendantNode : Option Node) (isArg isCondition : Bool)
    (projectors : ProjTable) (bi : List String) (s : BState) :
    Except Err (Node × Env × BState) :=
  match getNode wstlrNode wstlrEnv bi s.ctr with
  | .error e => .error e
  | .ok (node, nodeIsNew, ctr1) =>
    match addNode fuel s.g node descendantNode isArg isCondition nodeIsNew with
    | .error e => .error e
    | .ok g1 =>
      if nodeIsNew = false then .ok (node, wstlrEnv, ⟨g1, ctr1⟩)
      else
        match getAllAncestors fuel wstlrNode wstlrEnv projectors with
        | .error e => .error e
        | .ok allAncestors =>
          match p.aal allAncestors wstlrEnv (some node) projectors bi ⟨g1, ctr1⟩ with
          | .error e => .error e
          | .ok (wstlrEnv1, s1) => .ok (node, wstlrEnv1, s1)

/-- Body of `graph.addAncestorLineages`: open a projector scope if needed,
then attach conditions (under the descendant scope) and main ancestors
(under the possibly new scope).  In Go, `ancestorEnv := descendantEnv` and
a projector descendant replaces it with the freshly allocated scope, so
for a non-projector descendant the conditions' mutations of the shared
environment are visible to `addMainAncestorLineages` and the main
ancestors' recordings flow back to the caller, while for a projector
descendant the new scope's final state is dropped (only the never-read
`parent` link still refers to it) and the caller sees the descendant
environment as the arguments and conditions left it. -/
def addAncestorLineagesF (p : BuildPack) (allAncestors : AncestorCollection)
    (descendantEnv : Env) (descendantNode : Option Node) (projectors : ProjTable)
    (bi : List String) (s : BState) : Except Err (Env × BState) :=
  match descendantNode with
  | some (.projector projNode) =>
    match p.aargs allAncestors.projectorArgs descendantEnv projNode projectors bi s with
    | .error e => .error e
    | .ok (denv1, ancestorEnv, s1) =>
      match p.acond allAncestors.conditions denv1 descendantNode projectors bi s1 with
      | .error e => .error e
      | .ok (denv2, s2) =>
        match p.amain allAncestors.mainAncestors ancestorEnv descendantNode projectors
            bi s2 with
        | .error e => .error e
        | .ok (_, s3) => .ok (denv2, s3)
  | _ =>
    match p.acond allAncestors.conditions descendantEnv descendantNode projectors bi s with
    | .error e => .error e
    | .ok (denv1, s1) =>
      match p.amain allAncestors.mainAncestors denv1 descendantNode projectors bi s1 with
      | .error e => .error e
      | .ok (denv2, s2) => .ok (denv2, s2)

/-- Body of `graph.addArgLineages`: add the argument lineages (mutating the
descendant environment) and build the new projector environment (retaining
the parent only for anonymous blocks); both environments are returned. -/
def addArgLineagesF (p : BuildPack) (argLists : List (List WhistlerNode))
    (descendantEnv : Env) (projNode : ProjectorND) (projectors : ProjTable)
    (bi : List String) (s : BState) : Except Err (Env × Env × BState) :=
  match p.aargsLists argLists descendantEnv projNode projectors bi s with
  | .error e => .error e
  | .ok (envArgs, denv1, s1) =>
    let parentEnv : Option Env :=
      if strHasPre "$anon_block_" projNode.name then some denv1 else none
    .ok (denv1, .mk projNode.name parentEnv envArgs [] [], s1)

/-- Body of the outer loop over argument slots in `graph.addArgLineages`. -/
def addArgListsLoopF (p : BuildPack) (argLists : List (List WhistlerNode))
    (descendantEnv : Env) (projNode : ProjectorND) (projectors : ProjTable)
    (bi : List String) (s : BState) :
    Except Err (List (List ArgLineage) × Env × BState) :=
  match argLists with
  | [] => .ok ([], descendantEnv, s)
  | args :: rest =>
    match p.aargsInner args descendantEnv projNode projectors bi s with
    | .error e => .error e
    | .ok (argLins, denv1, s1) =>
      match p.aargsLists rest denv1 projNode projectors bi s1 with
      | .error e => .error e
      | .ok (more, denv2, s2) => .ok (argLins :: more, denv2, s2)

/-- Body of the inner loop over one slot's alternatives in
`graph.addArgLineages`. -/
def addArgInnerLoopF (p : BuildPack) (args : List WhistlerNode) (descendantEnv : Env)
    (projNode : ProjectorND) (projectors : ProjTable) (bi : List String) (s : BState) :
    Except Err (List ArgLineage × Env × BState) :=
  match args with
  | [] => .ok ([], descendantEnv, s)
  | arg :: rest =>
    match p.awl arg descendantEnv (some (.projector projNode)) true false projectors bi s with
    | .error e => .error e
    | .ok (node, denv1, s1) =>
      match argChildTargets node s1.g with
      | .error e => .error e
      | .ok childTargets =>
        match p.aargsInner rest denv1 projNode projectors bi s1 with
        | .error e => .error e
        | .ok (more, denv2, s2) => .ok (⟨node, childTargets⟩ :: more, denv2, s2)

/-- Body of `graph.addConditionLineages`: each condition's lineage may
mutate the shared descendant environment; the loop continues with the
updated environment and returns it. -/
def addConditionLineagesF (p : BuildPack) (conditions : List WhistlerNode)
    (descendantEnv : Env) (descendantNode : Option Node) (projectors : ProjTable)
    (bi : List String) (s : BState) : Except Err (Env × BState) :=
  match conditions with
  | [] => .ok (descendantEnv, s)
  | condition :: rest =>
    match p.awl condition descendantEnv descendantNode false true projectors bi s with
    | .error e => .error e
    | .ok (_, denv1, s1) => p.acond rest denv1 descendantNode projectors bi s1

/-- Body of `graph.addMainAncestorLineages`: attach each main ancestor;
for target nodes, cache the target lineage, record it in the scope
(`appendOrAddTargetLineage(newEnv.vars/targets, ...)` mutates the shared
environment, on top of whatever the recursive `addWhistlerLineage` already
recorded into it), and record root/out targets in the graph.  The fuel
parameter feeds `targetLineageFromGraph`. -/
def addMainAncestorLineagesF (fuel : Nat) (p : BuildPack) (ancestors : List WhistlerNode)
    (newEnv : Env) (descendantNode : Option Node) (projectors : ProjTable)
    (bi : List String) (s : BState) : Except Err (Env × BState) :=
  match ancestors with
  | [] => .ok (newEnv, s)
  | wstlrNode :: rest =>
    match p.awl wstlrNode newEnv descendantNode false false projectors bi s with
    | .error e => .error e
    | .ok (node, env1, s1) =>
      match node with
      | .target targetNd =>
        match targetLineageFromGraph fuel targetNd s1.g with
        | .error e => .error e
        | .ok lineage =>
          let tl1 := aset s1.g.targetLineages targetNd.id lineage
          let g1 := { s1.g with targetLineages := tl1 }
          let newEnv1 :=
            if targetNd.isVariable then
              env1.withVars (appendOrAddTargetLineage env1.vars lineage targetNd.name)
            else
              env1.withTargets (appendOrAddTargetLineage env1.targets lineage targetNd.name)
          let rt1 := appendOrAddID g1.rootAndOutTargets targetNd.id targetNd.name
          let g2 := if targetNd.isOut || targetNd.isRoot
                    then { g1 with rootAndOutTargets := rt1 }
                    else g1
          p.amain rest newEnv1 descendantNode projectors bi ⟨g2, s1.ctr⟩
      | _ => p.amain rest env1 descendantNode projectors bi s1

/-- The all-fuel-exhausted base pack. -/
def buildPackZero : BuildPack :=
  ⟨fun _ _ _ _ _ _ _ _ => .error .fuelExhausted,
   fun _ _ _ _ _ _ => .error .fuelExhausted,
   fun _ _ _ _ _ _ => .error .fuelExhausted,
   fun _ _ _ _ _ _ => .error .fuelExhausted,
   fun _ _ _ _ _ _ => .error .fuelExhausted,
   fun _ _ _ _ _ _ => .error .fuelExhausted,
   fun _ _ _ _ _ _ => .error .fuelExhausted⟩

/-- The fuel-indexed tower of the builder recursion. -/
def buildPacks : Nat → BuildPack
  | 0 => buildPackZero
  | fuel + 1 =>
    ⟨addWhistlerLineageF fuel (buildPacks fuel),
     addAncestorLineagesF (buildPacks fuel),
     addArgLineagesF (buildPacks fuel),
     addArgListsLoopF (buildPacks fuel),
     addArgInnerLoopF (buildPacks fuel),
     addConditionLineagesF (buildPacks fuel),
     addMainAncestorLineagesF fuel (buildPacks fuel)⟩

/-- `graph.addWhistlerLineage` (generate.go). -/
def addWhistlerLineage (fuel : Nat) (wstlrNode : WhistlerNode) (wstlrEnv : Env)
    (descendantNode : Option Node) (isArg isCondition : Bool)
    (projectors : ProjTable) (bi : List String) (s : BState) :
    Except Err (Node × Env × BState) :=
  (buildPacks fuel).awl wstlrNode wstlrEnv descendantNode isArg isCondition projectors bi s

/-- `graph.addAncestorLineages` (generate.go). -/
def addAncestorLineages (fuel : Nat) (allAncestors : AncestorCollection)
    (descendantEnv : Env) (descendantNode : Option Node) (projectors : ProjTable)
    (bi : List String) (s : BState) : Except Err (Env × BState) :=
  (buildPacks fuel).aal allAncestors descendantEnv descendantNode projectors bi s

/-- `graph.addArgLineages` (generate.go). -/
def addArgLineages (fuel : Nat) (argLists : List (List WhistlerNode))
    (descendantEnv : Env) (projNode : ProjectorND) (projectors : ProjTable)
    (bi : List String) (s : BState) : Except Err (Env × Env × BState) :=
  (buildPacks fuel).aargs argLists descendantEnv projNode projectors bi s

/-- `graph.addConditionLineages` (generate.go). -/
def addConditionLineages (fuel : Nat) (conditions : List WhistlerNode)
    (descendantEnv : Env) (descendantNode : Option Node) (projectors : ProjTable)
    (bi : List String) (s : BState) : Except Err (Env × BState) :=
  (buildPacks fuel).acond conditions descendantEnv descendantNode projectors bi s

/-- `graph.addMainAncestorLineages` (generate.go). -/
def addMainAncestorLineages (fuel : Nat) (ancestors : List WhistlerNode)
    (newEnv : Env) (descendantNode : Option Node) (projectors : ProjTable)
    (bi : List String) (s : BState) : Except Err (Env × BState) :=
  (buildPacks fuel).amain ancestors newEnv descendantNode projectors bi s

/-- `graph.New` (generate.go): build the projector table, seed the root
environment, and add the lineage of every root mapping.  The initial
counter value `ctr0` is the current value of the package-global
`autoIncID`; `New` itself never resets it. -/
def New (fuel : Nat) (mpc : MappingConfig) (bi : List String) (ctr0 : Int) :
    Except Err (GraphState × Int) :=
  let projectors := newProjectorTable mpc.projector bi
  let e : Env := .mk "root" none [] [] []
  let wstlrNodes : List WhistlerNode :=
    mpc.rootMapping.map fun mapping => ⟨some (.fieldMapping mapping), none, none⟩
  match addAncestorLineages fuel ⟨wstlrNodes, [], []⟩ e none projectors bi
      ⟨GraphState.empty, ctr0⟩ with
  | .error e => .error e
  | .ok (_, s) => .ok (s.g, s.ctr)

/-! ## The protobuf serializer (test_helper.go: WriteProtobuf, convertNode)

Wire-level i32 keys and fields are Go `int32(x)` conversions, modelled by
wrapping into the signed 32-bit range. -/

/-- Go `int32(n)`: wrap into the signed 32-bit range. -/
def toInt32 (n : Int) : Int := (n + 2 ^ 31) % 2 ^ 32 - 2 ^ 31

/-- Wire `FileMetaData`. -/
structure PbFileMetaData : Type where
  fileName : String
  lineStart : Int
  lineEnd : Int
  charStart : Int
  charEnd : Int
deriving DecidableEq

/-- Wire `TargetNode`. -/
structure PbTargetNode : Type where
  id : Int
  name : String
  context : String
  isVariable : Bool
  isOverwrite : Bool
  isRoot : Bool
  isOut : Bool
  fileData : PbFileMetaData
deriving DecidableEq

/-- Wire `ConstBoolNode`. -/
structure PbConstBoolNode : Type where
  id : Int
  value : Bool
  context : String
  fileData : PbFileMetaData
deriving DecidableEq

/-- Wire `ConstIntNode`. -/
structure PbConstIntNode : Type where
  id : Int
  value : Int
  context : String
  fileData : PbFileMetaData
deriving DecidableEq

/-- Wire `ConstFloatNode`. -/
structure PbConstFloatNode : Type where
  id : Int
  value : Int
  context : String
  fileData : PbFileMetaData
deriving DecidableEq

/-- Wire `ConstStringNode`. -/
structure PbConstStringNode : Type where
  id : Int
  value : String
  context : String
  fileData : PbFileMetaData
deriving DecidableEq

/-- Wire `ProjectorNode`. -/
structure PbProjectorNode : Type where
  id : Int
  name : String
  isBuiltin : Bool
  context : String
  fileData : PbFileMetaData
deriving DecidableEq

/-- Wire `ArgumentNode`. -/
structure PbArgumentNode : Type where
  id : Int
  index : Int
  field : String
  context : String
  fileData : PbFileMetaData
deriving DecidableEq

/-- Wire `RootNode`. -/
structure PbRootNode : Type where
  id : Int
  field : String
  context : String
  fileData : PbFileMetaData
deriving DecidableEq

/-- The wire `Node` one-of (the arms the serializer can emit). -/
inductive PbNode : Type where
  | targetNode (n : PbTargetNode)
  | constBoolNode (n : PbConstBoolNode)
  | constIntNode (n : PbConstIntNode)
  | constFloatNode (n : PbConstFloatNode)
  | constStringNode (n : PbConstStringNode)
  | projectorNode (n : PbProjectorNode)
  | argumentNode (n : PbArgumentNode)
  | rootNode (n : PbRootNode)
deriving DecidableEq

/-- Wire `EdgeList`. -/
structure PbEdgeList : Type where
  edges : List Int
deriving DecidableEq

/-- Wire `Graph`. -/
structure PbGraph : Type where
  edges : List (Int × PbEdgeList)
  argumentEdges : List (Int × PbEdgeList)
  conditionEdges : List (Int × PbEdgeList)
  rootAndOutTargets : List (String × PbEdgeList)
  nodes : List (Int × PbNode)
deriving DecidableEq

/-- `graph.convertFileData` (test_helper.go). -/
def convertFileData (data : FileMetaData) : PbFileMetaData :=
  ⟨data.fileName, toInt32 data.lineStart, toInt32 data.lineEnd,
   toInt32 data.charStart, toInt32 data.charEnd⟩

/-- `graph.convertNode` (test_helper.go).  Total here because the in-memory
`Node` type has exactly the variants the Go switch supports. -/
def convertNode : Node → PbNode
  | .target n =>
    .targetNode ⟨toInt32 n.id, n.name, n.context, n.isVariable, n.isOverwrite,
      n.isRoot, n.isOut, convertFileData n.fileData⟩
  | .constInt n =>
    .constIntNode ⟨toInt32 n.id, toInt32 n.value, n.context, convertFileData n.fileData⟩
  | .constFloat n =>
    .constFloatNode ⟨toInt32 n.id, n.value, n.context, convertFileData n.fileData⟩
  | .constBool n =>
    .constBoolNode ⟨toInt32 n.id, n.value, n.context, convertFileData n.fileData⟩
  | .constString n =>
    .constStringNode ⟨toInt32 n.id, n.value, n.context, convertFileData n.fileData⟩
  | .projector n =>
    .projectorNode ⟨toInt32 n.id, n.name, n.isBuiltin, n.context, convertFileData n.fileData⟩
  | .argument n =>
    .argumentNode ⟨toInt32 n.id, toInt32 n.index, n.field, n.context, convertFileData n.fileData⟩
  | .root n =>
    .rootNode ⟨toInt32 n.id, n.field, n.context, convertFileData n.fileData⟩

/-- `graph.newEdgeList` (test_helper.go). -/
def newEdgeList (idList : List Int) : PbEdgeList :=
  ⟨idList.map toInt32⟩

/-- `graph.WriteProtobuf` (test_helper.go): project the in-memory graph onto
the wire message.  The `targetLineages` cache is never read. -/
def WriteProtobuf (g : GraphState) : PbGraph :=
  let pbNodes := g.nodes.foldl (fun acc p => aset acc (toInt32 p.1) (convertNode p.2)) []
  let pbEdges := g.edges.foldl (fun acc p => aset acc (toInt32 p.1) (newEdgeList p.2)) []
  let pbArgumentEdges :=
    g.argumentEdges.foldl (fun acc p => aset acc (toInt32 p.1) (newEdgeList p.2)) []
  let pbConditionEdges :=
    g.conditionEdges.foldl (fun acc p => aset acc (toInt32 p.1) (newEdgeList p.2)) []
  let pbRootAndOut :=
    g.rootAndOutTargets.foldl (fun acc p => aset acc p.1 (newEdgeList p.2)) []
  ⟨pbEdges, pbArgumentEdges, pbConditionEdges, pbRootAndOut, pbNodes⟩

/-! # Theorems -/

/-! ## C10: matchUpToDiff -/

theorem matchLoop_iff (path targetPath : List String) :
    matchLoop path targetPath = true ↔ ∀ p ∈ path.zip targetPath, p.1 = p.2 := by
  induction path generalizing targetPath with
  | nil => simp [matchLoop]
  | cons h t ih =>
    cases targetPath with
    | nil => simp [matchLoop]
    | cons h2 t2 =>
      simp only [matchLoop, Bool.and_eq_true, decide_eq_true_eq, List.zip_cons_cons,
        List.mem_cons, forall_eq_or_imp]
      exact and_congr_right fun _ => ih t2

/-- C10: `matchUpToDiff(path, targetPath)` returns
`min (len path) (len targetPath)` when the first `min`-many components of
the two lists are pairwise equal, and 0 otherwise. -/
theorem matchUpToDiff_spec (path targetPath : List String) :
    matchUpToDiff path targetPath =
      if ∀ p ∈ path.zip targetPath, p.1 = p.2
      then min path.length targetPath.length else 0 := by
  unfold matchUpToDiff
  by_cases h : ∀ p ∈ path.zip targetPath, p.1 = p.2
  · rw [if_pos ((matchLoop_iff path targetPath).mpr h), if_pos h]
  · rw [if_neg (fun hl => h ((matchLoop_iff path targetPath).mp hl)), if_neg h]

/-! ## C4: FromInput resolution (fromInputAncestor / argumentAncestor) -/

/-- C4: resolving `FromInput(arg, field)` in environment `e`:
`arg - 1 = len e.args` is the synthetic `$root` (a `Root` node, no
ancestors, no error); `arg < 1` or `arg - 1 > len e.args` is the
out-of-range argument error; otherwise `arg - 1` indexes into `e.args`. -/
theorem fromInputAncestor_spec (fuel : Nat) (arg : Int) (field : String) (e : Env) :
    (arg - 1 = (e.args.length : Int) →
      fromInputAncestor fuel arg field e = .ok [] ∧
      ∀ (src : ValueSource) (ctr : Int),
        fromInputNode arg field src e ctr =
          (.root ⟨ctr, field, e.name, .zero, .valueSource src⟩, ctr + 1))
    ∧ (arg < 1 ∨ (e.args.length : Int) < arg - 1 →
      fromInputAncestor fuel arg field e = .error (.argIndexOutOfRange (arg - 1)))
    ∧ (1 ≤ arg → arg - 1 < (e.args.length : Int) →
      ∃ argNodes, e.args.get? (arg - 1).toNat = some argNodes ∧
        fromInputAncestor fuel arg field e = processArgEntries fuel field argNodes) := by
  refine ⟨fun hroot => ⟨?_, ?_⟩, fun herr => ?_, fun h1 h2 => ?_⟩
  · simp [fromInputAncestor, hroot]
  · intro src ctr
    simp [fromInputNode, hroot]
  · have hne : ¬ (arg - 1 = (e.args.length : Int)) := by omega
    have hcond : arg - 1 < 0 ∨ (e.args.length : Int) ≤ arg - 1 := by omega
    simp only [fromInputAncestor, if_neg hne, argumentAncestor, if_pos hcond]
  · have hne : ¬ (arg - 1 = (e.args.length : Int)) := by omega
    have hcond : ¬ (arg - 1 < 0 ∨ (e.args.length : Int) ≤ arg - 1) := by omega
    have hlt : (arg - 1).toNat < e.args.length := by omega
    refine ⟨e.args.get ⟨(arg - 1).toNat, hlt⟩, List.get?_eq_get hlt, ?_⟩
    simp only [fromInputAncestor, if_neg hne, argumentAncestor, if_neg hcond,
      List.get?_eq_get hlt]

/-- Witness for the hypotheses of `fromInputAncestor_spec` at concrete inputs:
an environment with one binding, probing `arg = 2` ($root), `arg = 0`
(out of range low), `arg = 3` (out of range high), and `arg = 1` (in range). -/
theorem fromInputAncestor_spec_witness :
    (fromInputAncestor 5 2 "" (.mk "p" none [[]] [] []) = .ok [] ∧
     fromInputAncestor 5 0 "" (.mk "p" none [[]] [] []) =
       .error (.argIndexOutOfRange (-1)) ∧
     fromInputAncestor 5 3 "" (.mk "p" none [[]] [] []) =
       .error (.argIndexOutOfRange 2)) ∧
    ∃ argNodes, (Env.mk "p" none [[]] [] []).args.get? 0 = some argNodes ∧
      fromInputAncestor 5 1 "" (.mk "p" none [[]] [] []) =
        processArgEntries 5 "" argNodes := by
  refine ⟨⟨?_, ?_, ?_⟩, ?_⟩
  · exact ((fromInputAncestor_spec 5 2 "" (.mk "p" none [[]] [] [])).1 (by decide)).1
  · exact (fromInputAncestor_spec 5 0 "" (.mk "p" none [[]] [] [])).2.1 (.inl (by decide))
  · exact (fromInputAncestor_spec 5 3 "" (.mk "p" none [[]] [] [])).2.1 (.inr (by decide))
  · exact (fromInputAncestor_spec 5 1 "" (.mk "p" none [[]] [] [])).2.2
      (by decide) (by decide)

/-! ## C7: $And condition elision (fieldMappingConditions) -/

theorem flatten_foldl (l : List (List WhistlerNode)) :
    ∀ acc, l.foldl (fun acc x => acc ++ x) acc = acc ++ l.flatten := by
  induction l with
  | nil => intro acc; simp [List.flatten]
  | cons x xs ih => intro acc; simp [List.flatten_cons, ih]

theorem except_bind_ok {α β : Type} (a : α) (f : α → Except Err β) :
    (Except.ok a >>= f) = f a := rfl

theorem except_bind_error {α β : Type} (e : Err) (f : α → Except Err β) :
    ((Except.error e : Except Err α) >>= f) = Except.error e := rfl

theorem projectorArgsLoop_eq_mapM (fuel : Nat) (wstlrEnv : Env) (projectors : ProjTable) :
    ∀ l, projectorArgsLoop fuel l wstlrEnv projectors =
      l.mapM fun a => whistlerNodesFromValueSource fuel a wstlrEnv false projectors := by
  intro l
  induction l with
  | nil => rfl
  | cons a rest ih =>
    simp only [projectorArgsLoop, List.mapM_cons, ih]
    rfl

/-- Modelled from the claim (spec section 4.C, FieldMapping): for a `$And`
condition, the attached conditions are the positional arguments of the
condition call — the whistler-nodes of the primary source followed by those
of each additional argument, flattened in order (none when the call carries
no primary source, since positional arguments are extracted from the
call-site source). -/
def andConditionsSpec (fuel : Nat) (c : ValueSource) (wstlrEnv : Env)
    (projectors : ProjTable) : Except Err (List WhistlerNode) :=
  match c.source with
  | .unset => .ok []
  | _ => do
    let primary ← whistlerNodesFromValueSource fuel c wstlrEnv false projectors
    let additional ← c.additionalArg.toList.mapM
      fun a => whistlerNodesFromValueSource fuel a wstlrEnv false projectors
    .ok (primary ++ additional.flatten)

/-- C7: a `$And` condition is elided — the conditions attached for the
mapping are exactly the positional arguments of the `$And` call, flattened
in order; for any other non-nil condition the attached conditions are
exactly the whistler-nodes derived from the condition value source (and a
nil condition yields none). -/
theorem fieldMappingConditions_spec (fuel : Nat) (msg : FieldMapping) (wstlrEnv : Env)
    (projectors : ProjTable) :
    fieldMappingConditions fuel msg wstlrEnv projectors =
      match msg.condition with
      | none => .ok []
      | some c =>
        if c.projector = "$And" then andConditionsSpec fuel c wstlrEnv projectors
        else whistlerNodesFromValueSource fuel c wstlrEnv true projectors := by
  unfold fieldMappingConditions
  cases hc : msg.condition with
  | none => rfl
  | some c =>
    by_cases hand : c.projector = "$And"
    · simp only [if_pos hand]
      unfold andConditionsSpec projectorArgs
      cases hsrc : c.source
      · simp only [hsrc]; simp [flatten, except_bind_ok]
      all_goals (
        simp only [hsrc];
        rw [← projectorArgsLoop_eq_mapM];
        cases hw : whistlerNodesFromValueSource fuel c wstlrEnv false projectors with
        | error e => simp only [hw, except_bind_error]
        | ok primary =>
          cases hm : projectorArgsLoop fuel c.additionalArg.toList wstlrEnv projectors with
          | error e => simp only [hw, hm, except_bind_ok, except_bind_error]
          | ok additional =>
            simp only [hw, hm, except_bind_ok];
            simp [flatten, flatten_foldl])
    · simp only [if_neg hand]

/-! ## C8: the projector table and the is_builtin flag -/

theorem alookup_foldl_aset {α κ β : Type} [DecidableEq κ] (key : α → κ) (val : α → β) :
    ∀ (l : List α) (t0 : List (κ × β)) (k : κ),
      alookup (l.foldl (fun t p => aset t (key p) (val p)) t0) k =
        match l.reverse.find? (fun p => key p = k) with
        | some p => some (val p)
        | none => alookup t0 k := by
  intro l
  induction l with
  | nil => intro t0 k; rfl
  | cons x xs ih =>
    intro t0 k
    simp only [List.foldl_cons, List.reverse_cons, List.find?_append]
    rw [ih]
    cases hfind : xs.reverse.find? (fun p => key p = k) with
    | some p => simp [Option.or]
    | none =>
      simp only [Option.or]
      by_cases hk : key x = k
      · subst hk
        simp [List.find?_cons, alookup_aset_self]
      · simp [List.find?_cons, hk, alookup_aset_ne _ _ _ _ hk]

theorem find_of_mem_nodup_keys {α κ : Type} [DecidableEq κ] (f : α → κ) :
    ∀ (l : List α) (a : α), (l.map f).Nodup → a ∈ l →
      l.find? (fun x => f x = f a) = some a := by
  intro l
  induction l with
  | nil => intro a _ ha; cases ha
  | cons x xs ih =>
    intro a hnd ha
    simp only [List.map_cons, List.nodup_cons] at hnd
    by_cases hx : f x = f a
    · have hax : a = x := by
        rcases List.mem_cons.mp ha with h | h
        · exact h
        · exact absurd (hx ▸ List.mem_map_of_mem f h) hnd.1
      simp [List.find?_cons, hx, hax]
    · have hax : a ∈ xs := by
        rcases List.mem_cons.mp ha with h | h
        · exact absurd (h ▸ rfl) hx
        · exact h
      simp [List.find?_cons, hx, ih a hnd.2 hax]

/-- The false instance refuting C8 as stated: a user-defined projector named
`"$Eq"` with a nonempty body, built with external builtin set `{"$Eq"}`. -/
def c8UserEq : ProjectorDefinition :=
  ⟨"$Eq", [⟨some (.targetField "q"), some (.mk (.constBool true) "" .nil), none⟩]⟩

/-- A user-defined projector whose name begins with `$` but which is not in
the external builtin set. -/
def c8UserWeird : ProjectorDefinition := ⟨"$weird", []⟩

/-- C8 counterexample: with builtin set `["$Eq"]` and user projectors
`[c8UserEq, c8UserWeird]`, (i) the table does not map the user-defined name
`"$Eq"` to its user definition (the builtin registration overwrites it with
the empty-body definition), and (ii) the materialized Projector node for
`"$weird"` has `is_builtin = false` although its name begins with `"$"`
(the flag tests membership in the builtin set, not the `$` prefix). -/
theorem c8_counterexample :
    alookup (newProjectorTable [c8UserEq, c8UserWeird] ["$Eq"]) "$Eq" ≠ some c8UserEq
    ∧ alookup (newProjectorTable [c8UserEq, c8UserWeird] ["$Eq"]) "$Eq" =
        some ⟨"$Eq", []⟩
    ∧ (projectorNode c8UserWeird (.mk "root" none [] [] []) ["$Eq"] 7).1.isBuiltin = false
    ∧ strHasPre "$" c8UserWeird.name = true := by
  refine ⟨by decide, by decide, rfl, rfl⟩

/-- C8 amended: the projector table maps every externally supplied builtin
name to an empty-body definition, and every other name to the last
user-supplied definition of that name (if any); a materialized Projector
node carries `is_builtin = true` exactly when its name is a member of the
externally supplied builtin set. -/
theorem projectorTable_spec (userProjs : List ProjectorDefinition) (bi : List String)
    (name : String) :
    (name ∈ bi → alookup (newProjectorTable userProjs bi) name = some ⟨name, []⟩)
    ∧ (name ∉ bi → alookup (newProjectorTable userProjs bi) name =
        userProjs.reverse.find? fun p => p.name = name)
    ∧ ∀ (msg : ProjectorDefinition) (env : Env) (ctr : Int),
        (projectorNode msg env bi ctr).1.isBuiltin = bi.contains msg.name := by
  have huser : ∀ k, alookup (userProjs.foldl (fun t p => aset t p.name p) []) k =
      userProjs.reverse.find? fun p => p.name = k := by
    intro k
    have h := alookup_foldl_aset (fun p : ProjectorDefinition => p.name)
      (fun p : ProjectorDefinition => p) userProjs [] k
    rw [h]
    cases userProjs.reverse.find? fun p => p.name = k <;> rfl
  have htable : ∀ k, alookup (newProjectorTable userProjs bi) k =
      match bi.reverse.find? (fun n => n = k) with
      | some n => some (⟨n, []⟩ : ProjectorDefinition)
      | none => userProjs.reverse.find? fun p => p.name = k := by
    intro k
    simp only [newProjectorTable]
    have h := alookup_foldl_aset (fun n : String => n)
      (fun n => (⟨n, []⟩ : ProjectorDefinition)) bi
      (userProjs.foldl (fun t p => aset t p.name p) []) k
    refine h.trans ?_
    cases bi.reverse.find? fun n => n = k with
    | some n => rfl
    | none => exact huser k
  refine ⟨fun hin => ?_, fun hout => ?_, fun msg env ctr => rfl⟩
  · rw [htable name]
    have hsome : ∃ x ∈ bi.reverse, (fun n => decide (n = name)) x = true :=
      ⟨name, List.mem_reverse.mpr hin, by simp⟩
    have hiss : (bi.reverse.find? fun n => n = name).isSome = true :=
      List.find?_isSome.mpr hsome
    cases hf : bi.reverse.find? fun n => n = name with
    | none => rw [hf] at hiss; cases hiss
    | some n =>
      have : n = name := by simpa using List.find?_some hf
      subst this
      rfl
  · rw [htable name]
    cases hf : bi.reverse.find? fun n => n = name with
    | none => rfl
    | some n =>
      have hn : n = name := by simpa using List.find?_some hf
      have : n ∈ bi := List.mem_reverse.mp (List.mem_of_find?_eq_some hf)
      exact absurd (hn ▸ this) hout

/-- Witness for `projectorTable_spec` at a concrete input. -/
theorem projectorTable_spec_witness :
    ("$Eq" ∈ ["$Eq"] ∧
      alookup (newProjectorTable [c8UserWeird] ["$Eq"]) "$Eq" = some ⟨"$Eq", []⟩)
    ∧ ("$weird" ∉ ["$Eq"] ∧
      alookup (newProjectorTable [c8UserWeird] ["$Eq"]) "$weird" =
        [c8UserWeird].reverse.find? fun p => p.name = "$weird") := by
  constructor
  · exact ⟨by decide, (projectorTable_spec [c8UserWeird] ["$Eq"] "$Eq").1 (by decide)⟩
  · exact ⟨by decide, (projectorTable_spec [c8UserWeird] ["$Eq"] "$weird").2.1 (by decide)⟩

/-! ## C5: FromLocalVar resolution does not consult the parent scope

The spec requires `FromLocalVar` resolution to fall back to the parent
scope chain, and the helper `readVarFromEnv` implements exactly that
search; but `whistlerNodesFromValueSource` resolves `FromLocalVar`
against the current scope's `vars` only (generate.go line 751), leaving
`readVarFromEnv` unreachable from the builder. -/

/-- A lineage for a variable `v` bound in the parent (root) scope. -/
def c5Lineage : TargetLineage :=
  .mk ⟨0, "v", "root", true, false, false, false, .zero,
    .fieldMapping ⟨some (.targetLocalVar "v"), some (.mk (.constBool true) "" .nil), none⟩⟩ []

/-- The parent (root) scope, with `v` bound as a local variable. -/
def c5RootEnv : Env := .mk "root" none [] [] [("v", [c5Lineage])]

/-- An anonymous-block child scope of `c5RootEnv` with no own variables. -/
def c5ChildEnv : Env := .mk "$anon_block_1" (some c5RootEnv) [] [] []

/-- The `FromLocalVar("v")` value source. -/
def c5Source : ValueSource := .mk (.fromLocalVar "v") "" .nil

/-- C5 failing input: resolving `FromLocalVar("v")` in a scope whose parent
binds `v`.  The builder's resolution fails (it searches only the current
scope's `vars`), although the transitive parent search implemented by
`readVarFromEnv` — the behaviour the spec describes — succeeds. -/
theorem fromLocalVar_no_parent_fallback :
    whistlerNodesFromValueSource 10 c5Source c5ChildEnv false [] =
      .error (.pathNotFound ["v"])
    ∧ readVarFromEnv "v" c5ChildEnv = .ok [c5Lineage] := by
  exact ⟨rfl, rfl⟩

/-! ## C6: the ID counter is process-global and not reset by New -/

/-- The one-mapping configuration `x: true`. -/
def c6Mpc : MappingConfig :=
  ⟨[], [⟨some (.targetField "x"), some (.mk (.constBool true) "" .nil), none⟩]⟩

/-- C6 counterexample: running the builder twice in the same process (the
second build starts from the counter state the first build left behind, as
the package-global `autoIncID` is never reset by `New`), the second build's
node ids are `[2, 3]` — they do not start at 0 and are not independent of
the earlier build. -/
theorem newIncID_not_reset_between_builds :
    ((New 20 c6Mpc [] 0).map fun p => (p.1.nodes.map Prod.fst, p.2)) = .ok ([0, 1], 2)
    ∧ ((New 20 c6Mpc [] 2).map fun p => (p.1.nodes.map Prod.fst, p.2)) = .ok ([2, 3], 4) := by
  exact ⟨rfl, rfl⟩

/-! ## C9: the protobuf serializer -/

/-- Modelled from the spec (sections 4.E and 6.3): the wire one-of arm
matching a node variant carries the node's id (as i32), its context, its
payload, and (for targets) its four flags. -/
def nodeMatchesWire : Node → PbNode → Prop
  | .target n, .targetNode w =>
    w.id = toInt32 n.id ∧ w.name = n.name ∧ w.context = n.context ∧
    w.isVariable = n.isVariable ∧ w.isOverwrite = n.isOverwrite ∧
    w.isRoot = n.isRoot ∧ w.isOut = n.isOut
  | .constBool n, .constBoolNode w =>
    w.id = toInt32 n.id ∧ w.value = n.value ∧ w.context = n.context
  | .constInt n, .constIntNode w =>
    w.id = toInt32 n.id ∧ w.value = toInt32 n.value ∧ w.context = n.context
  | .constFloat n, .constFloatNode w =>
    w.id = toInt32 n.id ∧ w.value = n.value ∧ w.context = n.context
  | .constString n, .constStringNode w =>
    w.id = toInt32 n.id ∧ w.value = n.value ∧ w.context = n.context
  | .projector n, .projectorNode w =>
    w.id = toInt32 n.id ∧ w.name = n.name ∧ w.isBuiltin = n.isBuiltin ∧
    w.context = n.context
  | .argument n, .argumentNode w =>
    w.id = toInt32 n.id ∧ w.index = toInt32 n.index ∧ w.field = n.field ∧
    w.context = n.context
  | .root n, .rootNode w =>
    w.id = toInt32 n.id ∧ w.field = n.field ∧ w.context = n.context
  | _, _ => False

theorem fold_lookup {α κ β : Type} [DecidableEq κ] (key : α → κ) (val : α → β)
    (l : List α) (hnd : (l.map key).Nodup) (a : α) (ha : a ∈ l) :
    alookup (l.foldl (fun acc p => aset acc (key p) (val p)) []) (key a) = some (val a) := by
  rw [alookup_foldl_aset]
  have hnd1 : (l.reverse.map key).Nodup := by
    rw [List.map_reverse]
    exact List.nodup_reverse.mpr hnd
  rw [find_of_mem_nodup_keys key l.reverse a hnd1 (List.mem_reverse.mpr ha)]

/-- C9: `WriteProtobuf` emits every node entry at key `int32(id)` as the
one-of arm matching its variant with the node's id, context, payload and
flags; emits every adjacency entry as an `EdgeList` wrapper preserving the
order of the id list; and no part of the output depends on the
`target_lineages` cache.  (The distinct-key hypotheses hold for builder
output, whose ids are distinct; a Go map cannot hold duplicates.) -/
theorem writeProtobuf_spec (g : GraphState) :
    (∀ a ∈ g.nodes, ((g.nodes.map fun p => toInt32 p.1).Nodup →
        alookup (WriteProtobuf g).nodes (toInt32 a.1) = some (convertNode a.2))
      ∧ nodeMatchesWire a.2 (convertNode a.2))
    ∧ (∀ a ∈ g.edges, (g.edges.map fun p => toInt32 p.1).Nodup →
        alookup (WriteProtobuf g).edges (toInt32 a.1) = some (newEdgeList a.2))
    ∧ (∀ a ∈ g.argumentEdges, (g.argumentEdges.map fun p => toInt32 p.1).Nodup →
        alookup (WriteProtobuf g).argumentEdges (toInt32 a.1) = some (newEdgeList a.2))
    ∧ (∀ a ∈ g.conditionEdges, (g.conditionEdges.map fun p => toInt32 p.1).Nodup →
        alookup (WriteProtobuf g).conditionEdges (toInt32 a.1) = some (newEdgeList a.2))
    ∧ (∀ a ∈ g.rootAndOutTargets, (g.rootAndOutTargets.map Prod.fst).Nodup →
        alookup (WriteProtobuf g).rootAndOutTargets a.1 = some (newEdgeList a.2))
    ∧ (∀ idList : List Int, (newEdgeList idList).edges = idList.map toInt32)
    ∧ ∀ tl, WriteProtobuf { g with targetLineages := tl } = WriteProtobuf g := by
  refine ⟨fun a ha => ⟨fun hnd => ?_, ?_⟩, fun a ha hnd => ?_, fun a ha hnd => ?_,
    fun a ha hnd => ?_, fun a ha hnd => ?_, fun idList => rfl, fun tl => rfl⟩
  · exact fold_lookup (fun p : Int × Node => toInt32 p.1) (fun p => convertNode p.2)
      g.nodes hnd a ha
  · cases hn : a.2 <;> simp [nodeMatchesWire, convertNode]
  · exact fold_lookup (fun p : Int × List Int => toInt32 p.1) (fun p => newEdgeList p.2)
      g.edges hnd a ha
  · exact fold_lookup (fun p : Int × List Int => toInt32 p.1) (fun p => newEdgeList p.2)
      g.argumentEdges hnd a ha
  · exact fold_lookup (fun p : Int × List Int => toInt32 p.1) (fun p => newEdgeList p.2)
      g.conditionEdges hnd a ha
  · exact fold_lookup (fun p : String × List Int => p.1) (fun p => newEdgeList p.2)
      g.rootAndOutTargets hnd a ha

/-! ## Graph well-formedness, reachability and the recursion check

Definitions used by C1, C2, C3 and the amended C6. -/

/-- The node is stored in the graph's node table under its own id. -/
def NodesHas (g : GraphState) (n : Node) : Prop := alookup g.nodes n.id = some n

/-- The id denotes a stored non-`Argument` node. -/
def NonArgAt (g : GraphState) (x : Int) : Prop :=
  ∃ nd, alookup g.nodes x = some nd ∧ nd.isArgument = false

/-- One value-dependency step between non-`Argument` nodes: removing the
`Argument` nodes (and the edges through them) leaves exactly these steps. -/
def EdgeStep (g : GraphState) (x y : Int) : Prop :=
  (∃ l, alookup g.edges x = some l ∧ y ∈ l) ∧ NonArgAt g x ∧ NonArgAt g y

/-- The value-edge relation is acyclic once `Argument` nodes are removed. -/
def AcyclicArgless (g : GraphState) : Prop :=
  ∀ x, ¬ Relation.TransGen (EdgeStep g) x x

/-- The C3 integrity invariants of a graph. -/
structure WFGraph (g : GraphState) : Prop where
  edgesClosed : ∀ k l, alookup g.edges k = some l → ∀ v ∈ l, ∃ nd, alookup g.nodes v = some nd
  argClosed : ∀ k l, alookup g.argumentEdges k = some l → ∀ v ∈ l, ∃ nd, alookup g.nodes v = some nd
  condClosed : ∀ k l, alookup g.conditionEdges k = some l → ∀ v ∈ l, ∃ nd, alookup g.nodes v = some nd
  rootClosed : ∀ k l, alookup g.rootAndOutTargets k = some l → ∀ v ∈ l, ∃ nd, alookup g.nodes v = some nd
  nodesEdges : ∀ k, (∃ nd, alookup g.nodes k = some nd) ↔ (∃ l, alookup g.edges k = some l)
  argKeys : ∀ k, (∃ l, alookup g.argumentEdges k = some l) ↔
    (∃ nd, alookup g.nodes k = some nd ∧ nd.isProjector = true)
  condKeys : ∀ k, (∃ l, alookup g.conditionEdges k = some l) ↔
    (∃ nd, alookup g.nodes k = some nd ∧ nd.isTarget = true)
  idCoherent : ∀ k nd, alookup g.nodes k = some nd → nd.id = k

/-- Every node referenced by a cached target lineage is in the graph. -/
inductive LinOK (g : GraphState) : TargetLineage → Prop
  | mk (nd : TargetND) (ct : List (String × List TargetLineage)) :
      alookup g.nodes nd.id = some (.target nd) →
      (∀ p ∈ ct, ∀ tl ∈ p.2, LinOK g tl) →
      LinOK g (.mk nd ct)

/-- Every lineage in a name-keyed lineage map is `LinOK`. -/
def MapOK (g : GraphState) (m : List (String × List TargetLineage)) : Prop :=
  ∀ p ∈ m, ∀ tl ∈ p.2, LinOK g tl

/-- An argument binding references only stored nodes. -/
def ArgOK (g : GraphState) (a : ArgLineage) : Prop :=
  NodesHas g a.node ∧ ∀ m, a.childTargets = some m → MapOK g m

/-- An environment references only stored nodes. -/
def EnvOK (g : GraphState) (e : Env) : Prop :=
  (∀ al ∈ e.args, ∀ a ∈ al, ArgOK g a) ∧ MapOK g e.targets ∧ MapOK g e.vars

/-- A whistler node's `nodeInGraph`, when set, is stored in the graph. -/
def WOK (g : GraphState) (w : WhistlerNode) : Prop :=
  ∀ n, w.nodeInGraph = some n → NodesHas g n

/-- All whistler nodes of an ancestor collection are `WOK`. -/
def AncOK (g : GraphState) (anc : AncestorCollection) : Prop :=
  (∀ w ∈ anc.mainAncestors, WOK g w) ∧ (∀ ws ∈ anc.projectorArgs, ∀ w ∈ ws, WOK g w)
    ∧ ∀ w ∈ anc.conditions, WOK g w

/-- The `targetLineages` cache references only stored nodes. -/
def CacheOK (g : GraphState) : Prop :=
  ∀ k tl, alookup g.targetLineages k = some tl → LinOK g tl

/-- All node-table keys are below the counter. -/
def IdsBelow (s : BState) : Prop :=
  ∀ k nd, alookup s.g.nodes k = some nd → k < s.ctr

/-- The builder-state invariant. -/
def Inv (s : BState) : Prop :=
  WFGraph s.g ∧ AcyclicArgless s.g ∧ CacheOK s.g ∧ IdsBelow s

/-- The node table only grows (no key is ever overwritten or removed). -/
def NodesMono (g g' : GraphState) : Prop :=
  ∀ k nd, alookup g.nodes k = some nd → alookup g'.nodes k = some nd

/-- The new node-table keys of a build step are exactly the counter
interval it consumed. -/
def KeysAdded (s s' : BState) : Prop :=
  s.ctr ≤ s'.ctr ∧
  ∀ k, (∃ nd, alookup s'.g.nodes k = some nd) ↔
    ((∃ nd, alookup s.g.nodes k = some nd) ∨ (s.ctr ≤ k ∧ k < s'.ctr))

theorem linOK_mono {g g' : GraphState} (hm : NodesMono g g') :
    ∀ {tl : TargetLineage}, LinOK g tl → LinOK g' tl := by
  intro tl h
  induction h with
  | mk nd ct hnd _ ih => exact .mk nd ct (hm _ _ hnd) ih

theorem mapOK_mono {g g' : GraphState} (hm : NodesMono g g')
    {m : List (String × List TargetLineage)} (h : MapOK g m) : MapOK g' m :=
  fun p hp tl htl => linOK_mono hm (h p hp tl htl)

theorem argOK_mono {g g' : GraphState} (hm : NodesMono g g') {a : ArgLineage}
    (h : ArgOK g a) : ArgOK g' a :=
  ⟨hm _ _ h.1, fun m hmem => mapOK_mono hm (h.2 m hmem)⟩

theorem envOK_mono {g g' : GraphState} (hm : NodesMono g g') {e : Env}
    (h : EnvOK g e) : EnvOK g' e :=
  ⟨fun al hal a ha => argOK_mono hm (h.1 al hal a ha),
   mapOK_mono hm h.2.1, mapOK_mono hm h.2.2⟩

theorem wOK_mono {g g' : GraphState} (hm : NodesMono g g') {w : WhistlerNode}
    (h : WOK g w) : WOK g' w :=
  fun n hn => hm _ _ (h n hn)

theorem ancOK_mono {g g' : GraphState} (hm : NodesMono g g') {anc : AncestorCollection}
    (h : AncOK g anc) : AncOK g' anc :=
  ⟨fun w hw => wOK_mono hm (h.1 w hw),
   fun ws hws w hw => wOK_mono hm (h.2.1 ws hws w hw),
   fun w hw => wOK_mono hm (h.2.2 w hw)⟩

theorem nodesMono_trans {g1 g2 g3 : GraphState} (h12 : NodesMono g1 g2)
    (h23 : NodesMono g2 g3) : NodesMono g1 g3 :=
  fun k nd h => h23 k nd (h12 k nd h)

theorem nodesMono_refl (g : GraphState) : NodesMono g g := fun _ _ h => h

theorem keysAdded_refl (s : BState) : KeysAdded s s := by
  refine ⟨le_refl _, fun k => ?_⟩
  constructor
  · exact fun h => .inl h
  · rintro (h | h)
    · exact h
    · omega

theorem keysAdded_trans {s1 s2 s3 : BState} (h12 : KeysAdded s1 s2)
    (h23 : KeysAdded s2 s3) : KeysAdded s1 s3 := by
  refine ⟨le_trans h12.1 h23.1, fun k => ?_⟩
  rw [(h23.2 k), (h12.2 k)]
  have c12 := h12.1
  have c23 := h23.1
  constructor
  · rintro ((h | h) | h)
    · exact .inl h
    · exact .inr (by omega)
    · exact .inr (by omega)
  · rintro (h | h)
    · exact .inl (.inl h)
    · by_cases hk : k < s2.ctr
      · exact .inl (.inr (by omega))
      · exact .inr (by omega)

/-! ### The DFS of the recursion check -/

/-- The claim's DFS predicate: from node id `x`, following `Edges` and
stopping at `Argument` nodes, a node whose payload equals `target` is
found. -/
inductive DfsFinds (g : GraphState) (target : Msg) : Int → Prop
  | found (x : Int) (nd : Node) : alookup g.nodes x = some nd →
      nd.isArgument = false → nd.protoMsg = target → DfsFinds g target x
  | step (x : Int) (nd : Node) (l : List Int) (y : Int) :
      alookup g.nodes x = some nd → nd.isArgument = false →
      alookup g.edges x = some l → y ∈ l → DfsFinds g target y → DfsFinds g target x

/-- The claim's right-hand side: some node already in the graph with the
new node's payload reaches, through the argument-stopping DFS over its
`Edges` ancestors, a node with the new node's payload. -/
def ReachesEqual (g : GraphState) (node : Node) : Prop :=
  ∃ u und, (u, und) ∈ g.nodes ∧ und.protoMsg = node.protoMsg ∧
    ∃ l, alookup g.edges u = some l ∧ ∃ y ∈ l, DfsFinds g node.protoMsg y

theorem recPacks_sound (fuel : Nat) :
    (∀ g nid cur nnode, (recPacks fuel).helper g nid cur = .ok false →
      alookup g.nodes nid = some nnode → ¬ DfsFinds g nnode.protoMsg cur)
    ∧ (∀ g nid lst nnode, (recPacks fuel).anyRec g nid lst = .ok false →
      alookup g.nodes nid = some nnode → ∀ y ∈ lst, ¬ DfsFinds g nnode.protoMsg y) := by
  induction fuel with
  | zero =>
    constructor
    · intro g nid cur nnode hrun
      simp [recPacks] at hrun
    · intro g nid lst nnode hrun
      simp [recPacks] at hrun
  | succ n ih =>
    constructor
    · intro g nid cur nnode hrun hnn
      simp only [recPacks, isRecursiveHelperF] at hrun
      rw [hnn] at hrun
      split at hrun
      · exact absurd hrun (by simp)
      rename_i currNode hcur
      split at hrun
      · rename_i heqn
        exact absurd heqn (by simp)
      rename_i newNode heqn
      obtain rfl : nnode = newNode := by injection heqn
      split at hrun
      · -- currNode is an Argument node: the DFS stops and reports false
        rename_i harg
        intro hd
        cases hd with
        | found x nd hnd hnarg _ =>
          rw [hcur] at hnd
          cases hnd
          rw [harg] at hnarg
          cases hnarg
        | step x nd l y hnd hnarg _ _ _ =>
          rw [hcur] at hnd
          cases hnd
          rw [harg] at hnarg
          cases hnarg
      rename_i hnarg
      split at hrun
      · exact absurd hrun (by simp)
      rename_i hne
      split at hrun
      · exact absurd hrun (by simp)
      rename_i ancestors hanc
      intro hd
      cases hd with
      | found x nd hnd _ hmsg =>
        rw [hcur] at hnd
        cases hnd
        exact hne hmsg.symm
      | step x nd l y hnd _ hl hy hdy =>
        rw [hanc] at hl
        cases hl
        exact (ih.2 g nid ancestors nnode hrun hnn) y hy hdy
    · intro g nid lst nnode hrun hnn y hy hd
      cases lst with
      | nil => cases hy
      | cons y0 rest =>
        simp only [recPacks, anyRecursiveF] at hrun
        split at hrun
        · exact absurd hrun (by simp)
        · exact absurd hrun (by simp)
        rename_i hok
        rcases List.mem_cons.mp hy with h | h
        · subst h
          exact (ih.1 g nid y nnode hok hnn) hd
        · exact (ih.2 g nid rest nnode hrun hnn) y h hd

theorem recPacks_complete (fuel : Nat) :
    (∀ g nid cur nnode, (recPacks fuel).helper g nid cur = .ok true →
      alookup g.nodes nid = some nnode → DfsFinds g nnode.protoMsg cur)
    ∧ (∀ g nid lst nnode, (recPacks fuel).anyRec g nid lst = .ok true →
      alookup g.nodes nid = some nnode → ∃ y ∈ lst, DfsFinds g nnode.protoMsg y) := by
  induction fuel with
  | zero =>
    constructor
    · intro g nid cur nnode hrun
      simp [recPacks] at hrun
    · intro g nid lst nnode hrun
      simp [recPacks] at hrun
  | succ n ih =>
    constructor
    · intro g nid cur nnode hrun hnn
      simp only [recPacks, isRecursiveHelperF] at hrun
      rw [hnn] at hrun
      split at hrun
      · exact absurd hrun (by simp)
      rename_i currNode hcur
      split at hrun
      · rename_i heqn
        exact absurd heqn (by simp)
      rename_i newNode heqn
      obtain rfl : nnode = newNode := by injection heqn
      split at hrun
      · exact absurd hrun (by simp)
      rename_i hnarg
      split at hrun
      · rename_i heq
        exact .found cur currNode hcur (by simpa using hnarg) heq.symm
      rename_i hne
      split at hrun
      · exact absurd hrun (by simp)
      rename_i ancestors hanc
      obtain ⟨y, hy, hdy⟩ := ih.2 g nid ancestors nnode hrun hnn
      exact .step cur currNode ancestors y hcur (by simpa using hnarg) hanc hy hdy
    · intro g nid lst nnode hrun hnn
      cases lst with
      | nil => simp [recPacks, anyRecursiveF] at hrun
      | cons y0 rest =>
        simp only [recPacks, anyRecursiveF] at hrun
        split at hrun
        · exact absurd hrun (by simp)
        · rename_i hok
          exact ⟨y0, List.mem_cons_self _ _, ih.1 g nid y0 nnode hok hnn⟩
        · rename_i hok
          obtain ⟨y, hy, hdy⟩ := ih.2 g nid rest nnode hrun hnn
          exact ⟨y, List.mem_cons_of_mem _ hy, hdy⟩

theorem appearancesOf_mem {nodes : List (Int × Node)} {u : Int} {und : Node} {msg : Msg}
    (h : (u, und) ∈ nodes) (heq : und.protoMsg = msg) : u ∈ appearancesOf nodes msg := by
  unfold appearancesOf
  exact List.mem_map_of_mem _ (List.mem_filter.mpr ⟨h, by simp [heq]⟩)

theorem appearancesOf_mem_inv {nodes : List (Int × Node)} {msg : Msg} {u : Int}
    (h : u ∈ appearancesOf nodes msg) : ∃ und, (u, und) ∈ nodes ∧ und.protoMsg = msg := by
  unfold appearancesOf at h
  obtain ⟨p, hp, hpu⟩ := List.mem_map.mp h
  obtain ⟨hmem, hfil⟩ := List.mem_filter.mp hp
  refine ⟨p.2, ?_, by simpa using hfil⟩
  have hp2 : (p.1, p.2) = p := rfl
  rw [← hpu, hp2]
  exact hmem

theorem collectAncestors_sub {g : GraphState} :
    ∀ {ids : List Int} {anc : List Int}, collectAncestors g ids = .ok anc →
      (∀ u ∈ ids, ∃ l, alookup g.edges u = some l ∧ ∀ y ∈ l, y ∈ anc)
      ∧ (∀ y ∈ anc, ∃ u ∈ ids, ∃ l, alookup g.edges u = some l ∧ y ∈ l) := by
  intro ids
  induction ids with
  | nil =>
    intro anc h
    simp only [collectAncestors] at h
    cases h
    exact ⟨by simp, by simp⟩
  | cons id rest ih =>
    intro anc h
    simp only [collectAncestors] at h
    split at h
    · exact absurd h (by simp)
    rename_i l hl
    cases hm : collectAncestors g rest with
    | error e =>
      rw [hm] at h
      exact absurd h (by simp [except_bind_error])
    | ok more =>
      rw [hm, except_bind_ok] at h
      cases h
      obtain ⟨ihl, ihr⟩ := ih hm
      constructor
      · intro u hu
        rcases List.mem_cons.mp hu with h | h
        · subst h
          exact ⟨l, hl, fun y hy => List.mem_append_left _ hy⟩
        · obtain ⟨l', hl', hsub⟩ := ihl u h
          exact ⟨l', hl', fun y hy => List.mem_append_right _ (hsub y hy)⟩
      · intro y hy
        rcases List.mem_append.mp hy with h | h
        · exact ⟨id, List.mem_cons_self _ _, l, hl, h⟩
        · obtain ⟨u, hu, l', hl', hyl⟩ := ihr y h
          exact ⟨u, List.mem_cons_of_mem _ hu, l', hl', hyl⟩

/-- If the recursion check completed with `true`, the graph contains a
payload-equal previous appearance reaching a payload-equal node. -/
theorem isRecursive_true_reaches {fuel : Nat} {g : GraphState} {node : Node}
    (h : isRecursive fuel g node = .ok true)
    (hns : alookup g.nodes node.id = some node) : ReachesEqual g node := by
  unfold isRecursive at h
  split at h
  · exact absurd h (by simp)
  rename_i ancestors hcol
  obtain ⟨y, hy, hdy⟩ := (recPacks_complete fuel).2 g node.id ancestors node h hns
  obtain ⟨u, hu, l, hl, hyl⟩ := (collectAncestors_sub hcol).2 y hy
  obtain ⟨und, hund, heq⟩ := appearancesOf_mem_inv hu
  exact ⟨u, und, hund, heq, l, hl, y, hyl, hdy⟩

/-- If the recursion check completed with `false`, no payload-equal node of
the graph reaches a payload-equal node through the DFS. -/
theorem isRecursive_false_not_reaches {fuel : Nat} {g : GraphState} {node : Node}
    (h : isRecursive fuel g node = .ok false)
    (hns : alookup g.nodes node.id = some node) : ¬ ReachesEqual g node := by
  intro hre
  unfold isRecursive at h
  split at h
  · exact absurd h (by simp)
  rename_i ancestors hcol
  obtain ⟨u, und, hund, heq, l, hl, y, hyl, hdy⟩ := hre
  have hu : u ∈ appearancesOf g.nodes node.protoMsg := appearancesOf_mem hund heq
  obtain ⟨l', hl', hsub⟩ := (collectAncestors_sub hcol).1 u hu
  rw [hl] at hl'
  cases hl'
  exact (recPacks_sound fuel).2 g node.id ancestors node h hns y (hsub y hyl) hdy

theorem insertNewNode_error {g : GraphState} {node : Node} {b : Bool} {e : Err}
    (h : insertNewNode g node b = .error e) : e = .nodeAlreadyInGraph node.id := by
  unfold insertNewNode at h
  split at h
  · split at h
    · cases h
      rfl
    · exact absurd h (by simp)
  · exact absurd h (by simp)

/-- C2: an attachment made with `is_arg = true` never fails with the
recursive-mapping error; an attachment made through a value or condition
edge (descendant present, adjacency list found, node freshly inserted or
reused, and the recursion check completing with some boolean `b` — the Go
run neither diverging nor hitting an internal lookup failure) fails with
the recursive-mapping error exactly when some node already in the
post-attachment graph with the new node's payload reaches, through the
`Edges` DFS that stops at `Argument` nodes, a node with the new node's
payload. -/
theorem addNode_recursion_spec (fuel : Nat) :
    (∀ (g : GraphState) (node : Node) (descendant : Option Node)
        (isCondition nodeIsNew : Bool) (i : Int),
      addNode fuel g node descendant true isCondition nodeIsNew ≠
        .error (.recursiveMapping i))
    ∧ ∀ (g : GraphState) (node d : Node) (isCondition nodeIsNew : Bool)
        (g1 : GraphState) (lst : List Int) (b : Bool) (g2 : GraphState),
      insertNewNode g node nodeIsNew = .ok g1 →
      alookup (if isCondition = true then g1.conditionEdges else g1.edges) d.id = some lst →
      g2 = (if isCondition = true
            then { g1 with conditionEdges := aset g1.conditionEdges d.id (lst ++ [node.id]) }
            else { g1 with edges := aset g1.edges d.id (lst ++ [node.id]) }) →
      isRecursive fuel g2 node = .ok b →
      alookup g2.nodes node.id = some node →
      (addNode fuel g node (some d) false isCondition nodeIsNew =
          .error (.recursiveMapping node.id) ↔ ReachesEqual g2 node) := by
  constructor
  · intro g node descendant isCondition nodeIsNew i h
    unfold addNode at h
    cases hins : insertNewNode g node nodeIsNew with
    | error e =>
      have he := insertNewNode_error hins
      subst he
      simp only [hins] at h
      exact absurd h (by simp)
    | ok g1 =>
      simp only [hins] at h
      split at h
      · simp at h
      · rw [if_pos trivial] at h
        split at h
        · simp at h
        · simp at h
  · intro g node d isCondition nodeIsNew g1 lst b g2 hins hlk hg2 hrun hns
    have hstep : addNode fuel g node (some d) false isCondition nodeIsNew =
        checkRecursion fuel g2 node := by
      unfold addNode
      rw [hins]
      show (if (false = true) then _ else _) = _
      rw [if_neg (by simp)]
      cases hic : isCondition
      · rw [hic] at hlk hg2
        rw [if_neg (by simp)] at hlk hg2 ⊢
        rw [hlk, hg2]
      · rw [hic] at hlk hg2
        rw [if_pos rfl] at hlk hg2 ⊢
        rw [hlk, hg2]
    rw [hstep]
    unfold checkRecursion
    rw [hrun]
    cases b
    · constructor
      · intro h
        cases h
      · intro hre
        exact absurd hre (isRecursive_false_not_reaches hrun hns)
    · constructor
      · intro _
        exact isRecursive_true_reaches hrun hns
      · intro _
        rfl

/-- The pre-existing target node for the C2 witness graph. -/
def c2NodeA : Node :=
  .target ⟨0, "x", "root", false, false, false, false, .zero,
    .fieldMapping ⟨some (.targetField "x"), some (.mk (.constBool true) "" .nil), none⟩⟩

/-- The fresh constant node attached in the C2 witness. -/
def c2NodeB : Node :=
  .constBool ⟨1, true, "root", .zero, .valueSource (.mk (.constBool true) "" .nil)⟩

/-- The C2 witness graph before the attachment. -/
def c2G : GraphState := ⟨[(0, [])], [], [(0, [])], [], [(0, c2NodeA)], []⟩

/-- The C2 witness graph after inserting the fresh node. -/
def c2G1 : GraphState := ⟨[(0, []), (1, [])], [], [(0, [])], [], [(0, c2NodeA), (1, c2NodeB)], []⟩

/-- The C2 witness graph after appending the value edge. -/
def c2G2 : GraphState := ⟨[(0, [1]), (1, [])], [], [(0, [])], [], [(0, c2NodeA), (1, c2NodeB)], []⟩

/-- Witness for `addNode_recursion_spec` at a concrete attachment. -/
theorem addNode_recursion_spec_witness :
    addNode 5 c2G c2NodeB (some c2NodeA) false false true = .ok c2G2
    ∧ ¬ ReachesEqual c2G2 c2NodeB
    ∧ ∀ i, addNode 5 c2G c2NodeB (some c2NodeA) true false true ≠
        .error (.recursiveMapping i) := by
  refine ⟨rfl, ?_, ?_⟩
  · intro hre
    have h1 := ((addNode_recursion_spec 5).2 c2G c2NodeB c2NodeA false true c2G1 [] false
      c2G2 rfl rfl rfl rfl rfl).mpr hre
    rw [show addNode 5 c2G c2NodeB (some c2NodeA) false false true = .ok c2G2 from rfl] at h1
    exact absurd h1 (by simp)
  · intro i
    exact (addNode_recursion_spec 5).1 c2G c2NodeB (some c2NodeA) false true i

/-- A small concrete graph for the serializer witness. -/
def c9Graph : GraphState :=
  ⟨[(0, [1]), (1, [])], [], [(0, [])], [("x", [0])],
   [(0, .target ⟨0, "x", "root", false, false, false, true, .zero,
       .fieldMapping ⟨some (.targetObject "x"), some (.mk (.constBool true) "" .nil), none⟩⟩),
    (1, .constBool ⟨1, true, "root", .zero, .valueSource (.mk (.constBool true) "" .nil)⟩)],
   []⟩

/-- Witness for `writeProtobuf_spec` at the concrete graph `c9Graph`. -/
theorem writeProtobuf_spec_witness :
    alookup (WriteProtobuf c9Graph).nodes (toInt32 0) =
      some (convertNode (.target ⟨0, "x", "root", false, false, false, true, .zero,
        .fieldMapping ⟨some (.targetObject "x"), some (.mk (.constBool true) "" .nil), none⟩⟩))
    ∧ alookup (WriteProtobuf c9Graph).edges (toInt32 0) = some (newEdgeList [1])
    ∧ alookup (WriteProtobuf c9Graph).rootAndOutTargets "x" = some (newEdgeList [0]) := by
  refine ⟨?_, ?_, ?_⟩
  · exact ((writeProtobuf_spec c9Graph).1
      (0, .target ⟨0, "x", "root", false, false, false, true, .zero,
        .fieldMapping ⟨some (.targetObject "x"), some (.mk (.constBool true) "" .nil), none⟩⟩)
      (by decide)).1 (by decide)
  · exact (writeProtobuf_spec c9Graph).2.1 (0, [1]) (by decide) (by decide)
  · exact (writeProtobuf_spec c9Graph).2.2.2.2.1 ("x", [0]) (by decide) (by decide)

/-! ### Association-list facts used by the preservation proofs -/

theorem alookup_aset_cases {κ α : Type} [DecidableEq κ] (l : List (κ × α)) (k k' : κ)
    (v : α) : alookup (aset l k v) k' =
      if k = k' then some v else alookup l k' := by
  by_cases h : k = k'
  · subst h
    rw [if_pos rfl, alookup_aset_self]
  · rw [if_neg h, alookup_aset_ne _ _ _ _ h]

theorem appendOrAddID_sub (idLists : List (String × List Int)) (id : Int) (name : String) :
    ∀ k l, alookup (appendOrAddID idLists id name) k = some l →
      ∀ v ∈ l, v = id ∨ ∃ l0, alookup idLists k = some l0 ∧ v ∈ l0 := by
  intro k l hl v hv
  unfold appendOrAddID at hl
  by_cases hk : name = k
  · subst hk
    cases h0 : alookup idLists name with
    | none =>
      rw [h0, alookup_aset_self] at hl
      cases hl
      simp at hv
      exact .inl hv
    | some l0 =>
      rw [h0, alookup_aset_self] at hl
      cases hl
      rcases List.mem_append.1 hv with h | h
      · exact .inr ⟨l0, rfl, h⟩
      · simp at h
        exact .inl h
  · cases h0 : alookup idLists name with
    | none =>
      rw [h0, alookup_aset_ne _ _ _ _ hk] at hl
      exact .inr ⟨l, hl, hv⟩
    | some l0 =>
      rw [h0, alookup_aset_ne _ _ _ _ hk] at hl
      exact .inr ⟨l, hl, hv⟩

theorem mem_aset {κ α : Type} [DecidableEq κ] {l : List (κ × α)} {k : κ} {v : α}
    {p : κ × α} (hp : p ∈ aset l k v) : p = (k, v) ∨ p ∈ l := by
  induction l with
  | nil =>
    simp [aset] at hp
    exact .inl hp
  | cons hd rest ih =>
    obtain ⟨k0, v0⟩ := hd
    by_cases h0 : k0 = k
    · simp only [aset, if_pos h0, List.mem_cons] at hp
      rcases hp with hp | hp
      · exact .inl hp
      · exact .inr (List.mem_cons_of_mem _ hp)
    · simp only [aset, if_neg h0, List.mem_cons] at hp
      rcases hp with hp | hp
      · exact .inr (hp ▸ List.mem_cons_self _ _)
      · rcases ih hp with h | h
        · exact .inl h
        · exact .inr (List.mem_cons_of_mem _ h)

/-- `MapOK` is preserved by `appendOrAddTargetLineage` of a `LinOK` lineage. -/
theorem mapOK_appendOrAdd {g : GraphState} {m : List (String × List TargetLineage)}
    {lineage : TargetLineage} {name : String} (hm : MapOK g m) (hl : LinOK g lineage) :
    MapOK g (appendOrAddTargetLineage m lineage name) := by
  intro p hp tl htl
  unfold appendOrAddTargetLineage at hp
  cases h0 : alookup m name with
  | none =>
    rw [h0] at hp
    rcases mem_aset hp with rfl | hp
    · simp at htl
      exact htl ▸ hl
    · exact hm p hp tl htl
  | some ls0 =>
    rw [h0] at hp
    rcases mem_aset hp with rfl | hp
    · rcases List.mem_append.1 htl with h | h
      · exact hm (name, ls0) (alookup_mem h0) tl h
      · simp at h
        exact h ▸ hl
    · exact hm p hp tl htl

/-! ### The acyclicity argument for an appended value edge -/

/-- Decompose a transitive chain of an extended relation: either it uses only
old steps, or it passes through the single new pair `(a, b)`. -/
theorem transGen_new_pair {α : Type} {R R' : α → α → Prop} (a b : α)
    (hsub : ∀ x y, R' x y → R x y ∨ (x = a ∧ y = b))
    (hmono : ∀ x y, R x y → R' x y) :
    ∀ {x y : α}, Relation.TransGen R' x y →
      Relation.TransGen R x y ∨
        (Relation.ReflTransGen R' x a ∧ Relation.ReflTransGen R' b y) := by
  intro x y h
  induction h with
  | single hstep =>
    rcases hsub _ _ hstep with hR | ⟨h1, h2⟩
    · exact .inl (.single hR)
    · exact .inr ⟨h1 ▸ .refl, h2 ▸ .refl⟩
  | tail hxy hstep ih =>
    rcases hsub _ _ hstep with hR | ⟨h1, h2⟩
    · rcases ih with hL | ⟨hxa, hby⟩
      · exact .inl (hL.tail hR)
      · exact .inr ⟨hxa, hby.tail hstep⟩
    · rcases ih with hL | ⟨hxa, _⟩
      · exact .inr ⟨h1 ▸ (Relation.TransGen.mono hmono hL).to_reflTransGen, h2 ▸ .refl⟩
      · exact .inr ⟨hxa, h2 ▸ .refl⟩

/-- Every step of the edge-appended graph is an old step or the new pair. -/
theorem edgeStep_aset_decomp {g1 : GraphState} {did : Int} {lst : List Int} {nid : Int}
    (hlk : alookup g1.edges did = some lst) :
    ∀ x y, EdgeStep { g1 with edges := aset g1.edges did (lst ++ [nid]) } x y →
      EdgeStep g1 x y ∨ (x = did ∧ y = nid) := by
  rintro x y ⟨⟨l, hl, hyl⟩, hna1, hna2⟩
  by_cases hx : x = did
  · subst hx
    rw [show ({ g1 with edges := aset g1.edges x (lst ++ [nid]) } : GraphState).edges
        = aset g1.edges x (lst ++ [nid]) from rfl, alookup_aset_self] at hl
    cases hl
    rcases List.mem_append.1 hyl with h | h
    · exact .inl ⟨⟨lst, hlk, h⟩, hna1, hna2⟩
    · simp at h
      exact .inr ⟨rfl, h⟩
  · rw [show ({ g1 with edges := aset g1.edges did (lst ++ [nid]) } : GraphState).edges
        = aset g1.edges did (lst ++ [nid]) from rfl,
        alookup_aset_ne _ _ _ _ (Ne.symm hx)] at hl
    exact .inl ⟨⟨l, hl, hyl⟩, hna1, hna2⟩

/-- Every old step survives the edge append. -/
theorem edgeStep_aset_mono {g1 : GraphState} {did : Int} {lst : List Int} {nid : Int}
    (hlk : alookup g1.edges did = some lst) :
    ∀ x y, EdgeStep g1 x y →
      EdgeStep { g1 with edges := aset g1.edges did (lst ++ [nid]) } x y := by
  rintro x y ⟨⟨l, hl, hyl⟩, hna1, hna2⟩
  by_cases hx : x = did
  · subst hx
    rw [hlk] at hl
    cases hl
    exact ⟨⟨lst ++ [nid], alookup_aset_self _ _ _, List.mem_append.2 (.inl hyl)⟩, hna1, hna2⟩
  · refine ⟨⟨l, ?_, hyl⟩, hna1, hna2⟩
    rw [show ({ g1 with edges := aset g1.edges did (lst ++ [nid]) } : GraphState).edges
        = aset g1.edges did (lst ++ [nid]) from rfl,
        alookup_aset_ne _ _ _ _ (Ne.symm hx)]
    exact hl

/-- The DFS predicate follows edge chains backwards. -/
theorem dfsFinds_of_reflTransGen {g : GraphState} {msg : Msg} {t : Int}
    (hfin : DfsFinds g msg t) {z : Int}
    (hpath : Relation.ReflTransGen (EdgeStep g) z t) : DfsFinds g msg z := by
  induction hpath using Relation.ReflTransGen.head_induction_on with
  | refl => exact hfin
  | head hstep _ ih =>
    obtain ⟨⟨l, hl, hwl⟩, ⟨nd, hnd, hnarg⟩, _⟩ := hstep
    exact .step _ nd l _ hnd hnarg hl hwl ih

/-- The endpoint of a nonempty-or-not `EdgeStep` chain starting at a
non-`Argument` node is non-`Argument`. -/
theorem reflTransGen_nonarg_last {g : GraphState} {a b : Int}
    (h : Relation.ReflTransGen (EdgeStep g) a b) (ha : NonArgAt g a) : NonArgAt g b := by
  induction h with
  | refl => exact ha
  | tail _ hstep _ => exact hstep.2.2

/-- Appending a value edge whose recursion check came back `false` keeps the
argless edge relation acyclic: a fresh cycle would have to use the new pair,
and the resulting backward chain is exactly a successful DFS from a
payload-equal node, contradicting the check. -/
theorem acyclic_append_edge {fuel : Nat} {g1 : GraphState} {node : Node} {did : Int}
    {lst : List Int}
    (hac : AcyclicArgless g1)
    (hnode : alookup g1.nodes node.id = some node)
    (hlk : alookup g1.edges did = some lst)
    (hrec : isRecursive fuel
      { g1 with edges := aset g1.edges did (lst ++ [node.id]) } node = .ok false) :
    AcyclicArgless { g1 with edges := aset g1.edges did (lst ++ [node.id]) } := by
  intro x hcyc
  by_cases hnarg : node.isArgument = true
  · -- an `Argument` node cannot be the target of any argless step, so the
    -- new pair is never used and the cycle lifts to the old graph
    have hstep1 : ∀ a b,
        EdgeStep { g1 with edges := aset g1.edges did (lst ++ [node.id]) } a b →
        EdgeStep g1 a b := by
      intro a b hab
      rcases edgeStep_aset_decomp hlk a b hab with h | ⟨h1, h2⟩
      · exact h
      · obtain ⟨nd, hnd, hfalse⟩ := hab.2.2
        rw [h2] at hnd
        have hnd1 : alookup g1.nodes node.id = some nd := hnd
        rw [hnode] at hnd1
        injection hnd1 with hnd1
        subst hnd1
        rw [hnarg] at hfalse
        exact Bool.noConfusion hfalse
    exact hac x (Relation.TransGen.mono hstep1 hcyc)
  · replace hnarg : node.isArgument = false := by
      cases h : node.isArgument
      · rfl
      · exact absurd h hnarg
    rcases transGen_new_pair did node.id (edgeStep_aset_decomp hlk)
      (edgeStep_aset_mono hlk) hcyc with hg1 | ⟨hxd, hnx⟩
    · exact hac x hg1
    · have hpath : Relation.ReflTransGen
          (EdgeStep { g1 with edges := aset g1.edges did (lst ++ [node.id]) })
          node.id did := hnx.trans hxd
      have hnode2 : alookup ({ g1 with edges := aset g1.edges did (lst ++ [node.id]) }
          : GraphState).nodes node.id = some node := hnode
      have hfound : DfsFinds { g1 with edges := aset g1.edges did (lst ++ [node.id]) }
          node.protoMsg node.id := .found _ node hnode2 hnarg rfl
      have hl2 : alookup ({ g1 with edges := aset g1.edges did (lst ++ [node.id]) }
          : GraphState).edges did = some (lst ++ [node.id]) := alookup_aset_self _ _ _
      have hmem : node.id ∈ lst ++ [node.id] :=
        List.mem_append.2 (.inr (List.mem_singleton.2 rfl))
      rcases Relation.ReflTransGen.cases_head hpath with heq | ⟨w, hstep, htail⟩
      · -- the new edge is a self-loop on the new node
        subst heq
        refine absurd ?_ (isRecursive_false_not_reaches hrec hnode2)
        exact ⟨node.id, node, alookup_mem hnode2, rfl, lst ++ [node.id], hl2, node.id,
          hmem, hfound⟩
      · -- walk the cycle backwards from the attachment point to the new node
        obtain ⟨⟨l, hl, hwl⟩, _, hnaw⟩ := hstep
        have hnad : NonArgAt { g1 with edges := aset g1.edges did (lst ++ [node.id]) } did :=
          reflTransGen_nonarg_last hpath ⟨node, hnode2, hnarg⟩
        obtain ⟨dd, hdd, hdna⟩ := hnad
        have hfd : DfsFinds { g1 with edges := aset g1.edges did (lst ++ [node.id]) }
            node.protoMsg did := .step _ dd _ _ hdd hdna hl2 hmem hfound
        refine absurd ?_ (isRecursive_false_not_reaches hrec hnode2)
        exact ⟨node.id, node, alookup_mem hnode2, rfl, l, hl, w, hwl,
          dfsFinds_of_reflTransGen hfd htail⟩

/-! ### Preservation of the graph invariants by `addNode` -/

/-- Everything a successful `addNode` guarantees: the invariants still hold,
the node table grew monotonically, the new node is stored, the lineage cache
is untouched, and the key set gained exactly the fresh node's id (when the
node was new). -/
def AddNodeOut (g g' : GraphState) (node : Node) (isNew : Bool) : Prop :=
  WFGraph g' ∧ AcyclicArgless g' ∧ NodesMono g g' ∧
  alookup g'.nodes node.id = some node ∧
  g'.targetLineages = g.targetLineages ∧
  ∀ k, (∃ nd, alookup g'.nodes k = some nd) ↔
    ((∃ nd, alookup g.nodes k = some nd) ∨ (isNew = true ∧ k = node.id))

theorem aset_flag_lookup {l : List (Int × List Int)} {kk : Int} {flag : Bool}
    (hflag : flag = true) :
    ∀ k, alookup (aset l kk ([] : List Int)) k =
      if k = kk ∧ flag = true then some [] else alookup l k := by
  intro k
  rw [alookup_aset_cases]
  by_cases hk : kk = k
  · rw [if_pos hk, if_pos ⟨hk.symm, hflag⟩]
  · rw [if_neg hk, if_neg (fun hc => hk hc.1.symm)]

theorem noset_flag_lookup {l : List (Int × List Int)} {kk : Int} {flag : Bool}
    (hflag : ¬ flag = true) :
    ∀ k, alookup l k = if k = kk ∧ flag = true then some [] else alookup l k := by
  intro k
  rw [if_neg (fun hc => hflag hc.2)]

/-- The facts-based core of the fresh-insertion case: a graph whose maps
look up as the old graph plus the new node's empty rows satisfies all the
invariants. -/
theorem insert_facts {g g1 : GraphState} {node : Node}
    (hwf : WFGraph g) (hac : AcyclicArgless g)
    (hf : alookup g.nodes node.id = none)
    (hn : g1.nodes = aset g.nodes node.id node)
    (he : g1.edges = aset g.edges node.id [])
    (hae : ∀ k, alookup g1.argumentEdges k =
      if k = node.id ∧ node.isProjector = true then some []
      else alookup g.argumentEdges k)
    (hce : ∀ k, alookup g1.conditionEdges k =
      if k = node.id ∧ node.isTarget = true then some []
      else alookup g.conditionEdges k)
    (hrt : g1.rootAndOutTargets = g.rootAndOutTargets)
    (htl : g1.targetLineages = g.targetLineages) :
    AddNodeOut g g1 node true := by
  have hnl : ∀ k, alookup g1.nodes k =
      if node.id = k then some node else alookup g.nodes k := by
    intro k
    rw [hn, alookup_aset_cases]
  have hel : ∀ k, alookup g1.edges k =
      if node.id = k then some [] else alookup g.edges k := by
    intro k
    rw [he, alookup_aset_cases]
  have hmono : NodesMono g g1 := by
    intro k nd h
    rw [hnl]
    rcases eq_or_ne node.id k with hk | hk
    · rw [← hk, hf] at h
      cases h
    · rw [if_neg hk]
      exact h
  have hhas : alookup g1.nodes node.id = some node := by
    rw [hnl, if_pos rfl]
  refine ⟨⟨?_, ?_, ?_, ?_, ?_, ?_, ?_, ?_⟩, ?_, hmono, hhas, htl, ?_⟩
  · -- edgesClosed
    intro k l hkl v hv
    rw [hel] at hkl
    by_cases hk : node.id = k
    · rw [if_pos hk] at hkl
      cases hkl
      cases hv
    · rw [if_neg hk] at hkl
      obtain ⟨nd, hnd⟩ := hwf.edgesClosed k l hkl v hv
      exact ⟨nd, hmono _ _ hnd⟩
  · -- argClosed
    intro k l hkl v hv
    rw [hae] at hkl
    by_cases hk : k = node.id ∧ node.isProjector = true
    · rw [if_pos hk] at hkl
      cases hkl
      cases hv
    · rw [if_neg hk] at hkl
      obtain ⟨nd, hnd⟩ := hwf.argClosed k l hkl v hv
      exact ⟨nd, hmono _ _ hnd⟩
  · -- condClosed
    intro k l hkl v hv
    rw [hce] at hkl
    by_cases hk : k = node.id ∧ node.isTarget = true
    · rw [if_pos hk] at hkl
      cases hkl
      cases hv
    · rw [if_neg hk] at hkl
      obtain ⟨nd, hnd⟩ := hwf.condClosed k l hkl v hv
      exact ⟨nd, hmono _ _ hnd⟩
  · -- rootClosed
    intro k l hkl v hv
    rw [hrt] at hkl
    obtain ⟨nd, hnd⟩ := hwf.rootClosed k l hkl v hv
    exact ⟨nd, hmono _ _ hnd⟩
  · -- nodesEdges
    intro k
    rw [hnl, hel]
    by_cases hk : node.id = k
    · rw [if_pos hk, if_pos hk]
      exact ⟨fun _ => ⟨[], rfl⟩, fun _ => ⟨node, rfl⟩⟩
    · rw [if_neg hk, if_neg hk]
      exact hwf.nodesEdges k
  · -- argKeys
    intro k
    rw [hnl, hae]
    by_cases hk : node.id = k
    · subst hk
      by_cases hp : node.isProjector = true
      · rw [if_pos ⟨rfl, hp⟩, if_pos rfl]
        exact ⟨fun _ => ⟨node, rfl, hp⟩, fun _ => ⟨[], rfl⟩⟩
      · rw [if_neg (fun hc => hp hc.2), if_pos rfl]
        constructor
        · intro hl
          obtain ⟨nd, hnd, _⟩ := (hwf.argKeys node.id).1 hl
          rw [hf] at hnd
          cases hnd
        · rintro ⟨nd, hnd, hpnd⟩
          injection hnd with hnd
          subst hnd
          exact absurd hpnd hp
    · rw [if_neg (fun hc => hk hc.1.symm), if_neg hk]
      exact hwf.argKeys k
  · -- condKeys
    intro k
    rw [hnl, hce]
    by_cases hk : node.id = k
    · subst hk
      by_cases hp : node.isTarget = true
      · rw [if_pos ⟨rfl, hp⟩, if_pos rfl]
        exact ⟨fun _ => ⟨node, rfl, hp⟩, fun _ => ⟨[], rfl⟩⟩
      · rw [if_neg (fun hc => hp hc.2), if_pos rfl]
        constructor
        · intro hl
          obtain ⟨nd, hnd, _⟩ := (hwf.condKeys node.id).1 hl
          rw [hf] at hnd
          cases hnd
        · rintro ⟨nd, hnd, hpnd⟩
          injection hnd with hnd
          subst hnd
          exact absurd hpnd hp
    · rw [if_neg (fun hc => hk hc.1.symm), if_neg hk]
      exact hwf.condKeys k
  · -- idCoherent
    intro k nd h
    rw [hnl] at h
    by_cases hk : node.id = k
    · rw [if_pos hk] at h
      injection h with h
      subst h
      exact hk
    · rw [if_neg hk] at h
      exact hwf.idCoherent k nd h
  · -- acyclicity: the fresh node has no outgoing edges and is in no old list
    intro x hcyc
    refine hac x (Relation.TransGen.mono ?_ hcyc)
    rintro a b ⟨⟨l, hl, hbl⟩, ⟨na, hna, hnaa⟩, ⟨nb, hnb, hnab⟩⟩
    rw [hel] at hl
    by_cases ha : node.id = a
    · rw [if_pos ha] at hl
      cases hl
      cases hbl
    · rw [if_neg ha] at hl
      by_cases hb : node.id = b
      · obtain ⟨nd, hnd⟩ := hwf.edgesClosed a l hl b hbl
        rw [← hb, hf] at hnd
        cases hnd
      · rw [hnl, if_neg ha] at hna
        rw [hnl, if_neg hb] at hnb
        exact ⟨⟨l, hl, hbl⟩, ⟨na, hna, hnaa⟩, ⟨nb, hnb, hnab⟩⟩
  · -- the key set gained exactly the fresh id
    intro k
    rw [hnl]
    by_cases hk : node.id = k
    · rw [if_pos hk]
      exact ⟨fun _ => .inr ⟨rfl, hk.symm⟩, fun _ => ⟨node, rfl⟩⟩
    · rw [if_neg hk]
      constructor
      · exact fun hh => .inl hh
      · rintro (hh | ⟨_, rfl⟩)
        · exact hh
        · exact absurd rfl hk

/-- A successful fresh insertion establishes `AddNodeOut`. -/
theorem insertNewNode_ok_out {g : GraphState} {node : Node} {g1 : GraphState}
    (hwf : WFGraph g) (hac : AcyclicArgless g)
    (hf : alookup g.nodes node.id = none)
    (h : insertNewNode g node true = .ok g1) : AddNodeOut g g1 node true := by
  unfold insertNewNode at h
  rw [if_pos rfl] at h
  simp only [hf] at h
  injection h with h
  subst h
  refine insert_facts hwf hac hf ?_ ?_ ?_ ?_ ?_ ?_
  · cases node.isProjector <;> cases node.isTarget <;> rfl
  · cases node.isProjector <;> cases node.isTarget <;> rfl
  · cases hp : node.isProjector
    · cases node.isTarget <;> exact noset_flag_lookup (by simp)
    · cases node.isTarget <;> exact aset_flag_lookup rfl
  · cases ht : node.isTarget
    · cases node.isProjector <;> exact noset_flag_lookup (by simp)
    · cases node.isProjector <;> exact aset_flag_lookup rfl
  · cases node.isProjector <;> cases node.isTarget <;> rfl
  · cases node.isProjector <;> cases node.isTarget <;> rfl

/-- A successful insertion (fresh or reused) establishes `AddNodeOut`. -/
theorem insertNewNode_out {g : GraphState} {node : Node} {nodeIsNew : Bool}
    {g1 : GraphState} (hwf : WFGraph g) (hac : AcyclicArgless g)
    (hfresh : nodeIsNew = true → alookup g.nodes node.id = none)
    (hstored : nodeIsNew = false → alookup g.nodes node.id = some node)
    (h : insertNewNode g node nodeIsNew = .ok g1) : AddNodeOut g g1 node nodeIsNew := by
  cases nodeIsNew
  · unfold insertNewNode at h
    rw [if_neg (by simp)] at h
    injection h with h
    subst h
    refine ⟨hwf, hac, nodesMono_refl g, hstored rfl, rfl, fun k => ?_⟩
    constructor
    · exact fun hh => .inl hh
    · rintro (hh | ⟨hh, _⟩)
      · exact hh
      · exact Bool.noConfusion hh
  · exact insertNewNode_ok_out hwf hac (hfresh rfl) h

/-- Appending an argument edge preserves `AddNodeOut`. -/
theorem arg_attach_out {g g1 : GraphState} {node d : Node} {al : List Int} {isNew : Bool}
    (hout : AddNodeOut g g1 node isNew)
    (hlk : alookup g1.argumentEdges d.id = some al) :
    AddNodeOut g { g1 with argumentEdges := aset g1.argumentEdges d.id (al ++ [node.id]) }
      node isNew := by
  obtain ⟨hwf1, hac1, hmono1, hhas1, htl1, hkeys1⟩ := hout
  refine ⟨⟨hwf1.edgesClosed, ?_, hwf1.condClosed, hwf1.rootClosed, hwf1.nodesEdges,
    ?_, hwf1.condKeys, hwf1.idCoherent⟩, hac1, hmono1, hhas1, htl1, hkeys1⟩
  · -- argClosed
    intro k l hkl v hv
    rw [show ({ g1 with argumentEdges := aset g1.argumentEdges d.id (al ++ [node.id]) }
        : GraphState).argumentEdges = aset g1.argumentEdges d.id (al ++ [node.id])
        from rfl, alookup_aset_cases] at hkl
    by_cases hk : d.id = k
    · rw [if_pos hk] at hkl
      cases hkl
      rcases List.mem_append.1 hv with h | h
      · exact hwf1.argClosed k al (hk ▸ hlk) v h
      · simp at h
        exact ⟨node, h ▸ hhas1⟩
    · rw [if_neg hk] at hkl
      exact hwf1.argClosed k l hkl v hv
  · -- argKeys
    intro k
    show (∃ l, alookup (aset g1.argumentEdges d.id (al ++ [node.id])) k = some l) ↔ _
    rw [alookup_aset_cases]
    by_cases hk : d.id = k
    · rw [if_pos hk]
      exact ⟨fun _ => (hwf1.argKeys k).1 ⟨al, hk ▸ hlk⟩, fun _ => ⟨_, rfl⟩⟩
    · rw [if_neg hk]
      exact hwf1.argKeys k

/-- Appending a condition edge and passing the recursion check preserves
`AddNodeOut`. -/
theorem cond_attach_out {fuel : Nat} {g g1 : GraphState} {node d : Node} {al : List Int}
    {isNew : Bool} {g' : GraphState}
    (hout : AddNodeOut g g1 node isNew)
    (hlk : alookup g1.conditionEdges d.id = some al)
    (hok : checkRecursion fuel
      { g1 with conditionEdges := aset g1.conditionEdges d.id (al ++ [node.id]) } node
      = .ok g') : AddNodeOut g g' node isNew := by
  obtain ⟨hwf1, hac1, hmono1, hhas1, htl1, hkeys1⟩ := hout
  unfold checkRecursion at hok
  cases hrec : isRecursive fuel
      { g1 with conditionEdges := aset g1.conditionEdges d.id (al ++ [node.id]) } node with
  | error e =>
    rw [hrec] at hok
    exact absurd hok (by simp)
  | ok b =>
    rw [hrec] at hok
    cases b
    · injection hok with hok
      subst hok
      refine ⟨⟨hwf1.edgesClosed, hwf1.argClosed, ?_, hwf1.rootClosed, hwf1.nodesEdges,
        hwf1.argKeys, ?_, hwf1.idCoherent⟩, hac1, hmono1, hhas1, htl1, hkeys1⟩
      · -- condClosed
        intro k l hkl v hv
        rw [show ({ g1 with conditionEdges := aset g1.conditionEdges d.id (al ++ [node.id]) }
            : GraphState).conditionEdges = aset g1.conditionEdges d.id (al ++ [node.id])
            from rfl, alookup_aset_cases] at hkl
        by_cases hk : d.id = k
        · rw [if_pos hk] at hkl
          cases hkl
          rcases List.mem_append.1 hv with h | h
          · exact hwf1.condClosed k al (hk ▸ hlk) v h
          · simp at h
            exact ⟨node, h ▸ hhas1⟩
        · rw [if_neg hk] at hkl
          exact hwf1.condClosed k l hkl v hv
      · -- condKeys
        intro k
        show (∃ l, alookup (aset g1.conditionEdges d.id (al ++ [node.id])) k = some l) ↔ _
        rw [alookup_aset_cases]
        by_cases hk : d.id = k
        · rw [if_pos hk]
          exact ⟨fun _ => (hwf1.condKeys k).1 ⟨al, hk ▸ hlk⟩, fun _ => ⟨_, rfl⟩⟩
        · rw [if_neg hk]
          exact hwf1.condKeys k
    · exact absurd hok (by simp)

/-- Appending a value edge and passing the recursion check preserves
`AddNodeOut`; this is where the acyclicity argument lives. -/
theorem value_attach_out {fuel : Nat} {g g1 : GraphState} {node d : Node} {lst : List Int}
    {isNew : Bool} {g' : GraphState}
    (hout : AddNodeOut g g1 node isNew)
    (hlk : alookup g1.edges d.id = some lst)
    (hok : checkRecursion fuel
      { g1 with edges := aset g1.edges d.id (lst ++ [node.id]) } node = .ok g') :
    AddNodeOut g g' node isNew := by
  obtain ⟨hwf1, hac1, hmono1, hhas1, htl1, hkeys1⟩ := hout
  unfold checkRecursion at hok
  cases hrec : isRecursive fuel { g1 with edges := aset g1.edges d.id (lst ++ [node.id]) }
      node with
  | error e =>
    rw [hrec] at hok
    exact absurd hok (by simp)
  | ok b =>
    rw [hrec] at hok
    cases b
    · injection hok with hok
      subst hok
      refine ⟨⟨?_, hwf1.argClosed, hwf1.condClosed, hwf1.rootClosed, ?_,
        hwf1.argKeys, hwf1.condKeys, hwf1.idCoherent⟩,
        acyclic_append_edge hac1 hhas1 hlk hrec, hmono1, hhas1, htl1, hkeys1⟩
      · -- edgesClosed
        intro k l hkl v hv
        rw [show ({ g1 with edges := aset g1.edges d.id (lst ++ [node.id]) }
            : GraphState).edges = aset g1.edges d.id (lst ++ [node.id]) from rfl,
          alookup_aset_cases] at hkl
        by_cases hk : d.id = k
        · rw [if_pos hk] at hkl
          cases hkl
          rcases List.mem_append.1 hv with h | h
          · exact hwf1.edgesClosed k lst (hk ▸ hlk) v h
          · simp at h
            exact ⟨node, h ▸ hhas1⟩
        · rw [if_neg hk] at hkl
          exact hwf1.edgesClosed k l hkl v hv
      · -- nodesEdges
        intro k
        show _ ↔ (∃ l, alookup (aset g1.edges d.id (lst ++ [node.id])) k = some l)
        rw [alookup_aset_cases]
        by_cases hk : d.id = k
        · rw [if_pos hk]
          exact ⟨fun _ => ⟨_, rfl⟩, fun _ => (hwf1.nodesEdges k).2 ⟨lst, hk ▸ hlk⟩⟩
        · rw [if_neg hk]
          exact hwf1.nodesEdges k
    · exact absurd hok (by simp)

/-- The full `addNode` preservation theorem: a successful call keeps the graph
well-formed and argless-acyclic, grows the node table by exactly the fresh id
(none when reusing), stores the node, and leaves the lineage cache alone. -/
theorem addNode_ok_spec {fuel : Nat} {g : GraphState} {node : Node} {desc : Option Node}
    {isArg isCondition nodeIsNew : Bool} {g' : GraphState}
    (hwf : WFGraph g) (hac : AcyclicArgless g)
    (hfresh : nodeIsNew = true → alookup g.nodes node.id = none)
    (hstored : nodeIsNew = false → alookup g.nodes node.id = some node)
    (hok : addNode fuel g node desc isArg isCondition nodeIsNew = .ok g') :
    AddNodeOut g g' node nodeIsNew := by
  unfold addNode at hok
  cases hins : insertNewNode g node nodeIsNew with
  | error e =>
    simp only [hins] at hok
    exact absurd hok (by simp)
  | ok g1 =>
    simp only [hins] at hok
    have hout := insertNewNode_out hwf hac hfresh hstored hins
    cases desc with
    | none =>
      have hok2 : Except.ok (ε := Err) g1 = Except.ok g' := hok
      injection hok2 with hok2
      subst hok2
      exact hout
    | some d =>
      cases isArg with
      | true =>
        have hok2 : (match alookup g1.argumentEdges d.id with
            | none => Except.error (Err.danglingEdge d.id)
            | some ancestorList => Except.ok { g1 with
                argumentEdges := aset g1.argumentEdges d.id (ancestorList ++ [node.id]) })
            = .ok g' := hok
        cases hlk : alookup g1.argumentEdges d.id with
        | none =>
          simp only [hlk] at hok2
          exact absurd hok2 (by simp)
        | some al =>
          simp only [hlk] at hok2
          injection hok2 with hok2
          subst hok2
          exact arg_attach_out hout hlk
      | false =>
        cases isCondition with
        | true =>
          have hok2 : (match alookup g1.conditionEdges d.id with
              | none => Except.error (Err.danglingEdge d.id)
              | some ancestorList => checkRecursion fuel { g1 with
                  conditionEdges := aset g1.conditionEdges d.id (ancestorList ++ [node.id]) }
                  node)
              = .ok g' := hok
          cases hlk : alookup g1.conditionEdges d.id with
          | none =>
            simp only [hlk] at hok2
            exact absurd hok2 (by simp)
          | some al =>
            simp only [hlk] at hok2
            exact cond_attach_out hout hlk hok2
        | false =>
          have hok2 : (match alookup g1.edges d.id with
              | none => Except.error (Err.danglingEdge d.id)
              | some ancestorList => checkRecursion fuel { g1 with
                  edges := aset g1.edges d.id (ancestorList ++ [node.id]) } node)
              = .ok g' := hok
          cases hlk : alookup g1.edges d.id with
          | none =>
            simp only [hlk] at hok2
            exact absurd hok2 (by simp)
          | some lst =>
            simp only [hlk] at hok2
            exact value_attach_out hout hlk hok2

/-! ### Nodes found by the pure helpers are stored in the graph -/

/-- Every node returned by the `findNodesInGraph` recursion is stored in the
graph, provided the lineage map and the cursor node are. -/
theorem findPacks_has (g : GraphState) : ∀ fuel : Nat,
    (∀ path curr lin res, (∀ n, curr = some n → NodesHas g n) → MapOK g lin →
      (findPacks fuel).fng path curr lin = .ok res → ∀ n ∈ res, NodesHas g n) ∧
    (∀ path entries, MapOK g entries →
      ∀ n ∈ (findPacks fuel).fngEntries path entries, NodesHas g n) ∧
    (∀ rest ls, (∀ tl ∈ ls, LinOK g tl) →
      ∀ n ∈ (findPacks fuel).fngList rest ls, NodesHas g n) := by
  intro fuel
  induction fuel with
  | zero =>
    refine ⟨?_, ?_, ?_⟩
    · intro path curr lin res _ _ h
      exact absurd h (by simp [findPacks])
    · intro path entries _ n hn
      simp [findPacks] at hn
    · intro rest ls _ n hn
      simp [findPacks] at hn
  | succ fuel ih =>
    obtain ⟨ihf, ihe, ihl⟩ := ih
    refine ⟨?_, ?_, ?_⟩
    · intro path curr lin res hcurr hlin h
      simp only [findPacks, fngF] at h
      cases path with
      | nil =>
        cases hc : curr with
        | none =>
          rw [hc] at h
          exact absurd h (by simp)
        | some n0 =>
          rw [hc] at h
          have h2 : Except.ok (ε := Err) [n0] = .ok res := h
          injection h2 with h2
          subst h2
          intro n hn
          simp at hn
          subst hn
          exact hcurr _ hc
      | cons p ps =>
        cases hm : (findPacks fuel).fngEntries (p :: ps) lin with
        | nil =>
          rw [hm] at h
          exact absurd h (by simp)
        | cons m ms =>
          rw [hm] at h
          have h2 : Except.ok (ε := Err) (m :: ms) = .ok res := h
          injection h2 with h2
          subst h2
          intro n hn
          exact ihe (p :: ps) lin hlin n (by rw [hm]; exact hn)
    · intro path entries hent n hn
      cases entries with
      | nil =>
        simp [findPacks, fngEntriesF] at hn
      | cons e rest =>
        obtain ⟨tn, ls⟩ := e
        simp only [findPacks, fngEntriesF] at hn
        rcases List.mem_append.1 hn with h | h
        · by_cases hgt : matchUpToDiff (splitDots tn) path > 0
          · rw [if_pos hgt] at h
            exact ihl _ ls (fun tl htl => hent (tn, ls) (List.mem_cons_self _ _) tl htl) n h
          · rw [if_neg hgt] at h
            cases h
        · exact ihe path rest (fun p hp tl htl => hent p (List.mem_cons_of_mem _ hp) tl htl) n h
    · intro rest ls hls n hn
      cases ls with
      | nil =>
        simp [findPacks, fngListF] at hn
      | cons cl more =>
        simp only [findPacks, fngListF] at hn
        rcases List.mem_append.1 hn with h | h
        · cases hr : (findPacks fuel).fng rest (some (.target cl.node)) cl.childTargets with
          | error e =>
            rw [hr] at h
            simp [Except.toOption] at h
          | ok res =>
            rw [hr] at h
            simp only [Except.toOption, Option.getD_some] at h
            have hcl := hls cl (List.mem_cons_self _ _)
            cases hcl with
            | mk nd ct hnd hct =>
              refine ihf rest (some (.target nd)) ct res ?_ hct hr n h
              intro n2 hn2
              injection hn2 with hn2
              subst hn2
              exact hnd
        · exact ihl rest more (fun tl htl => hls tl (List.mem_cons_of_mem _ htl)) n h

/-- `findNodesInGraph` only returns stored nodes. -/
theorem findNodesInGraph_has {g : GraphState} {fuel : Nat} {path : List String}
    {curr : Option Node} {lin : List (String × List TargetLineage)} {res : List Node}
    (hcurr : ∀ n, curr = some n → NodesHas g n) (hlin : MapOK g lin)
    (h : findNodesInGraph fuel path curr lin = .ok res) : ∀ n ∈ res, NodesHas g n :=
  (findPacks_has g fuel).1 path curr lin res hcurr hlin h

/-- Whistler nodes produced from a value source carry only stored nodes in
`nodeInGraph` (strong induction on the size of the source, which shrinks at
the `$Not` unwrapping). -/
theorem wnvs_WOK {g : GraphState} (fuel : Nat) :
    ∀ (n : Nat) (source : ValueSource) (env : Env) (fm : Bool) (pt : ProjTable)
      (res : List WhistlerNode), sizeOf source < n → EnvOK g env →
      whistlerNodesFromValueSource fuel source env fm pt = .ok res →
      ∀ w ∈ res, WOK g w := by
  intro n
  induction n with
  | zero =>
    intro source env fm pt res hsz
    exact absurd hsz (Nat.not_lt_zero _)
  | succ n ih =>
    intro source env fm pt res hsz henv h
    obtain ⟨src, proj, extra⟩ := source
    cases src with
    | unset =>
      simp only [whistlerNodesFromValueSource] at h
      split at h
      · split at h
        · exact absurd h (by simp)
        · injection h with h
          subst h
          intro w hw
          simp at hw
          subst hw
          intro nd hnd
          exact Option.noConfusion hnd
      · injection h with h
        subst h
        intro w hw
        simp at hw
        subst hw
        intro nd hnd
        exact Option.noConfusion hnd
    | constBool b =>
      simp only [whistlerNodesFromValueSource] at h
      split at h
      · split at h
        · exact absurd h (by simp)
        · injection h with h
          subst h
          intro w hw
          simp at hw
          subst hw
          intro nd hnd
          exact Option.noConfusion hnd
      · injection h with h
        subst h
        intro w hw
        simp at hw
        subst hw
        intro nd hnd
        exact Option.noConfusion hnd
    | constInt i =>
      simp only [whistlerNodesFromValueSource] at h
      split at h
      · split at h
        · exact absurd h (by simp)
        · injection h with h
          subst h
          intro w hw
          simp at hw
          subst hw
          intro nd hnd
          exact Option.noConfusion hnd
      · injection h with h
        subst h
        intro w hw
        simp at hw
        subst hw
        intro nd hnd
        exact Option.noConfusion hnd
    | constFloat f =>
      simp only [whistlerNodesFromValueSource] at h
      split at h
      · split at h
        · exact absurd h (by simp)
        · injection h with h
          subst h
          intro w hw
          simp at hw
          subst hw
          intro nd hnd
          exact Option.noConfusion hnd
      · injection h with h
        subst h
        intro w hw
        simp at hw
        subst hw
        intro nd hnd
        exact Option.noConfusion hnd
    | constString s =>
      simp only [whistlerNodesFromValueSource] at h
      split at h
      · split at h
        · exact absurd h (by simp)
        · injection h with h
          subst h
          intro w hw
          simp at hw
          subst hw
          intro nd hnd
          exact Option.noConfusion hnd
      · injection h with h
        subst h
        intro w hw
        simp at hw
        subst hw
        intro nd hnd
        exact Option.noConfusion hnd
    | fromInput arg field =>
      simp only [whistlerNodesFromValueSource] at h
      split at h
      · split at h
        · exact absurd h (by simp)
        · injection h with h
          subst h
          intro w hw
          simp at hw
          subst hw
          intro nd hnd
          exact Option.noConfusion hnd
      · injection h with h
        subst h
        intro w hw
        simp at hw
        subst hw
        intro nd hnd
        exact Option.noConfusion hnd
    | fromDestination dest =>
      simp only [whistlerNodesFromValueSource] at h
      split at h
      · split at h
        · exact absurd h (by simp)
        · injection h with h
          subst h
          intro w hw
          simp at hw
          subst hw
          intro nd hnd
          exact Option.noConfusion hnd
      · cases hfng : findNodesInGraph fuel (splitDots dest) none env.targets with
        | error e =>
          rw [hfng, except_bind_error] at h
          exact absurd h (by simp)
        | ok found =>
          rw [hfng, except_bind_ok] at h
          injection h with h
          subst h
          intro w hw
          obtain ⟨fn, hfn, hfw⟩ := List.mem_map.1 hw
          subst hfw
          intro nd hnd
          injection hnd with hnd
          subst hnd
          exact findNodesInGraph_has (fun n2 hn2 => Option.noConfusion hn2) henv.2.1 hfng
            fn hfn
    | fromLocalVar v =>
      simp only [whistlerNodesFromValueSource] at h
      split at h
      · split at h
        · exact absurd h (by simp)
        · injection h with h
          subst h
          intro w hw
          simp at hw
          subst hw
          intro nd hnd
          exact Option.noConfusion hnd
      · cases hfng : findNodesInGraph fuel (splitDots v) none env.vars with
        | error e =>
          rw [hfng, except_bind_error] at h
          exact absurd h (by simp)
        | ok found =>
          rw [hfng, except_bind_ok] at h
          injection h with h
          subst h
          intro w hw
          obtain ⟨fn, hfn, hfw⟩ := List.mem_map.1 hw
          subst hfw
          intro nd hnd
          injection hnd with hnd
          subst hnd
          exact findNodesInGraph_has (fun n2 hn2 => Option.noConfusion hn2) henv.2.2 hfng
            fn hfn
    | projectedValue inner? =>
      cases inner? with
      | none =>
        simp only [whistlerNodesFromValueSource] at h
        split at h
        · split at h
          · exact absurd h (by simp)
          · injection h with h
            subst h
            intro w hw
            simp at hw
            subst hw
            intro nd hnd
            exact Option.noConfusion hnd
        · exact absurd h (by simp)
      | some inner =>
        simp only [whistlerNodesFromValueSource] at h
        split at h
        · split at h
          · exact absurd h (by simp)
          · injection h with h
            subst h
            intro w hw
            simp at hw
            subst hw
            intro nd hnd
            exact Option.noConfusion hnd
        · split at h
          · refine ih inner env fm pt res ?_ henv h
            have h1 : sizeOf inner < sizeOf (ValueSource.mk
                (SourceOneof.projectedValue (OptVS.some inner)) proj extra) := by
              simp only [ValueSource.mk.sizeOf_spec, SourceOneof.projectedValue.sizeOf_spec,
                OptVS.some.sizeOf_spec]
              omega
            omega
          · split at h
            · exact absurd h (by simp)
            · injection h with h
              subst h
              intro w hw
              simp at hw
              subst hw
              intro nd hnd
              exact Option.noConfusion hnd

/-- `whistlerNodesFromValueSource` only attaches stored nodes. -/
theorem whistlerNodes_WOK {g : GraphState} {fuel : Nat} {source : ValueSource} {env : Env}
    {fm : Bool} {pt : ProjTable} {res : List WhistlerNode}
    (henv : EnvOK g env)
    (h : whistlerNodesFromValueSource fuel source env fm pt = .ok res) :
    ∀ w ∈ res, WOK g w :=
  wnvs_WOK fuel (sizeOf source + 1) source env fm pt res (Nat.lt_succ_self _) henv h

theorem processArgEntries_WOK {g : GraphState} (fuel : Nat) (field : String) :
    ∀ (al : List ArgLineage) (res : List WhistlerNode), (∀ a ∈ al, ArgOK g a) →
      processArgEntries fuel field al = .ok res → ∀ w ∈ res, WOK g w := by
  intro al
  induction al with
  | nil =>
    intro res _ h
    have h2 : Except.ok (ε := Err) ([] : List WhistlerNode) = .ok res := h
    injection h2 with h2
    subst h2
    intro w hw
    cases hw
  | cons a rest ih =>
    intro res hargs h
    simp only [processArgEntries] at h
    split at h
    · cases hr : processArgEntries fuel field rest with
      | error e =>
        rw [hr, except_bind_error] at h
        exact absurd h (by simp)
      | ok more =>
        rw [hr, except_bind_ok] at h
        injection h with h
        subst h
        intro w hw
        rcases List.mem_cons.1 hw with rfl | hw
        · intro nd hnd
          injection hnd with hnd
          subst hnd
          exact (hargs a (List.mem_cons_self _ _)).1
        · exact ih more (fun a2 ha2 => hargs a2 (List.mem_cons_of_mem _ ha2)) hr w hw
    · cases hct : a.childTargets with
      | none =>
        simp only [hct] at h
        exact absurd h (by simp)
      | some ct =>
        simp only [hct] at h
        cases hfng : findNodesInGraph fuel (splitDots (trimLeftDots field))
            (some a.node) ct with
        | error e =>
          rw [hfng, except_bind_error] at h
          exact absurd h (by simp)
        | ok found =>
          rw [hfng, except_bind_ok] at h
          cases hr : processArgEntries fuel field rest with
          | error e =>
            rw [hr, except_bind_error] at h
            exact absurd h (by simp)
          | ok more =>
            rw [hr, except_bind_ok] at h
            injection h with h
            subst h
            intro w hw
            rcases List.mem_append.1 hw with hw | hw
            · obtain ⟨fn, hfn, rfl⟩ := List.mem_map.1 hw
              intro nd hnd
              injection hnd with hnd
              subst hnd
              have hax := hargs a (List.mem_cons_self _ _)
              refine findNodesInGraph_has ?_ (hax.2 ct hct) hfng fn hfn
              intro n2 hn2
              injection hn2 with hn2
              subst hn2
              exact hax.1
            · exact ih more (fun a2 ha2 => hargs a2 (List.mem_cons_of_mem _ ha2)) hr w hw

theorem argumentAncestor_WOK {g : GraphState} {fuel : Nat} {arg : Int} {field : String}
    {e : Env} {res : List WhistlerNode} (henv : EnvOK g e)
    (h : argumentAncestor fuel arg field e = .ok res) : ∀ w ∈ res, WOK g w := by
  simp only [argumentAncestor] at h
  split at h
  · exact absurd h (by simp)
  · cases hget : e.args.get? (arg - 1).toNat with
    | none =>
      simp only [hget] at h
      exact absurd h (by simp)
    | some argNodes =>
      simp only [hget] at h
      exact processArgEntries_WOK fuel field argNodes res
        (fun a ha => henv.1 argNodes (List.get?_mem hget) a ha) h

theorem fromInputAncestor_WOK {g : GraphState} {fuel : Nat} {arg : Int} {field : String}
    {e : Env} {res : List WhistlerNode} (henv : EnvOK g e)
    (h : fromInputAncestor fuel arg field e = .ok res) : ∀ w ∈ res, WOK g w := by
  simp only [fromInputAncestor] at h
  split at h
  · injection h with h
    subst h
    intro w hw
    cases hw
  · exact argumentAncestor_WOK henv h

theorem valueSourceAncestors_WOK {g : GraphState} {fuel : Nat} {msg : ValueSource}
    {e : Env} {res : List WhistlerNode} (henv : EnvOK g e)
    (h : valueSourceAncestors fuel msg e = .ok res) : ∀ w ∈ res, WOK g w := by
  unfold valueSourceAncestors at h
  cases hsrc : msg.source <;> simp only [hsrc] at h
  case fromInput arg field => exact fromInputAncestor_WOK henv h
  case constBool b =>
    injection h with h
    subst h
    intro w hw
    cases hw
  case constInt i =>
    injection h with h
    subst h
    intro w hw
    cases hw
  case constFloat f =>
    injection h with h
    subst h
    intro w hw
    cases hw
  case constString s =>
    injection h with h
    subst h
    intro w hw
    cases hw
  all_goals exact absurd h (by simp)

theorem projectorArgsLoop_WOK {g : GraphState} (fuel : Nat) (env : Env) (pt : ProjTable)
    (henv : EnvOK g env) :
    ∀ (args : List ValueSource) (res : List (List WhistlerNode)),
      projectorArgsLoop fuel args env pt = .ok res → ∀ ws ∈ res, ∀ w ∈ ws, WOK g w := by
  intro args
  induction args with
  | nil =>
    intro res h
    have h2 : Except.ok (ε := Err) ([] : List (List WhistlerNode)) = .ok res := h
    injection h2 with h2
    subst h2
    intro ws hws
    cases hws
  | cons a rest ih =>
    intro res h
    simp only [projectorArgsLoop] at h
    cases hw : whistlerNodesFromValueSource fuel a env false pt with
    | error e =>
      rw [hw, except_bind_error] at h
      exact absurd h (by simp)
    | ok ws0 =>
      rw [hw, except_bind_ok] at h
      cases hr : projectorArgsLoop fuel rest env pt with
      | error e =>
        rw [hr, except_bind_error] at h
        exact absurd h (by simp)
      | ok more =>
        rw [hr, except_bind_ok] at h
        injection h with h
        subst h
        intro ws hws
        rcases List.mem_cons.1 hws with rfl | hws
        · exact whistlerNodes_WOK henv hw
        · exact ih more hr ws hws

theorem projectorArgs_do_WOK {g : GraphState} {fuel : Nat} {pvs : ValueSource} {env : Env}
    {pt : ProjTable} {res : List (List WhistlerNode)} (henv : EnvOK g env)
    (h : (do
      let args0 ← whistlerNodesFromValueSource fuel pvs env false pt
      let restArgs ← projectorArgsLoop fuel pvs.additionalArg.toList env pt
      Except.ok (args0 :: restArgs)) = .ok res) : ∀ ws ∈ res, ∀ w ∈ ws, WOK g w := by
  cases hw : whistlerNodesFromValueSource fuel pvs env false pt with
  | error e =>
    rw [hw, except_bind_error] at h
    exact absurd h (by simp)
  | ok args0 =>
    rw [hw, except_bind_ok] at h
    cases hr : projectorArgsLoop fuel pvs.additionalArg.toList env pt with
    | error e =>
      rw [hr, except_bind_error] at h
      exact absurd h (by simp)
    | ok restArgs =>
      rw [hr, except_bind_ok] at h
      injection h with h
      subst h
      intro ws hws
      rcases List.mem_cons.1 hws with rfl | hws
      · exact whistlerNodes_WOK henv hw
      · exact projectorArgsLoop_WOK fuel env pt henv _ restArgs hr ws hws

theorem projectorArgs_WOK {g : GraphState} {fuel : Nat} {pv : Option ValueSource}
    {env : Env} {pt : ProjTable} {res : List (List WhistlerNode)} (henv : EnvOK g env)
    (h : projectorArgs fuel pv env pt = .ok res) : ∀ ws ∈ res, ∀ w ∈ ws, WOK g w := by
  cases pv with
  | none =>
    have h2 : Except.ok (ε := Err) ([] : List (List WhistlerNode)) = .ok res := h
    injection h2 with h2
    subst h2
    intro ws hws
    cases hws
  | some pvs =>
    unfold projectorArgs at h
    cases hsrc : pvs.source <;> simp only [hsrc] at h
    case unset =>
      injection h with h
      subst h
      intro ws hws
      cases hws
    all_goals exact projectorArgs_do_WOK henv h

theorem fieldMappingConditions_WOK {g : GraphState} {fuel : Nat} {msg : FieldMapping}
    {env : Env} {pt : ProjTable} {res : List WhistlerNode} (henv : EnvOK g env)
    (h : fieldMappingConditions fuel msg env pt = .ok res) : ∀ w ∈ res, WOK g w := by
  unfold fieldMappingConditions at h
  cases hc : msg.condition with
  | none =>
    simp only [hc] at h
    injection h with h
    subst h
    intro w hw
    cases hw
  | some rc =>
    simp only [hc] at h
    split at h
    · cases hpa : projectorArgs fuel (some rc) env pt with
      | error e =>
        rw [hpa, except_bind_error] at h
        exact absurd h (by simp)
      | ok conditions =>
        rw [hpa, except_bind_ok] at h
        injection h with h
        subst h
        intro w hw
        rw [show flatten conditions = conditions.flatten from by
          rw [flatten, flatten_foldl]; rfl] at hw
        obtain ⟨ls, hls, hw⟩ := List.mem_flatten.1 hw
        exact projectorArgs_WOK henv hpa ls hls w hw
    · exact whistlerNodes_WOK henv h

theorem getAllAncestors_AncOK {g : GraphState} {fuel : Nat} {w : WhistlerNode}
    {env : Env} {pt : ProjTable} {anc : AncestorCollection} (henv : EnvOK g env)
    (h : getAllAncestors fuel w env pt = .ok anc) : AncOK g anc := by
  unfold getAllAncestors at h
  cases hmsg : w.msg with
  | none =>
    simp only [hmsg] at h
    exact absurd h (by simp)
  | some m =>
    cases m with
    | fieldMapping fm =>
      simp only [hmsg] at h
      unfold fieldMappingAncestors at h
      cases hvs : fm.valueSource with
      | none =>
        simp only [hvs] at h
        exact absurd h (by simp)
      | some source =>
        simp only [hvs] at h
        cases hw : whistlerNodesFromValueSource fuel source env true pt with
        | error e =>
          rw [hw, except_bind_error] at h
          exact absurd h (by simp)
        | ok mainAncestors =>
          rw [hw, except_bind_ok] at h
          cases hfc : fieldMappingConditions fuel fm env pt with
          | error e =>
            rw [hfc, except_bind_error] at h
            exact absurd h (by simp)
          | ok conditions =>
            rw [hfc, except_bind_ok] at h
            injection h with h
            subst h
            refine ⟨whistlerNodes_WOK henv hw, ?_, fieldMappingConditions_WOK henv hfc⟩
            intro ws hws
            cases hws
    | valueSource v =>
      simp only [hmsg] at h
      cases hv : valueSourceAncestors fuel v env with
      | error e =>
        rw [hv, except_bind_error] at h
        exact absurd h (by simp)
      | ok ancestors =>
        rw [hv, except_bind_ok] at h
        injection h with h
        subst h
        refine ⟨valueSourceAncestors_WOK henv hv, ?_, ?_⟩
        · intro ws hws
          cases hws
        · intro w2 hw2
          cases hw2
    | projectorDef p =>
      simp only [hmsg] at h
      unfold projectorAncestors at h
      cases hpa : projectorArgs fuel w.projSource env pt with
      | error e =>
        rw [hpa, except_bind_error] at h
        exact absurd h (by simp)
      | ok args =>
        rw [hpa, except_bind_ok] at h
        injection h with h
        subst h
        refine ⟨?_, projectorArgs_WOK henv hpa, ?_⟩
        · intro w2 hw2
          unfold projectorMappings at hw2
          obtain ⟨m2, _, rfl⟩ := List.mem_map.1 hw2
          intro nd hnd
          exact Option.noConfusion hnd
        · intro w2 hw2
          cases hw2

/-! ### The target-lineage construction returns cache-closed maps -/

theorem wtlPacks_MapOK {g : GraphState} (hcache : CacheOK g) : ∀ fuel : Nat,
    (∀ node acc res, MapOK g acc → (wtlPacks fuel).wtl node acc g = .ok res →
      MapOK g res) ∧
    (∀ ids acc res, MapOK g acc → (wtlPacks fuel).wtlIds ids acc g = .ok res →
      MapOK g res) := by
  intro fuel
  induction fuel with
  | zero =>
    constructor
    · intro node acc res _ h
      exact absurd h (by simp [wtlPacks])
    · intro ids acc res _ h
      exact absurd h (by simp [wtlPacks])
  | succ fuel ih =>
    obtain ⟨ihw, ihi⟩ := ih
    constructor
    · intro node acc res hacc h
      simp only [wtlPacks, writeTargetLineageF] at h
      cases hlk : alookup g.edges node.id with
      | none =>
        simp only [hlk] at h
        exact absurd h (by simp)
      | some idList =>
        simp only [hlk] at h
        exact ihi idList acc res hacc h
    · intro ids acc res hacc h
      cases ids with
      | nil =>
        simp only [wtlPacks, wtlLoopF] at h
        injection h with h
        subst h
        exact hacc
      | cons aid rest =>
        simp only [wtlPacks, wtlLoopF] at h
        cases hnd : alookup g.nodes aid with
        | none =>
          simp only [hnd] at h
          exact absurd h (by simp)
        | some ancestor =>
          simp only [hnd] at h
          split at h
          · rename_i tnd
            cases htl : alookup g.targetLineages tnd.id with
            | none =>
              simp only [htl] at h
              exact absurd h (by simp)
            | some childLineage =>
              simp only [htl] at h
              exact ihi rest _ res (mapOK_appendOrAdd hacc (hcache _ _ htl)) h
          · cases hw : (wtlPacks fuel).wtl ancestor acc g with
            | error e =>
              simp only [hw] at h
              exact absurd h (by simp)
            | ok acc1 =>
              simp only [hw] at h
              exact ihi rest acc1 res (ihw ancestor acc acc1 hacc hw) h

/-- `targetLineageFromGraph` produces a `LinOK` lineage for a stored target. -/
theorem targetLineageFromGraph_LinOK {g : GraphState} {fuel : Nat} {tnd : TargetND}
    {lineage : TargetLineage} (hcache : CacheOK g)
    (hnd : alookup g.nodes tnd.id = some (.target tnd))
    (h : targetLineageFromGraph fuel tnd g = .ok lineage) : LinOK g lineage := by
  unfold targetLineageFromGraph at h
  cases hw : writeTargetLineage fuel (.target tnd) [] g with
  | error e =>
    simp only [hw] at h
    exact absurd h (by simp)
  | ok ct =>
    simp only [hw] at h
    injection h with h
    subst h
    refine .mk tnd ct hnd ?_
    exact (wtlPacks_MapOK hcache fuel).1 _ [] ct (fun p hp => absurd hp (List.not_mem_nil p)) hw

theorem projArgCTLoop_MapOK {g : GraphState} (hcache : CacheOK g) :
    ∀ (ids : List Int) (acc res : List (String × List TargetLineage)), MapOK g acc →
      projArgCTLoop g ids acc = .ok res → MapOK g res := by
  intro ids
  induction ids with
  | nil =>
    intro acc res hacc h
    have h2 : Except.ok (ε := Err) acc = .ok res := h
    injection h2 with h2
    subst h2
    exact hacc
  | cons tid rest ih =>
    intro acc res hacc h
    simp only [projArgCTLoop] at h
    cases htl : alookup g.targetLineages tid with
    | none =>
      simp only [htl] at h
      exact absurd h (by simp)
    | some lineage =>
      simp only [htl] at h
      exact ih _ res (mapOK_appendOrAdd hacc (hcache _ _ htl)) h

/-- The child-targets map computed for an argument node is cache-closed. -/
theorem argChildTargets_MapOK {g : GraphState} {node : Node}
    {ct : Option (List (String × List TargetLineage))} (hcache : CacheOK g)
    (h : argChildTargets node g = .ok ct) :
    ∀ m, ct = some m → MapOK g m := by
  intro m hm
  subst hm
  cases node with
  | target tnd =>
    simp only [argChildTargets] at h
    cases htl0 : alookup g.targetLineages tnd.id with
    | none =>
      simp only [htl0] at h
      exact absurd h (by simp)
    | some l =>
      simp only [htl0] at h
      injection h with h
      injection h with h
      subst h
      have hl := hcache _ _ htl0
      cases hl with
      | mk nd0 ct0 _ hct0 => exact hct0
  | projector pnd =>
    simp only [argChildTargets] at h
    cases he : alookup g.edges pnd.id with
    | none =>
      simp only [he] at h
      exact absurd h (by simp)
    | some targetIDs =>
      simp only [he] at h
      cases hloop : projArgCTLoop g targetIDs [] with
      | error e =>
        simp only [hloop] at h
        exact absurd h (by simp)
      | ok ct0 =>
        simp only [hloop] at h
        injection h with h
        injection h with h
        subst h
        exact projArgCTLoop_MapOK hcache targetIDs [] ct0
          (fun p hp => absurd hp (List.not_mem_nil p)) hloop
  | constBool cnd =>
    have h2 : Except.ok (ε := Err)
        (none : Option (List (String × List TargetLineage))) = .ok (some m) := h
    injection h2 with h2
    exact Option.noConfusion h2
  | constInt cnd =>
    have h2 : Except.ok (ε := Err)
        (none : Option (List (String × List TargetLineage))) = .ok (some m) := h
    injection h2 with h2
    exact Option.noConfusion h2
  | constFloat cnd =>
    have h2 : Except.ok (ε := Err)
        (none : Option (List (String × List TargetLineage))) = .ok (some m) := h
    injection h2 with h2
    exact Option.noConfusion h2
  | constString cnd =>
    have h2 : Except.ok (ε := Err)
        (none : Option (List (String × List TargetLineage))) = .ok (some m) := h
    injection h2 with h2
    exact Option.noConfusion h2
  | argument cnd =>
    have h2 : Except.ok (ε := Err)
        (none : Option (List (String × List TargetLineage))) = .ok (some m) := h
    injection h2 with h2
    exact Option.noConfusion h2
  | root cnd =>
    have h2 : Except.ok (ε := Err)
        (none : Option (List (String × List TargetLineage))) = .ok (some m) := h
    injection h2 with h2
    exact Option.noConfusion h2

/-! ### The node constructors' counter discipline -/

theorem newNode_spec {msg : Option Msg} {env : Env} {bi : List String} {ctr : Int}
    {node : Node} {ctr' : Int} (h : newNode msg env bi ctr = .ok (node, ctr')) :
    node.id = ctr ∧ ctr' = ctr + 1 := by
  unfold newNode at h
  cases msg with
  | none => exact absurd h (by simp)
  | some m =>
    cases m with
    | fieldMapping fm =>
      unfold targetNode at h
      cases htg : fm.target with
      | none =>
        simp only [htg, except_bind_error] at h
        exact absurd h (by simp)
      | some t =>
        cases t <;> simp only [htg, except_bind_ok] at h <;>
          (injection h with h; injection h with h1 h2; subst h1; subst h2;
            exact ⟨rfl, rfl⟩)
    | valueSource v =>
      unfold valueSourceNode at h
      cases hs : v.source with
      | constBool b =>
        simp only [hs] at h
        injection h with h
        injection h with h1 h2
        subst h1
        subst h2
        exact ⟨rfl, rfl⟩
      | constInt i =>
        simp only [hs] at h
        injection h with h
        injection h with h1 h2
        subst h1
        subst h2
        exact ⟨rfl, rfl⟩
      | constFloat f =>
        simp only [hs] at h
        injection h with h
        injection h with h1 h2
        subst h1
        subst h2
        exact ⟨rfl, rfl⟩
      | constString s =>
        simp only [hs] at h
        injection h with h
        injection h with h1 h2
        subst h1
        subst h2
        exact ⟨rfl, rfl⟩
      | fromInput arg field =>
        simp only [hs] at h
        injection h with h
        unfold fromInputNode at h
        split at h
        · injection h with h1 h2
          subst h1
          subst h2
          exact ⟨rfl, rfl⟩
        · injection h with h1 h2
          subst h1
          subst h2
          exact ⟨rfl, rfl⟩
      | unset =>
        simp only [hs] at h
        exact absurd h (by simp)
      | fromDestination dest =>
        simp only [hs] at h
        exact absurd h (by simp)
      | fromLocalVar v2 =>
        simp only [hs] at h
        exact absurd h (by simp)
      | projectedValue inner =>
        simp only [hs] at h
        exact absurd h (by simp)
    | projectorDef p =>
      simp only [projectorNode] at h
      injection h with h
      injection h with h1 h2
      subst h1
      subst h2
      exact ⟨rfl, rfl⟩

theorem getNode_spec {w : WhistlerNode} {env : Env} {bi : List String} {ctr : Int}
    {node : Node} {isNew : Bool} {ctr' : Int}
    (h : getNode w env bi ctr = .ok (node, isNew, ctr')) :
    (isNew = true → node.id = ctr ∧ ctr' = ctr + 1) ∧
    (isNew = false → ctr' = ctr ∧ w.nodeInGraph = some node) := by
  unfold getNode at h
  cases hng : w.nodeInGraph with
  | some n0 =>
    simp only [hng] at h
    injection h with h
    injection h with h1 h2
    injection h2 with h2 h3
    subst h1
    subst h3
    constructor
    · intro hnew
      rw [← h2] at hnew
      exact Bool.noConfusion hnew
    · intro _
      exact ⟨rfl, rfl⟩
  | none =>
    simp only [hng] at h
    cases hnn : newNode w.msg env bi ctr with
    | error e =>
      rw [hnn, except_bind_error] at h
      exact absurd h (by simp)
    | ok p =>
      obtain ⟨n0, c0⟩ := p
      rw [hnn, except_bind_ok] at h
      injection h with h
      injection h with h1 h2
      injection h2 with h2 h3
      subst h1
      subst h3
      obtain ⟨hid, hc⟩ := newNode_spec hnn
      constructor
      · intro _
        exact ⟨hid, hc⟩
      · intro hold
        rw [← h2] at hold
        exact Bool.noConfusion hold

/-! ### The builder master induction -/

theorem withVars_args (e : Env) (m : List (String × List TargetLineage)) :
    (e.withVars m).args = e.args := by
  cases e
  rfl

theorem withVars_targets (e : Env) (m : List (String × List TargetLineage)) :
    (e.withVars m).targets = e.targets := by
  cases e
  rfl

theorem withVars_vars (e : Env) (m : List (String × List TargetLineage)) :
    (e.withVars m).vars = m := by
  cases e
  rfl

theorem withTargets_args (e : Env) (m : List (String × List TargetLineage)) :
    (e.withTargets m).args = e.args := by
  cases e
  rfl

theorem withTargets_targets (e : Env) (m : List (String × List TargetLineage)) :
    (e.withTargets m).targets = m := by
  cases e
  rfl

theorem withTargets_vars (e : Env) (m : List (String × List TargetLineage)) :
    (e.withTargets m).vars = e.vars := by
  cases e
  rfl

/-- The induction hypothesis for the seven mutually recursive builder
functions: each preserves the builder invariant, grows the node table
monotonically, consumes exactly the counter interval `[s.ctr, s'.ctr)` as new
node keys, and returns only graph-closed data — in particular every returned
(threaded) environment is closed over the final graph. -/
def PackOK (p : BuildPack) : Prop :=
  (∀ w env desc isArg isCond pt bi s n env' s',
    Inv s → EnvOK s.g env → WOK s.g w → (∀ dn, desc = some dn → NodesHas s.g dn) →
    p.awl w env desc isArg isCond pt bi s = .ok (n, env', s') →
    Inv s' ∧ NodesMono s.g s'.g ∧ KeysAdded s s' ∧ NodesHas s'.g n ∧
      EnvOK s'.g env') ∧
  (∀ anc env desc pt bi s env' s',
    Inv s → EnvOK s.g env → AncOK s.g anc → (∀ dn, desc = some dn → NodesHas s.g dn) →
    p.aal anc env desc pt bi s = .ok (env', s') →
    Inv s' ∧ NodesMono s.g s'.g ∧ KeysAdded s s' ∧ EnvOK s'.g env') ∧
  (∀ als env pn pt bi s denv' e' s',
    Inv s → EnvOK s.g env → (∀ ws ∈ als, ∀ w ∈ ws, WOK s.g w) →
    NodesHas s.g (.projector pn) →
    p.aargs als env pn pt bi s = .ok (denv', e', s') →
    Inv s' ∧ NodesMono s.g s'.g ∧ KeysAdded s s' ∧ EnvOK s'.g denv' ∧
      EnvOK s'.g e') ∧
  (∀ als env pn pt bi s lins denv' s',
    Inv s → EnvOK s.g env → (∀ ws ∈ als, ∀ w ∈ ws, WOK s.g w) →
    NodesHas s.g (.projector pn) →
    p.aargsLists als env pn pt bi s = .ok (lins, denv', s') →
    Inv s' ∧ NodesMono s.g s'.g ∧ KeysAdded s s' ∧ EnvOK s'.g denv' ∧
      ∀ al ∈ lins, ∀ a ∈ al, ArgOK s'.g a) ∧
  (∀ ws env pn pt bi s lins denv' s',
    Inv s → EnvOK s.g env → (∀ w ∈ ws, WOK s.g w) → NodesHas s.g (.projector pn) →
    p.aargsInner ws env pn pt bi s = .ok (lins, denv', s') →
    Inv s' ∧ NodesMono s.g s'.g ∧ KeysAdded s s' ∧ EnvOK s'.g denv' ∧
      ∀ a ∈ lins, ArgOK s'.g a) ∧
  (∀ cs env desc pt bi s env' s',
    Inv s → EnvOK s.g env → (∀ w ∈ cs, WOK s.g w) →
    (∀ dn, desc = some dn → NodesHas s.g dn) →
    p.acond cs env desc pt bi s = .ok (env', s') →
    Inv s' ∧ NodesMono s.g s'.g ∧ KeysAdded s s' ∧ EnvOK s'.g env') ∧
  (∀ ms env desc pt bi s e' s',
    Inv s → EnvOK s.g env → (∀ w ∈ ms, WOK s.g w) →
    (∀ dn, desc = some dn → NodesHas s.g dn) →
    p.amain ms env desc pt bi s = .ok (e', s') →
    Inv s' ∧ NodesMono s.g s'.g ∧ KeysAdded s s' ∧ EnvOK s'.g e')

/-- Caching a graph-closed lineage keeps the graph well-formed, and the new
cache still references only lineages that are closed over the old node
table. -/
theorem amain_cache_step {g : GraphState} (tid : Int) {lineage : TargetLineage}
    (hwf : WFGraph g) (hcache : CacheOK g) (hlin : LinOK g lineage) :
    WFGraph { g with targetLineages := aset g.targetLineages tid lineage } ∧
    ∀ k tl, alookup (aset g.targetLineages tid lineage) k = some tl → LinOK g tl := by
  refine ⟨⟨hwf.edgesClosed, hwf.argClosed, hwf.condClosed, hwf.rootClosed,
    hwf.nodesEdges, hwf.argKeys, hwf.condKeys, hwf.idCoherent⟩, ?_⟩
  intro k tl hk
  rw [alookup_aset_cases] at hk
  by_cases hkk : tid = k
  · rw [if_pos hkk] at hk
    injection hk with hk
    subst hk
    exact hlin
  · rw [if_neg hkk] at hk
    exact hcache k tl hk

/-- Recording a stored target in `rootAndOutTargets` keeps the graph
well-formed. -/
theorem rt_step_wf {g : GraphState} {tid : Int} {name : String} {nd : Node}
    (hwf : WFGraph g) (hnd : alookup g.nodes tid = some nd) :
    WFGraph { g with rootAndOutTargets := appendOrAddID g.rootAndOutTargets tid name } := by
  refine ⟨hwf.edgesClosed, hwf.argClosed, hwf.condClosed, ?_, hwf.nodesEdges,
    hwf.argKeys, hwf.condKeys, hwf.idCoherent⟩
  intro k l hkl v hv
  rw [show ({ g with rootAndOutTargets := appendOrAddID g.rootAndOutTargets tid name }
      : GraphState).rootAndOutTargets = appendOrAddID g.rootAndOutTargets tid name
      from rfl] at hkl
  rcases appendOrAddID_sub g.rootAndOutTargets tid name k l hkl v hv with rfl | ⟨l0, hl0, hvl0⟩
  · exact ⟨nd, hnd⟩
  · exact hwf.rootClosed k l0 hl0 v hvl0

/-- The conditions-then-main tail of `addAncestorLineages` for a
non-projector descendant: the main ancestors run in the environment the
conditions left behind, and the final environment is returned. -/
theorem aal_tail_ok {fuel : Nat} (ih : PackOK (buildPacks fuel))
    {anc : AncestorCollection} {denv : Env} {desc : Option Node} {pt : ProjTable}
    {bi : List String} {s : BState} {env' : Env} {s' : BState}
    (hinv : Inv s) (henv : EnvOK s.g denv) (hanc : AncOK s.g anc)
    (hdesc : ∀ dn, desc = some dn → NodesHas s.g dn)
    (h : (match (buildPacks fuel).acond anc.conditions denv desc pt bi s with
      | Except.error e => (Except.error e : Except Err (Env × BState))
      | Except.ok (denv1, s1) =>
        match (buildPacks fuel).amain anc.mainAncestors denv1 desc pt bi s1 with
        | Except.error e => Except.error e
        | Except.ok (denv2, s2) => Except.ok (denv2, s2)) = Except.ok (env', s')) :
    Inv s' ∧ NodesMono s.g s'.g ∧ KeysAdded s s' ∧ EnvOK s'.g env' := by
  cases hcond : (buildPacks fuel).acond anc.conditions denv desc pt bi s with
  | error e =>
    simp only [hcond] at h
    exact absurd h (by simp)
  | ok p1 =>
    obtain ⟨denv1, s1⟩ := p1
    simp only [hcond] at h
    obtain ⟨hinv1, hmono1, hkeys1, hdenv1⟩ := ih.2.2.2.2.2.1 anc.conditions denv desc
      pt bi s denv1 s1 hinv henv (fun w hw => hanc.2.2 w hw) hdesc hcond
    cases hmain : (buildPacks fuel).amain anc.mainAncestors denv1 desc pt bi s1 with
    | error e =>
      simp only [hmain] at h
      exact absurd h (by simp)
    | ok p2 =>
      obtain ⟨denv2, s2⟩ := p2
      simp only [hmain] at h
      injection h with h
      injection h with h1 h2
      subst h1
      subst h2
      obtain ⟨hinv2, hmono2, hkeys2, henv2⟩ := ih.2.2.2.2.2.2 anc.mainAncestors denv1
        desc pt bi s1 denv2 s2 hinv1 hdenv1
        (fun w hw => wOK_mono hmono1 (hanc.1 w hw))
        (fun dn hdn => hmono1 _ _ (hdesc dn hdn)) hmain
      exact ⟨hinv2, nodesMono_trans hmono1 hmono2, keysAdded_trans hkeys1 hkeys2, henv2⟩

/-- The plain recursion step of `addMainAncestorLineages` (non-target head):
the loop continues with the environment the head's lineage left behind. -/
theorem amain_plain_rest {fuel : Nat} (ih : PackOK (buildPacks fuel))
    {rest : List WhistlerNode} {env1 : Env} {desc : Option Node} {pt : ProjTable}
    {bi : List String} {s s1 : BState} {e' : Env} {s' : BState}
    (hmono1 : NodesMono s.g s1.g) (hkeys1 : KeysAdded s s1) (hinv1 : Inv s1)
    (henv1 : EnvOK s1.g env1) (hws : ∀ w ∈ rest, WOK s.g w)
    (hdesc : ∀ dn, desc = some dn → NodesHas s.g dn)
    (h : (buildPacks fuel).amain rest env1 desc pt bi s1 = .ok (e', s')) :
    Inv s' ∧ NodesMono s.g s'.g ∧ KeysAdded s s' ∧ EnvOK s'.g e' := by
  obtain ⟨hinv3, hmono3, hkeys3, henv3⟩ := ih.2.2.2.2.2.2 rest env1 desc pt bi s1 e' s'
    hinv1 henv1 (fun w hw => wOK_mono hmono1 (hws w hw))
    (fun dn hdn => hmono1 _ _ (hdesc dn hdn)) h
  exact ⟨hinv3, nodesMono_trans hmono1 hmono3, keysAdded_trans hkeys1 hkeys3, henv3⟩

/-- The recursion step of `addMainAncestorLineages` after a target head:
the intermediate graph `g2` differs from `s1.g` only in the lineage cache and
the root/out-target table, which the field equations witness. -/
theorem amain_step_rest {fuel : Nat} (ih : PackOK (buildPacks fuel))
    {rest : List WhistlerNode} {newEnv1 : Env} {desc : Option Node} {pt : ProjTable}
    {bi : List String} {s s1 : BState} {g2 : GraphState} {e' : Env} {s' : BState}
    (hmono01 : NodesMono s.g s1.g) (hkeys01 : KeysAdded s s1)
    (hn2 : g2.nodes = s1.g.nodes) (he2 : g2.edges = s1.g.edges)
    (hwf2 : WFGraph g2) (hacS : AcyclicArgless s1.g)
    (hcacheS : ∀ k tl, alookup g2.targetLineages k = some tl → LinOK s1.g tl)
    (hidsS : IdsBelow s1)
    (henvS : EnvOK s1.g newEnv1)
    (hws : ∀ w ∈ rest, WOK s.g w)
    (hdesc : ∀ dn, desc = some dn → NodesHas s.g dn)
    (h : (buildPacks fuel).amain rest newEnv1 desc pt bi ⟨g2, s1.ctr⟩ = .ok (e', s')) :
    Inv s' ∧ NodesMono s.g s'.g ∧ KeysAdded s s' ∧ EnvOK s'.g e' := by
  have hmono12 : NodesMono s1.g g2 := by
    intro k nd hk
    rw [hn2]
    exact hk
  have hstepmono : ∀ a b, EdgeStep g2 a b → EdgeStep s1.g a b := by
    rintro a b ⟨⟨l, hl, hbl⟩, ⟨na, hna, hnaa⟩, ⟨nb, hnb, hnab⟩⟩
    rw [he2] at hl
    rw [hn2] at hna hnb
    exact ⟨⟨l, hl, hbl⟩, ⟨na, hna, hnaa⟩, ⟨nb, hnb, hnab⟩⟩
  have hac2 : AcyclicArgless g2 :=
    fun x hcyc => hacS x (Relation.TransGen.mono hstepmono hcyc)
  have hcache2 : CacheOK g2 :=
    fun k tl hk => linOK_mono hmono12 (hcacheS k tl hk)
  have hids2 : IdsBelow ⟨g2, s1.ctr⟩ := by
    intro k nd hk
    show k < s1.ctr
    rw [show alookup g2.nodes k = some nd ↔ alookup s1.g.nodes k = some nd from by
      rw [hn2]] at hk
    exact hidsS k nd hk
  obtain ⟨hinv3, hmono3, hkeys3, henv3⟩ := ih.2.2.2.2.2.2 rest newEnv1 desc pt bi
    ⟨g2, s1.ctr⟩ e' s' ⟨hwf2, hac2, hcache2, hids2⟩ (envOK_mono hmono12 henvS)
    (fun w hw => wOK_mono (nodesMono_trans hmono01 hmono12) (hws w hw))
    (fun dn hdn => hmono12 _ _ (hmono01 _ _ (hdesc dn hdn))) h
  have hmid : KeysAdded s1 ⟨g2, s1.ctr⟩ := by
    refine ⟨le_refl _, fun k => ?_⟩
    show (∃ nd, alookup g2.nodes k = some nd) ↔ _
    rw [hn2]
    constructor
    · intro hh
      exact .inl hh
    · rintro (hh | hrange)
      · exact hh
      · exact absurd hrange (by show ¬(s1.ctr ≤ k ∧ k < s1.ctr); omega)
  exact ⟨hinv3, nodesMono_trans hmono01 (nodesMono_trans hmono12 hmono3),
    keysAdded_trans hkeys01 (keysAdded_trans hmid hkeys3), henv3⟩

/-- The master induction: every fuel level of the builder recursion satisfies
`PackOK`. -/
theorem buildPacks_spec : ∀ fuel : Nat, PackOK (buildPacks fuel) := by
  intro fuel
  induction fuel with
  | zero =>
    refine ⟨?_, ?_, ?_, ?_, ?_, ?_, ?_⟩
    · intro w env desc isArg isCond pt bi s n env' s' _ _ _ _ h
      exact absurd h (by simp [buildPacks, buildPackZero])
    · intro anc env desc pt bi s env' s' _ _ _ _ h
      exact absurd h (by simp [buildPacks, buildPackZero])
    · intro als env pn pt bi s denv' e' s' _ _ _ _ h
      exact absurd h (by simp [buildPacks, buildPackZero])
    · intro als env pn pt bi s lins denv' s' _ _ _ _ h
      exact absurd h (by simp [buildPacks, buildPackZero])
    · intro ws env pn pt bi s lins denv' s' _ _ _ _ h
      exact absurd h (by simp [buildPacks, buildPackZero])
    · intro cs env desc pt bi s env' s' _ _ _ _ h
      exact absurd h (by simp [buildPacks, buildPackZero])
    · intro ms env desc pt bi s e' s' _ _ _ _ h
      exact absurd h (by simp [buildPacks, buildPackZero])
  | succ fuel ih =>
    refine ⟨?_, ?_, ?_, ?_, ?_, ?_, ?_⟩
    · -- addWhistlerLineage
      intro w env desc isArg isCond pt bi s n env' s' hinv henv hwok hdesc h
      simp only [buildPacks, addWhistlerLineageF] at h
      cases hg : getNode w env bi s.ctr with
      | error e =>
        simp only [hg] at h
        exact absurd h (by simp)
      | ok trip =>
        obtain ⟨node, isNew, ctr1⟩ := trip
        simp only [hg] at h
        obtain ⟨hnew, hold⟩ := getNode_spec hg
        cases haddn : addNode fuel s.g node desc isArg isCond isNew with
        | error e =>
          simp only [haddn] at h
          exact absurd h (by simp)
        | ok g1 =>
          simp only [haddn] at h
          obtain ⟨hwfI, hacI, hcacheI, hidsI⟩ := hinv
          have hfresh : isNew = true → alookup s.g.nodes node.id = none := by
            intro ht
            obtain ⟨hid, _⟩ := hnew ht
            cases hl : alookup s.g.nodes node.id with
            | none => rfl
            | some nd =>
              have hlt := hidsI _ _ hl
              rw [hid] at hlt
              exact absurd hlt (lt_irrefl _)
          have hstored : isNew = false → alookup s.g.nodes node.id = some node := by
            intro hf
            exact hwok node (hold hf).2
          obtain ⟨hwf1, hac1, hmono1, hhas1, htl1, hkeys1⟩ :=
            addNode_ok_spec hwfI hacI hfresh hstored haddn
          have hcache1 : CacheOK g1 := by
            intro k tl hk
            rw [htl1] at hk
            exact linOK_mono hmono1 (hcacheI k tl hk)
          cases isNew with
          | false =>
            rw [if_pos rfl] at h
            injection h with h
            injection h with h1 h2
            injection h2 with h2 h3
            subst h1
            subst h2
            subst h3
            have hctr1 : ctr1 = s.ctr := (hold rfl).1
            subst hctr1
            refine ⟨⟨hwf1, hac1, hcache1, ?_⟩, hmono1, ⟨le_refl s.ctr, fun k => ?_⟩,
              hhas1, envOK_mono hmono1 henv⟩
            · intro k nd hk
              show k < s.ctr
              rcases (hkeys1 k).1 ⟨nd, hk⟩ with ⟨nd0, hnd0⟩ | ⟨hc, _⟩
              · exact hidsI k nd0 hnd0
              · exact Bool.noConfusion hc
            · show (∃ nd, alookup g1.nodes k = some nd) ↔
                ((∃ nd, alookup s.g.nodes k = some nd) ∨ (s.ctr ≤ k ∧ k < s.ctr))
              rw [hkeys1 k]
              constructor
              · rintro (hh | ⟨hc, _⟩)
                · exact .inl hh
                · exact Bool.noConfusion hc
              · rintro (hh | hr)
                · exact .inl hh
                · exact absurd hr (by omega)
          | true =>
            rw [if_neg (by simp)] at h
            obtain ⟨hid, hc1⟩ := hnew rfl
            cases hanc : getAllAncestors fuel w env pt with
            | error e =>
              simp only [hanc] at h
              exact absurd h (by simp)
            | ok allAncestors =>
              simp only [hanc] at h
              cases haal : (buildPacks fuel).aal allAncestors env (some node) pt bi
                  ⟨g1, ctr1⟩ with
              | error e =>
                simp only [haal] at h
                exact absurd h (by simp)
              | ok p1 =>
                obtain ⟨env1, s1⟩ := p1
                simp only [haal] at h
                injection h with h
                injection h with h1 h2
                injection h2 with h2 h3
                subst h1
                subst h2
                subst h3
                have hids1 : IdsBelow ⟨g1, ctr1⟩ := by
                  intro k nd hk
                  show k < ctr1
                  rcases (hkeys1 k).1 ⟨nd, hk⟩ with ⟨nd0, hnd0⟩ | ⟨_, hk2⟩
                  · have := hidsI k nd0 hnd0
                    omega
                  · rw [hk2, hid]
                    omega
                have hka1 : KeysAdded s ⟨g1, ctr1⟩ := by
                  refine ⟨by show s.ctr ≤ ctr1; omega, fun k => ?_⟩
                  show (∃ nd, alookup g1.nodes k = some nd) ↔
                    ((∃ nd, alookup s.g.nodes k = some nd) ∨ (s.ctr ≤ k ∧ k < ctr1))
                  rw [hkeys1 k]
                  constructor
                  · rintro (hh | ⟨_, hk2⟩)
                    · exact .inl hh
                    · refine .inr ?_
                      rw [hk2, hid]
                      omega
                  · rintro (hh | ⟨h1, h2⟩)
                    · exact .inl hh
                    · refine .inr ⟨rfl, ?_⟩
                      omega
                have hinv1 : Inv ⟨g1, ctr1⟩ := ⟨hwf1, hac1, hcache1, hids1⟩
                have hdesc1 : ∀ dn, some node = some dn → NodesHas g1 dn := by
                  intro dn hdn
                  injection hdn with hdn
                  subst hdn
                  exact hhas1
                obtain ⟨hinv2, hmono2, hkeys2, henv2⟩ := ih.2.1 allAncestors env
                  (some node) pt bi ⟨g1, ctr1⟩ env1 s1 hinv1 (envOK_mono hmono1 henv)
                  (ancOK_mono hmono1 (getAllAncestors_AncOK henv hanc)) hdesc1 haal
                exact ⟨hinv2, nodesMono_trans hmono1 hmono2,
                  keysAdded_trans hka1 hkeys2, hmono2 _ _ hhas1, henv2⟩
    · -- addAncestorLineages
      intro anc env desc pt bi s env' s' hinv henv hanc hdesc h
      simp only [buildPacks] at h
      cases desc with
      | none =>
        exact aal_tail_ok ih hinv henv hanc hdesc h
      | some dn =>
        cases dn with
        | target tnd =>
          exact aal_tail_ok ih hinv henv hanc hdesc h
        | constBool cnd =>
          exact aal_tail_ok ih hinv henv hanc hdesc h
        | constInt cnd =>
          exact aal_tail_ok ih hinv henv hanc hdesc h
        | constFloat cnd =>
          exact aal_tail_ok ih hinv henv hanc hdesc h
        | constString cnd =>
          exact aal_tail_ok ih hinv henv hanc hdesc h
        | argument cnd =>
          exact aal_tail_ok ih hinv henv hanc hdesc h
        | root cnd =>
          exact aal_tail_ok ih hinv henv hanc hdesc h
        | projector pnd =>
          have h2 : (match (buildPacks fuel).aargs anc.projectorArgs env pnd pt bi s with
            | Except.error e => (Except.error e : Except Err (Env × BState))
            | Except.ok (denv1, ancestorEnv, s1) =>
              match (buildPacks fuel).acond anc.conditions denv1
                  (some (Node.projector pnd)) pt bi s1 with
              | Except.error e => Except.error e
              | Except.ok (denv2, s2) =>
                match (buildPacks fuel).amain anc.mainAncestors ancestorEnv
                    (some (Node.projector pnd)) pt bi s2 with
                | Except.error e => Except.error e
                | Except.ok (_, s3) => Except.ok (denv2, s3)) = Except.ok (env', s') := h
          cases hargs : (buildPacks fuel).aargs anc.projectorArgs env pnd pt bi s with
          | error e =>
            simp only [hargs] at h2
            exact absurd h2 (by simp)
          | ok p2 =>
            obtain ⟨denv1, ancestorEnv, s1⟩ := p2
            simp only [hargs] at h2
            obtain ⟨hinv1, hmono1, hkeys1, hdenv1, haenv1⟩ := ih.2.2.1 anc.projectorArgs
              env pnd pt bi s denv1 ancestorEnv s1 hinv henv hanc.2.1 (hdesc _ rfl) hargs
            cases hcond : (buildPacks fuel).acond anc.conditions denv1
                (some (Node.projector pnd)) pt bi s1 with
            | error e =>
              simp only [hcond] at h2
              exact absurd h2 (by simp)
            | ok p3 =>
              obtain ⟨denv2, s2⟩ := p3
              simp only [hcond] at h2
              obtain ⟨hinv2, hmono2, hkeys2, hdenv2⟩ := ih.2.2.2.2.2.1 anc.conditions
                denv1 (some (Node.projector pnd)) pt bi s1 denv2 s2 hinv1 hdenv1
                (fun w hw => wOK_mono hmono1 (hanc.2.2 w hw))
                (fun dn2 hdn2 => by
                  injection hdn2 with hdn2
                  subst hdn2
                  exact hmono1 _ _ (hdesc _ rfl)) hcond
              cases hmain : (buildPacks fuel).amain anc.mainAncestors ancestorEnv
                  (some (Node.projector pnd)) pt bi s2 with
              | error e =>
                simp only [hmain] at h2
                exact absurd h2 (by simp)
              | ok p4 =>
                obtain ⟨penvX, s3⟩ := p4
                simp only [hmain] at h2
                injection h2 with h2
                injection h2 with h2a h2b
                subst h2a
                subst h2b
                obtain ⟨hinv3, hmono3, hkeys3, _⟩ := ih.2.2.2.2.2.2 anc.mainAncestors
                  ancestorEnv (some (Node.projector pnd)) pt bi s2 penvX s3 hinv2
                  (envOK_mono hmono2 haenv1)
                  (fun w hw => wOK_mono (nodesMono_trans hmono1 hmono2) (hanc.1 w hw))
                  (fun dn2 hdn2 => by
                    injection hdn2 with hdn2
                    subst hdn2
                    exact hmono2 _ _ (hmono1 _ _ (hdesc _ rfl))) hmain
                exact ⟨hinv3, nodesMono_trans hmono1 (nodesMono_trans hmono2 hmono3),
                  keysAdded_trans hkeys1 (keysAdded_trans hkeys2 hkeys3),
                  envOK_mono hmono3 hdenv2⟩
    · -- addArgLineages
      intro als env pn pt bi s denv' e' s' hinv henv hws hpn h
      simp only [buildPacks, addArgLineagesF] at h
      cases hll : (buildPacks fuel).aargsLists als env pn pt bi s with
      | error e =>
        simp only [hll] at h
        exact absurd h (by simp)
      | ok p2 =>
        obtain ⟨envArgs, denv1, s1⟩ := p2
        simp only [hll] at h
        injection h with h
        injection h with h1 h2
        injection h2 with h2 h3
        subst h1
        subst h2
        subst h3
        obtain ⟨hinv1, hmono1, hkeys1, hdenv1, hargs⟩ := ih.2.2.2.1 als env pn pt bi s
          envArgs denv1 s1 hinv henv hws hpn hll
        refine ⟨hinv1, hmono1, hkeys1, hdenv1, ?_, ?_, ?_⟩
        · intro al hal a ha
          exact hargs al hal a ha
        · intro p hp
          cases hp
        · intro p hp
          cases hp
    · -- the loop over argument slots
      intro als env pn pt bi s lins denv' s' hinv henv hws hpn h
      simp only [buildPacks, addArgListsLoopF] at h
      cases als with
      | nil =>
        injection h with h
        injection h with h1 h2
        injection h2 with h2 h3
        subst h1
        subst h2
        subst h3
        refine ⟨hinv, nodesMono_refl _, keysAdded_refl _, henv, ?_⟩
        intro al hal
        cases hal
      | cons args rest =>
        cases hinner : (buildPacks fuel).aargsInner args env pn pt bi s with
        | error e =>
          simp only [hinner] at h
          exact absurd h (by simp)
        | ok p1 =>
          obtain ⟨argLins, denv1, s1⟩ := p1
          simp only [hinner] at h
          obtain ⟨hinv1, hmono1, hkeys1, hdenv1, hlins1⟩ := ih.2.2.2.2.1 args env pn
            pt bi s argLins denv1 s1 hinv henv (hws args (List.mem_cons_self _ _))
            hpn hinner
          cases hrest : (buildPacks fuel).aargsLists rest denv1 pn pt bi s1 with
          | error e =>
            simp only [hrest] at h
            exact absurd h (by simp)
          | ok p2 =>
            obtain ⟨more, denv2, s2⟩ := p2
            simp only [hrest] at h
            injection h with h
            injection h with h1 h2
            injection h2 with h2 h3
            subst h1
            subst h2
            subst h3
            obtain ⟨hinv2, hmono2, hkeys2, hdenv2, hmore⟩ := ih.2.2.2.1 rest denv1 pn
              pt bi s1 more denv2 s2 hinv1 hdenv1
              (fun ws hws2 w hw => wOK_mono hmono1 (hws ws (List.mem_cons_of_mem _ hws2) w hw))
              (hmono1 _ _ hpn) hrest
            refine ⟨hinv2, nodesMono_trans hmono1 hmono2,
              keysAdded_trans hkeys1 hkeys2, hdenv2, ?_⟩
            intro al hal a ha
            rcases List.mem_cons.1 hal with rfl | hal
            · exact argOK_mono hmono2 (hlins1 a ha)
            · exact hmore al hal a ha
    · -- the loop over one slot's alternatives
      intro ws env pn pt bi s lins denv' s' hinv henv hws hpn h
      simp only [buildPacks, addArgInnerLoopF] at h
      cases ws with
      | nil =>
        injection h with h
        injection h with h1 h2
        injection h2 with h2 h3
        subst h1
        subst h2
        subst h3
        refine ⟨hinv, nodesMono_refl _, keysAdded_refl _, henv, ?_⟩
        intro a ha
        cases ha
      | cons arg rest =>
        cases hawl : (buildPacks fuel).awl arg env (some (.projector pn)) true false
            pt bi s with
        | error e =>
          simp only [hawl] at h
          exact absurd h (by simp)
        | ok p1 =>
          obtain ⟨node, denv1, s1⟩ := p1
          simp only [hawl] at h
          have hdesc1 : ∀ dn, some (Node.projector pn) = some dn → NodesHas s.g dn := by
            intro dn hdn
            injection hdn with hdn
            subst hdn
            exact hpn
          obtain ⟨hinv1, hmono1, hkeys1, hnode1, hdenv1⟩ := ih.1 arg env
            (some (.projector pn)) true false pt bi s node denv1 s1 hinv henv
            (hws arg (List.mem_cons_self _ _)) hdesc1 hawl
          cases hct : argChildTargets node s1.g with
          | error e =>
            simp only [hct] at h
            exact absurd h (by simp)
          | ok childTargets =>
            simp only [hct] at h
            cases hrest : (buildPacks fuel).aargsInner rest denv1 pn pt bi s1 with
            | error e =>
              simp only [hrest] at h
              exact absurd h (by simp)
            | ok p2 =>
              obtain ⟨more, denv2, s2⟩ := p2
              simp only [hrest] at h
              injection h with h
              injection h with h1 h2
              injection h2 with h2 h3
              subst h1
              subst h2
              subst h3
              obtain ⟨hinv2, hmono2, hkeys2, hdenv2, hmore⟩ := ih.2.2.2.2.1 rest denv1
                pn pt bi s1 more denv2 s2 hinv1 hdenv1
                (fun w hw => wOK_mono hmono1 (hws w (List.mem_cons_of_mem _ hw)))
                (hmono1 _ _ hpn) hrest
              refine ⟨hinv2, nodesMono_trans hmono1 hmono2,
                keysAdded_trans hkeys1 hkeys2, hdenv2, ?_⟩
              intro a ha
              rcases List.mem_cons.1 ha with rfl | ha
              · refine ⟨hmono2 _ _ hnode1, ?_⟩
                intro m hm
                exact mapOK_mono hmono2 (argChildTargets_MapOK hinv1.2.2.1 hct m hm)
              · exact hmore a ha
    · -- addConditionLineages
      intro cs env desc pt bi s env' s' hinv henv hws hdesc h
      simp only [buildPacks, addConditionLineagesF] at h
      cases cs with
      | nil =>
        injection h with h
        injection h with h1 h2
        subst h1
        subst h2
        exact ⟨hinv, nodesMono_refl _, keysAdded_refl _, henv⟩
      | cons c rest =>
        cases hawl : (buildPacks fuel).awl c env desc false true pt bi s with
        | error e =>
          simp only [hawl] at h
          exact absurd h (by simp)
        | ok p1 =>
          obtain ⟨node, denv1, s1⟩ := p1
          simp only [hawl] at h
          obtain ⟨hinv1, hmono1, hkeys1, _, hdenv1⟩ := ih.1 c env desc false true pt bi s
            node denv1 s1 hinv henv (hws c (List.mem_cons_self _ _)) hdesc hawl
          obtain ⟨hinv2, hmono2, hkeys2, hdenv2⟩ := ih.2.2.2.2.2.1 rest denv1 desc pt
            bi s1 env' s' hinv1 hdenv1
            (fun w hw => wOK_mono hmono1 (hws w (List.mem_cons_of_mem _ hw)))
            (fun dn hdn => hmono1 _ _ (hdesc dn hdn)) h
          exact ⟨hinv2, nodesMono_trans hmono1 hmono2, keysAdded_trans hkeys1 hkeys2,
            hdenv2⟩
    · -- addMainAncestorLineages
      intro ms env desc pt bi s e' s' hinv henv hws hdesc h
      simp only [buildPacks, addMainAncestorLineagesF] at h
      cases ms with
      | nil =>
        injection h with h
        injection h with h1 h2
        subst h1
        subst h2
        exact ⟨hinv, nodesMono_refl _, keysAdded_refl _, henv⟩
      | cons w rest =>
        cases hawl : (buildPacks fuel).awl w env desc false false pt bi s with
        | error e =>
          simp only [hawl] at h
          exact absurd h (by simp)
        | ok p1 =>
          obtain ⟨node, env1, s1⟩ := p1
          simp only [hawl] at h
          obtain ⟨hinv1, hmono1, hkeys1, hnode1, henv1⟩ := ih.1 w env desc false false
            pt bi s node env1 s1 hinv henv (hws w (List.mem_cons_self _ _)) hdesc hawl
          have hrest : ∀ w2 ∈ rest, WOK s.g w2 :=
            fun w2 hw2 => hws w2 (List.mem_cons_of_mem _ hw2)
          cases node with
          | target targetNd =>
            cases htlg : targetLineageFromGraph fuel targetNd s1.g with
            | error e =>
              simp only [htlg] at h
              exact absurd h (by simp)
            | ok lineage =>
              simp only [htlg] at h
              obtain ⟨hwf1, hac1, hcache1, hids1⟩ := hinv1
              have hlin : LinOK s1.g lineage :=
                targetLineageFromGraph_LinOK hcache1 hnode1 htlg
              have hstep := amain_cache_step targetNd.id hwf1 hcache1 hlin
              have henvV : EnvOK s1.g (env1.withVars
                  (appendOrAddTargetLineage env1.vars lineage targetNd.name)) := by
                refine ⟨?_, ?_, ?_⟩
                · rw [withVars_args]
                  exact henv1.1
                · rw [withVars_targets]
                  exact henv1.2.1
                · rw [withVars_vars]
                  exact mapOK_appendOrAdd henv1.2.2 hlin
              have henvT : EnvOK s1.g (env1.withTargets
                  (appendOrAddTargetLineage env1.targets lineage targetNd.name)) := by
                refine ⟨?_, ?_, ?_⟩
                · rw [withTargets_args]
                  exact henv1.1
                · rw [withTargets_targets]
                  exact mapOK_appendOrAdd henv1.2.1 hlin
                · rw [withTargets_vars]
                  exact henv1.2.2
              split at h
              · split at h
                · -- variable target recorded as a root/out target
                  refine amain_step_rest ih hmono1 hkeys1 ?_ ?_ ?_ hac1 ?_ hids1
                    henvV hrest hdesc h
                  · rfl
                  · rfl
                  · exact rt_step_wf hstep.1 hnode1
                  · exact hstep.2
                · refine amain_step_rest ih hmono1 hkeys1 ?_ ?_ ?_ hac1 ?_ hids1
                    henvV hrest hdesc h
                  · rfl
                  · rfl
                  · exact hstep.1
                  · exact hstep.2
              · split at h
                · refine amain_step_rest ih hmono1 hkeys1 ?_ ?_ ?_ hac1 ?_ hids1
                    henvT hrest hdesc h
                  · rfl
                  · rfl
                  · exact rt_step_wf hstep.1 hnode1
                  · exact hstep.2
                · refine amain_step_rest ih hmono1 hkeys1 ?_ ?_ ?_ hac1 ?_ hids1
                    henvT hrest hdesc h
                  · rfl
                  · rfl
                  · exact hstep.1
                  · exact hstep.2
          | constBool cnd =>
            exact amain_plain_rest ih hmono1 hkeys1 hinv1 henv1 hrest hdesc h
          | constInt cnd =>
            exact amain_plain_rest ih hmono1 hkeys1 hinv1 henv1 hrest hdesc h
          | constFloat cnd =>
            exact amain_plain_rest ih hmono1 hkeys1 hinv1 henv1 hrest hdesc h
          | constString cnd =>
            exact amain_plain_rest ih hmono1 hkeys1 hinv1 henv1 hrest hdesc h
          | projector cnd =>
            exact amain_plain_rest ih hmono1 hkeys1 hinv1 henv1 hrest hdesc h
          | argument cnd =>
            exact amain_plain_rest ih hmono1 hkeys1 hinv1 henv1 hrest hdesc h
          | root cnd =>
            exact amain_plain_rest ih hmono1 hkeys1 hinv1 henv1 hrest hdesc h

/-! ### The end-to-end facts about `New` -/

theorem wfGraph_empty : WFGraph GraphState.empty := by
  refine ⟨?_, ?_, ?_, ?_, ?_, ?_, ?_, ?_⟩
  · intro k l hkl
    exact Option.noConfusion hkl
  · intro k l hkl
    exact Option.noConfusion hkl
  · intro k l hkl
    exact Option.noConfusion hkl
  · intro k l hkl
    exact Option.noConfusion hkl
  · intro k
    constructor
    · rintro ⟨nd, hx⟩
      exact Option.noConfusion hx
    · rintro ⟨l, hx⟩
      exact Option.noConfusion hx
  · intro k
    constructor
    · rintro ⟨l, hx⟩
      exact Option.noConfusion hx
    · rintro ⟨nd, hx, _⟩
      exact Option.noConfusion hx
  · intro k
    constructor
    · rintro ⟨l, hx⟩
      exact Option.noConfusion hx
    · rintro ⟨nd, hx, _⟩
      exact Option.noConfusion hx
  · intro k nd h
    exact Option.noConfusion h

theorem acyclicArgless_empty : AcyclicArgless GraphState.empty := by
  have hstep : ∀ a b, ¬ EdgeStep GraphState.empty a b := by
    rintro a b ⟨⟨l, hl, _⟩, _, _⟩
    exact Option.noConfusion hl
  intro x hcyc
  cases hcyc with
  | single h => exact hstep _ _ h
  | tail _ h => exact hstep _ _ h

theorem inv_init (ctr0 : Int) : Inv ⟨GraphState.empty, ctr0⟩ :=
  ⟨wfGraph_empty, acyclicArgless_empty,
   fun _ _ h => Option.noConfusion h,
   fun _ _ h => Option.noConfusion h⟩

/-- A successful `New` satisfies the graph invariants, and its node keys are
exactly the counter interval it consumed. -/
theorem new_ok_spec {fuel : Nat} {mpc : MappingConfig} {bi : List String} {ctr0 : Int}
    {g : GraphState} {c1 : Int} (h : New fuel mpc bi ctr0 = .ok (g, c1)) :
    WFGraph g ∧ AcyclicArgless g ∧ ctr0 ≤ c1 ∧
    ∀ k, (∃ nd, alookup g.nodes k = some nd) ↔ (ctr0 ≤ k ∧ k < c1) := by
  have henv0 : EnvOK GraphState.empty (Env.mk "root" none [] [] []) := by
    refine ⟨?_, ?_, ?_⟩
    · intro al hal
      exact absurd hal (List.not_mem_nil al)
    · intro p hp
      exact absurd hp (List.not_mem_nil p)
    · intro p hp
      exact absurd hp (List.not_mem_nil p)
  have hanc0 : AncOK GraphState.empty ⟨mpc.rootMapping.map fun mapping =>
      (⟨some (.fieldMapping mapping), none, none⟩ : WhistlerNode), [], []⟩ := by
    refine ⟨?_, ?_, ?_⟩
    · intro w hw
      obtain ⟨m, _, rfl⟩ := List.mem_map.1 hw
      intro nd hnd
      exact Option.noConfusion hnd
    · intro ws hws
      exact absurd hws (List.not_mem_nil ws)
    · intro w hw
      exact absurd hw (List.not_mem_nil w)
  simp only [New] at h
  split at h
  · exact absurd h (by simp)
  · rename_i envx s heq
    injection h with h
    injection h with h1 h2
    subst h1
    subst h2
    obtain ⟨hinv', hmono', hkeys', _⟩ := (buildPacks_spec fuel).2.1 _ _ _ _ _ _ _ _
      (inv_init ctr0) henv0 hanc0 (fun dn hdn => Option.noConfusion hdn) heq
    refine ⟨hinv'.1, hinv'.2.1, hkeys'.1, fun k => ?_⟩
    have hk := hkeys'.2 k
    constructor
    · intro hh
      rcases hk.1 hh with ⟨nd, hnd⟩ | hr
      · exact absurd hnd (by exact Option.noConfusion)
      · exact hr
    · intro hr
      exact hk.2 (.inr hr)

/-- C1: the recursion check is sound end to end — for every mapping
configuration on which the builder `New` returns a graph without error, the
returned graph's value-edge relation `Edges` is acyclic once `Argument`
nodes (and the edges through them) are removed. -/
theorem new_acyclic_argless (fuel : Nat) (mpc : MappingConfig) (bi : List String)
    (ctr0 : Int) (g : GraphState) (c1 : Int)
    (h : New fuel mpc bi ctr0 = .ok (g, c1)) : AcyclicArgless g :=
  (new_ok_spec h).2.1

/-- The witness configuration for C1: the single root mapping `w1: true`. -/
def c1VS : ValueSource := .mk (.constBool true) "" .nil

def c1FM : FieldMapping := ⟨some (.targetField "w1"), some c1VS, none⟩

def c1Mpc : MappingConfig := ⟨[], [c1FM]⟩

def c1TN : TargetND := ⟨0, "w1", "root", false, false, false, false, .zero, .fieldMapping c1FM⟩

/-- The graph the builder returns on `c1Mpc` from counter 0. -/
def c1Graph : GraphState :=
  ⟨[(0, [1]), (1, [])], [], [(0, [])], [],
   [(0, .target c1TN), (1, .constBool ⟨1, true, "root", .zero, .valueSource c1VS⟩)],
   [(0, .mk c1TN [])]⟩

theorem new_acyclic_argless_witness : AcyclicArgless c1Graph :=
  new_acyclic_argless 8 c1Mpc [] 0 c1Graph 2 rfl

/-- C3: in every graph returned without error by the builder, every id in any
`Edges`, `ArgumentEdges`, or `ConditionEdges` adjacency list and in every
`RootAndOutTargets` list is a key of `Nodes`, the key set of `ArgumentEdges`
is exactly the set of `Projector` node ids, and the key set of
`ConditionEdges` is exactly the set of `Target` node ids. -/
theorem new_graph_integrity (fuel : Nat) (mpc : MappingConfig) (bi : List String)
    (ctr0 : Int) (g : GraphState) (c1 : Int)
    (h : New fuel mpc bi ctr0 = .ok (g, c1)) :
    (∀ k l, alookup g.edges k = some l → ∀ v ∈ l, ∃ nd, alookup g.nodes v = some nd) ∧
    (∀ k l, alookup g.argumentEdges k = some l →
      ∀ v ∈ l, ∃ nd, alookup g.nodes v = some nd) ∧
    (∀ k l, alookup g.conditionEdges k = some l →
      ∀ v ∈ l, ∃ nd, alookup g.nodes v = some nd) ∧
    (∀ k l, alookup g.rootAndOutTargets k = some l →
      ∀ v ∈ l, ∃ nd, alookup g.nodes v = some nd) ∧
    (∀ k, (∃ l, alookup g.argumentEdges k = some l) ↔
      (∃ nd, alookup g.nodes k = some nd ∧ nd.isProjector = true)) ∧
    (∀ k, (∃ l, alookup g.conditionEdges k = some l) ↔
      (∃ nd, alookup g.nodes k = some nd ∧ nd.isTarget = true)) := by
  obtain ⟨hwf, _, _, _⟩ := new_ok_spec h
  exact ⟨hwf.edgesClosed, hwf.argClosed, hwf.condClosed, hwf.rootClosed,
    hwf.argKeys, hwf.condKeys⟩

/-- The witness configuration for C3: the single root mapping `w3: false`. -/
def c3VS : ValueSource := .mk (.constBool false) "" .nil

def c3FM : FieldMapping := ⟨some (.targetField "w3"), some c3VS, none⟩

def c3Mpc : MappingConfig := ⟨[], [c3FM]⟩

def c3TN : TargetND := ⟨0, "w3", "root", false, false, false, false, .zero, .fieldMapping c3FM⟩

/-- The graph the builder returns on `c3Mpc` from counter 0. -/
def c3Graph : GraphState :=
  ⟨[(0, [1]), (1, [])], [], [(0, [])], [],
   [(0, .target c3TN), (1, .constBool ⟨1, false, "root", .zero, .valueSource c3VS⟩)],
   [(0, .mk c3TN [])]⟩

theorem new_graph_integrity_witness :
    (∀ k l, alookup c3Graph.edges k = some l →
      ∀ v ∈ l, ∃ nd, alookup c3Graph.nodes v = some nd) ∧
    (∀ k l, alookup c3Graph.argumentEdges k = some l →
      ∀ v ∈ l, ∃ nd, alookup c3Graph.nodes v = some nd) ∧
    (∀ k l, alookup c3Graph.conditionEdges k = some l →
      ∀ v ∈ l, ∃ nd, alookup c3Graph.nodes v = some nd) ∧
    (∀ k l, alookup c3Graph.rootAndOutTargets k = some l →
      ∀ v ∈ l, ∃ nd, alookup c3Graph.nodes v = some nd) ∧
    (∀ k, (∃ l, alookup c3Graph.argumentEdges k = some l) ↔
      (∃ nd, alookup c3Graph.nodes k = some nd ∧ nd.isProjector = true)) ∧
    (∀ k, (∃ l, alookup c3Graph.conditionEdges k = some l) ↔
      (∃ nd, alookup c3Graph.nodes k = some nd ∧ nd.isTarget = true)) :=
  new_graph_integrity 8 c3Mpc [] 0 c3Graph 2 rfl

/-- C6 (amended): node ids are allocated by a single monotonic counter that
is process-global and not reset by `New`: a successful build started at
counter value `c0` returns counter `c1 ≥ c0` and assigns exactly the ids
`c0, c0+1, ..., c1-1` — its node keys are precisely that interval, dense and
monotonically increasing, continuing wherever the previous build stopped
rather than restarting at 0. -/
theorem new_ids_dense (fuel : Nat) (mpc : MappingConfig) (bi : List String)
    (c0 : Int) (g : GraphState) (c1 : Int)
    (h : New fuel mpc bi c0 = .ok (g, c1)) :
    c0 ≤ c1 ∧ ∀ k, (∃ nd, alookup g.nodes k = some nd) ↔ (c0 ≤ k ∧ k < c1) := by
  obtain ⟨_, _, hle, hiff⟩ := new_ok_spec h
  exact ⟨hle, hiff⟩

/-- The witness configuration for C6: the single root mapping `w6: true`,
built with the counter starting at 5 (as after an earlier build). -/
def c6wVS : ValueSource := .mk (.constBool true) "" .nil

def c6wFM : FieldMapping := ⟨some (.targetField "w6"), some c6wVS, none⟩

def c6wMpc : MappingConfig := ⟨[], [c6wFM]⟩

def c6wTN : TargetND := ⟨5, "w6", "root", false, false, false, false, .zero, .fieldMapping c6wFM⟩

/-- The graph the builder returns on `c6wMpc` from counter 5. -/
def c6wGraph : GraphState :=
  ⟨[(5, [6]), (6, [])], [], [(5, [])], [],
   [(5, .target c6wTN), (6, .constBool ⟨6, true, "root", .zero, .valueSource c6wVS⟩)],
   [(5, .mk c6wTN [])]⟩

theorem new_ids_dense_witness :
    (5 : Int) ≤ 7 ∧
    ∀ k, (∃ nd, alookup c6wGraph.nodes k = some nd) ↔ ((5 : Int) ≤ k ∧ k < 7) :=
  new_ids_dense 8 c6wMpc [] 5 c6wGraph 7 rfl

end Lineage
